import Mathlib

/-!
Verification of the claim/scene matching and manifest-merging pipeline of
`scripts/render_manim.py` (with the twin tag normalizer of
`scripts/build_definitions.py`).

The Python code manipulates JSON-like dynamic values (the results of
`json.loads` plus `None`), so the embedding is built on a shallow JSON value
type `J` together with the fragments of Python semantics the scripts use:
truthiness, `x or y`, `str(x)`, `.strip()`, `dict.get`, and dictionary
insertion-order updates.  Modeling notes:

* JSON numbers are modeled as integers (`Int`); the repository's payloads use
  no fractional numbers and no claim concerns float behaviour.
* `.strip()` is modeled as stripping the ASCII whitespace characters
  space/tab/newline/carriage-return/form-feed/vertical-tab; Python also strips
  other Unicode whitespace, which does not occur in the repository's data.
* `repr` of strings (reachable only through `str()` applied to a list or dict)
  models CPython's quote selection and escapes backslashes and quote
  characters, but not control-character escaping.
* Python dictionaries (from `json.loads`) have unique, string keys; `J.obj`
  carries an association list and lookups take the first match.  The
  cross-type key equality of Python dicts (`1 == True`) is not modeled; the
  theorems below only involve string (or simple scalar) keys.
* A Python exception (`AttributeError`, `TypeError`, unhashable key, ...) is
  modeled as `Except.error ()`; code that cannot raise is pure.
-/

/-- JSON-like dynamic value: the payloads traveling through the scripts
(`None`, booleans, numbers, strings, arrays, objects). -/
inductive J where
  | null : J
  | bool (b : Bool) : J
  | num (n : Int) : J
  | str (s : String) : J
  | arr (xs : List J) : J
  | obj (kvs : List (String × J)) : J

/-- Python truthiness of a value: `None`, `False`, `0`, `""`, `[]`, `{}` are
falsy, everything else truthy. -/
def pyTruthy : J → Bool
  | J.null => false
  | J.bool b => b
  | J.num n => n != 0
  | J.str s => s ≠ ""
  | J.arr xs => ¬ xs.isEmpty
  | J.obj kvs => ¬ kvs.isEmpty

/-- Python `a or b`: `a` when truthy, else `b`. -/
def pyOr (a b : J) : J := if pyTruthy a then a else b

/-- Characters stripped by Python's `str.strip()` (ASCII fragment). -/
def pySpace (c : Char) : Bool :=
  c = ' ' ∨ c = '\t' ∨ c = '\n' ∨ c = '\r' ∨ c = Char.ofNat 11 ∨ c = Char.ofNat 12

/-- Strip `pySpace` characters from both ends of a character list. -/
def stripChars (l : List Char) : List Char :=
  ((l.dropWhile pySpace).reverse.dropWhile pySpace).reverse

/-- Python `s.strip()`. -/
def pyStrip (s : String) : String := String.mk (stripChars s.data)

/-- Quote-and-escape a string the way CPython's `repr` does (single quotes
unless the string contains a single quote but no double quote; backslashes and
the chosen quote escaped). -/
def pyReprStr (s : String) : String :=
  let q : Char := if s.data.contains '\'' ∧ ¬ s.data.contains '"' then '"' else '\''
  let esc : List Char → List Char := fun l =>
    l.flatMap (fun c => if c = '\\' ∨ c = q then ['\\', c] else [c])
  String.mk (q :: esc s.data ++ [q])

mutual

/-- Python `repr` of a JSON-like value. -/
def pyRepr : J → String
  | J.null => "None"
  | J.bool true => "True"
  | J.bool false => "False"
  | J.num n => toString n
  | J.str s => pyReprStr s
  | J.arr xs => "[" ++ String.intercalate ", " (pyReprList xs) ++ "]"
  | J.obj kvs => "\x7b" ++ String.intercalate ", " (pyReprObj kvs) ++ "\x7d"

/-- Helper of `pyRepr` for array elements. -/
def pyReprList : List J → List String
  | [] => []
  | x :: t => pyRepr x :: pyReprList t

/-- Helper of `pyRepr` for object entries. -/
def pyReprObj : List (String × J) → List String
  | [] => []
  | (k, v) :: t => (pyReprStr k ++ ": " ++ pyRepr v) :: pyReprObj t

end

/-- Python `str(x)`.  The scalar cases are spelled out (rather than delegating
to `pyRepr`) so that they reduce structurally. -/
def pyStr : J → String
  | J.null => "None"
  | J.bool true => "True"
  | J.bool false => "False"
  | J.num n => toString n
  | J.str s => s
  | J.arr xs => pyRepr (J.arr xs)
  | J.obj kvs => pyRepr (J.obj kvs)

/-- Python `d.get(k)` on an object's association list: first match, `None`
(i.e. `J.null`) when the key is absent. -/
def objGet (kvs : List (String × J)) (k : String) : J :=
  match kvs.find? (fun p => p.1 = k) with
  | some p => p.2
  | none => J.null

/-- Python `d.get(k, default)`: the stored value (even `None`) when the key is
present, the default otherwise. -/
def objGetD (kvs : List (String × J)) (k : String) (d : J) : J :=
  match kvs.find? (fun p => p.1 = k) with
  | some p => p.2
  | none => d

/-- Lookup through a possibly-non-object value: `objGet` on objects, `J.null`
otherwise (total convenience used in theorem statements). -/
def jGet (v : J) (k : String) : J :=
  match v with
  | J.obj kvs => objGet kvs k
  | _ => J.null

/-- Key-presence test (`k in d`). -/
def hasKey (v : J) (k : String) : Bool :=
  match v with
  | J.obj kvs => kvs.any (fun p => p.1 = k)
  | _ => false

/-- Python dict assignment `d[k] = v`: replaces the first binding of `k`
keeping its position, otherwise appends the new binding. -/
def setKey : List (String × J) → String → J → List (String × J)
  | [], k, v => [(k, v)]
  | (k', v') :: t, k, v =>
      if k' = k then (k, v) :: t else (k', v') :: setKey t k v

/-- A value usable as a Python dict key (`None`, bools, numbers, strings are
hashable; lists and dicts raise `TypeError`). -/
def hashable : J → Bool
  | J.arr _ => false
  | J.obj _ => false
  | _ => true

/-- Require an object ( `.get` on anything else raises `AttributeError`). -/
def asObj : J → Except Unit (List (String × J))
  | J.obj kvs => Except.ok kvs
  | _ => Except.error ()

/-- Require a string (e.g. `PROJECT_ROOT / src` raises on non-strings). -/
def asStr : J → Except Unit String
  | J.str s => Except.ok s
  | _ => Except.error ()

/-- Python `.strip()` has no meaning on non-strings: `AttributeError`. -/
def stripE : J → Except Unit String
  | J.str s => Except.ok (pyStrip s)
  | _ => Except.error ()

/-! ### `_as_list` and `normalize_tags` (`scripts/render_manim.py` lines 26-89) -/

/-- One iteration step of `_as_list`: `str(item).strip()`, skipping `None`
and empty results. -/
def asListStep (item : J) : Option String :=
  match item with
  | J.null => none
  | _ =>
      let text := pyStrip (pyStr item)
      if text = "" then none else some text

/-- Helper of `_as_list`: the whole iteration. -/
def asListItems (items : List J) : List String :=
  items.filterMap asListStep

/-- `_as_list(value)`: normalize a string/iterable into a list of trimmed,
non-empty strings.  Iterating a dict yields its keys; non-iterables give `[]`
(the `TypeError` is caught). -/
def asList (value : J) : List String :=
  if ¬ pyTruthy value then []
  else
    match value with
    | J.str s => if pyStrip s = "" then [] else [pyStrip s]
    | J.arr xs => asListItems xs
    | J.obj kvs => asListItems (kvs.map (fun p => J.str p.1))
    | _ => []

/-- Worker for `dedupe`: drop every element already seen. -/
def dedupeGo (seen : List String) : List String → List String
  | [] => []
  | x :: t => if x ∈ seen then dedupeGo seen t else x :: dedupeGo (x :: seen) t

/-- Order-preserving deduplication, first occurrence wins
(`list(dict.fromkeys(...))`). -/
def dedupe (l : List String) : List String := dedupeGo [] l

/-- The `tags` sub-dict used by `normalize_tags`: `entry.get("tags", {})` when
it is a dict, `{}` otherwise. -/
def tagsDictOf (kvs : List (String × J)) : List (String × J) :=
  match objGetD kvs "tags" (J.obj []) with
  | J.obj t => t
  | _ => []

/-- The `subjects` chain of `normalize_tags`. -/
def subjectsChain (kvs : List (String × J)) : J :=
  let tagsDict := tagsDictOf kvs
  pyOr (objGet tagsDict "subjects")
    (pyOr (objGet tagsDict "subject")
      (pyOr (objGet kvs "subjects") (objGet kvs "subject")))

/-- The `chapter` chain of `normalize_tags`. -/
def chapterChain (kvs : List (String × J)) : J :=
  pyOr (objGet (tagsDictOf kvs) "chapter") (objGet kvs "chapter")

/-- The `number` chain of `normalize_tags` (note the final `label`
fallback). -/
def numberChain (kvs : List (String × J)) : J :=
  let tagsDict := tagsDictOf kvs
  pyOr (objGet tagsDict "number")
    (pyOr (objGet tagsDict "numbering")
      (pyOr (objGet kvs "number")
        (pyOr (objGet kvs "numbering") (objGet kvs "label"))))

/-- The `subjects` key of the normalized output: present only when
`_as_list` finds something, deduplicated keeping first occurrences. -/
def subjectsPart (v : J) : List (String × J) :=
  let sl := asList v
  if sl.isEmpty then [] else [("subjects", J.arr ((dedupe sl).map J.str))]

/-- The `chapter`/`number` keys of the normalized output: skipped for `None`,
and for values whose stripped string form is empty. -/
def scalarPart (k : String) (v : J) : List (String × J) :=
  match v with
  | J.null => []
  | c =>
      let cs := pyStrip (pyStr c)
      if cs = "" then [] else [(k, J.str cs)]

/-- Shared field-collection core of the two `normalize_tags` variants (they
are textually identical from the `tags = entry.get(...)` line on). -/
def normalizeTagsCore (kvs : List (String × J)) : List (String × J) :=
  subjectsPart (subjectsChain kvs) ++ scalarPart "chapter" (chapterChain kvs) ++
    scalarPart "number" (numberChain kvs)

/-- `normalize_tags` of `scripts/render_manim.py` (guards against falsy or
non-dict input, returning `{}`). -/
def normalize_tags (entry : J) : J :=
  if ¬ pyTruthy entry then J.obj []
  else
    match entry with
    | J.obj kvs => J.obj (normalizeTagsCore kvs)
    | _ => J.obj []

/-- `normalize_tags` of `scripts/build_definitions.py`: same body but no
falsy/non-dict guard — its signature promises a dict, so the embedding takes
the association list directly. -/
def normalize_tags_definitions (kvs : List (String × J)) : J :=
  J.obj (normalizeTagsCore kvs)

/-! ### `normalize_claims` (`scripts/render_manim.py` lines 92-130) -/

/-- `chr(ord("a") + idx)`. -/
def letterAt (idx : Nat) : String := String.mk [Char.ofNat (97 + idx)]

/-- Normalization of one raw claim entry at raw position `idx`
(the body of the `for idx, entry in enumerate(raw_claims)` loop). -/
def normalizeClaimEntry (idx : Nat) (kvs : List (String × J)) : J :=
  let claimId0 :=
    pyStrip (pyStr (pyOr (objGet kvs "id")
      (pyOr (objGet kvs "label") (J.str (letterAt idx)))))
  let claimId := if claimId0 = "" then letterAt idx else claimId0
  let label := pyOr (objGet kvs "label") (J.str ("(" ++ claimId ++ ")"))
  let steps :=
    match objGet kvs "steps" with
    | J.arr xs => J.arr xs
    | _ => J.arr []
  J.obj
    [("id", J.str claimId),
     ("label", label),
     ("scene",
       pyOr (objGet kvs "scene")
         (pyOr (objGet kvs "animation") (objGet kvs "variant"))),
     ("statement", pyOr (objGet kvs "statement") (J.str "")),
     ("steps", steps)]

/-- Worker over the enumerated raw claims list (non-dict entries are skipped
but still consume their position). -/
def normalizeClaimsGo (idx : Nat) : List J → List J
  | [] => []
  | J.obj kvs :: rest => normalizeClaimEntry idx kvs :: normalizeClaimsGo (idx + 1) rest
  | _ :: rest => normalizeClaimsGo (idx + 1) rest

/-- `normalize_claims(payload)`: returns `[]` unless the payload is a truthy
dict whose `claims` key holds a list. -/
def normalize_claims (payload : J) : List J :=
  if ¬ pyTruthy payload then []
  else
    match payload with
    | J.obj kvs =>
        match objGet kvs "claims" with
        | J.arr rawClaims => normalizeClaimsGo 0 rawClaims
        | _ => []
    | _ => []

/-- `normalize_claims` lifted over `dict | None` (the loader returns `None`
when no proof file was found). -/
def normalizeClaimsOpt : Option J → List J
  | none => []
  | some p => normalize_claims p

/-! ### `pick_claim_for_scene` (`scripts/render_manim.py` lines 153-173)

The scene name is passed as a `J` value because the text-only refresh feeds
`item.get("scene")` (which may be `None` or any JSON value) straight into the
matcher; a Python `str == nonstr` comparison is simply `False`. -/

/-- Python `scene_ref == scene_name` where `scene_ref` is a `str`. -/
def strEqJ (s : String) (v : J) : Bool :=
  match v with
  | J.str t => s == t
  | _ => false

/-- First loop of `pick_claim_for_scene`: explicit `scene` match.  Non-dict
claims are skipped; `(claim.get("scene") or "").strip()` raises on truthy
non-string `scene` values. -/
def pickSceneLoop (sceneName : J) : List J → Except Unit (Option J)
  | [] => Except.ok none
  | c :: rest =>
      match c with
      | J.obj kvs =>
          match stripE (pyOr (objGet kvs "scene") (J.str "")) with
          | Except.error e => Except.error e
          | Except.ok sceneRef =>
              if (sceneRef != "") && strEqJ sceneRef sceneName then Except.ok (some c)
              else pickSceneLoop sceneName rest
      | _ => pickSceneLoop sceneName rest

/-- Second loop of `pick_claim_for_scene`: claim-id match.  This loop has no
`isinstance` guard, so a non-dict claim raises `AttributeError`. -/
def pickIdLoop (sceneName : J) : List J → Except Unit (Option J)
  | [] => Except.ok none
  | c :: rest =>
      match asObj c with
      | Except.error e => Except.error e
      | Except.ok kvs =>
          let cid := pyStrip (pyStr (pyOr (objGet kvs "id") (J.str "")))
          if (cid != "") && strEqJ cid sceneName then Except.ok (some c)
          else pickIdLoop sceneName rest

/-- `pick_claim_for_scene(claims, scene_name, scene_index)`: explicit scene
match, then id match, then positional, then first claim, else `None`.  The
scene index comes from `enumerate`, hence a natural number (the Python
`0 <= scene_index` guard is automatically true). -/
def pick_claim_for_scene (claims : List J) (sceneName : J) (sceneIndex : Nat) :
    Except Unit (Option J) := do
  match ← pickSceneLoop sceneName claims with
  | some c => Except.ok (some c)
  | none =>
    match ← pickIdLoop sceneName claims with
    | some c => Except.ok (some c)
    | none =>
      if h : sceneIndex < claims.length then Except.ok (some (claims.get ⟨sceneIndex, h⟩))
      else Except.ok claims.head?

/-! Spec-side matcher (claim C1).  Written from the claim's words: an ordered
first-match-wins rule chain over the claim sequence. -/

/-- Rule 1 of the claim as stated: the claim carries a string `scene` field
whose trimmed value equals the scene identifier (no non-emptiness
requirement on the trimmed value). -/
def ruleSceneLiteral (sceneName : String) (c : J) : Bool :=
  match c with
  | J.obj kvs =>
      match objGet kvs "scene" with
      | J.str s => pyStrip s = sceneName
      | _ => false
  | _ => false

/-- Rule 2 of the claim as stated: the claim carries an `id` whose trimmed
string form equals the scene identifier (again with no non-emptiness
requirement). -/
def ruleIdLiteral (sceneName : String) (c : J) : Bool :=
  match c with
  | J.obj kvs =>
      match objGet kvs "id" with
      | J.null => false
      | v => pyStrip (pyStr v) = sceneName
  | _ => false

/-- Positional/fallback tail shared by the literal and amended rule chains. -/
def rulePositional (claims : List J) (sceneIndex : Nat) : Option J :=
  if h : sceneIndex < claims.length then some (claims.get ⟨sceneIndex, h⟩)
  else claims.head?

/-- The matcher exactly as claim C1 states it: first scene-field match, else
first id match, else position, else first claim, else none. -/
def pickClaimLiteral (claims : List J) (sceneName : String) (sceneIndex : Nat) : Option J :=
  match claims.find? (ruleSceneLiteral sceneName) with
  | some c => some c
  | none =>
      match claims.find? (ruleIdLiteral sceneName) with
      | some c => some c
      | none => rulePositional claims sceneIndex

/-- Rule 1 amended: the trimmed scene field must also be non-empty. -/
def ruleSceneAmended (sceneName : String) (c : J) : Bool :=
  match c with
  | J.obj kvs =>
      match pyOr (objGet kvs "scene") (J.str "") with
      | J.str s => (pyStrip s != "") && (pyStrip s == sceneName)
      | _ => false
  | _ => false

/-- Rule 2 amended: the trimmed string form of `id` must also be non-empty. -/
def ruleIdAmended (sceneName : String) (c : J) : Bool :=
  match c with
  | J.obj kvs =>
      let cid := pyStrip (pyStr (pyOr (objGet kvs "id") (J.str "")))
      (cid != "") && (cid == sceneName)
  | _ => false

/-- The amended rule chain: as claim C1, but rules 1 and 2 require the
trimmed value to be non-empty (Python truthiness of the stripped string). -/
def pickClaimAmended (claims : List J) (sceneName : String) (sceneIndex : Nat) : Option J :=
  match claims.find? (ruleSceneAmended sceneName) with
  | some c => some c
  | none =>
      match claims.find? (ruleIdAmended sceneName) with
      | some c => some c
      | none => rulePositional claims sceneIndex

/-- Well-formedness of a claim sequence for the matcher: every claim is a
dict and a truthy `scene` field is a string (otherwise
`pick_claim_for_scene` raises). -/
def wfClaimForPick (c : J) : Bool :=
  match c with
  | J.obj kvs =>
      match objGet kvs "scene" with
      | J.str _ => true
      | v => ¬ pyTruthy v
  | _ => false

/-! ### `extract_proof_from_payload` (`scripts/render_manim.py` lines 291-314) -/

/-- Lookup of `payload["scenes"].get(scene_name)`: JSON object keys are
strings, so a non-string scene name never matches. -/
def sceneGet (kvs : List (String × J)) (sceneName : J) : J :=
  match sceneName with
  | J.str s => objGet kvs s
  | _ => J.null

/-- `extract_proof_from_payload(payload, scene_name)`. -/
def extract_proof_from_payload (payload : J) (sceneName : J) : Option J :=
  match payload with
  | J.arr xs => some (J.obj [("steps", J.arr xs)])
  | J.obj kvs =>
      let fromScenes : Option J :=
        match objGet kvs "scenes" with
        | J.obj skvs =>
            match sceneGet skvs sceneName with
            | J.arr xs => some (J.obj [("steps", J.arr xs)])
            | J.obj d => some (J.obj d)
            | _ => none
        | _ => none
      match fromScenes with
      | some r => some r
      | none =>
          match objGet kvs "steps" with
          | J.arr _ => some (J.obj kvs)
          | _ => none
  | _ => none

/-! Spec-side extraction chain (claim C4), written rule by rule from the
claim's words; the rules after the first apply only to mapping payloads. -/

/-- C4 rule 1: a bare list payload is wrapped as a steps object. -/
def ruleBareList (payload : J) : Option J :=
  match payload with
  | J.arr xs => some (J.obj [("steps", J.arr xs)])
  | _ => none

/-- C4 rule 2: the sub-object stored under the scene name inside a `scenes`
mapping; a bare list is wrapped the same way.  A sub-entry that is neither a
list nor a mapping (or an absent scene key) yields nothing, letting the next
rule apply. -/
def ruleScenesMap (payload : J) (sceneName : String) : Option J :=
  match payload with
  | J.obj kvs =>
      match objGet kvs "scenes" with
      | J.obj skvs =>
          match objGet skvs sceneName with
          | J.arr xs => some (J.obj [("steps", J.arr xs)])
          | J.obj d => some (J.obj d)
          | _ => none
      | _ => none
  | _ => none

/-- C4 rule 3: the whole payload when it carries a top-level `steps` list. -/
def ruleWholeSteps (payload : J) : Option J :=
  match payload with
  | J.obj kvs =>
      match objGet kvs "steps" with
      | J.arr _ => some (J.obj kvs)
      | _ => none
  | _ => none

/-- The extraction chain exactly as claim C4 states it. -/
def extractSpecChain (payload : J) (sceneName : String) : Option J :=
  (ruleBareList payload).or ((ruleScenesMap payload sceneName).or (ruleWholeSteps payload))

/-! ### `attach_claim_animation_links` (`scripts/render_manim.py` lines 473-518)

The pass-1/pass-2 claim map is a Python dict keyed by the normalized claim id
(a string, so always hashable); it is modeled as an insertion-ordered list of
`StoredClaim` records with unique ids.  A stored claim's optional keys
(`label`, `statement`, `scene`, `animationId`) are `Option` fields; the
serialization below emits them in a fixed order, whereas a Python dict would
emit them in first-insertion order — no claim depends on JSON key order. -/

/-- One entry of the claim map built by `attach_claim_animation_links`. -/
structure StoredClaim where
  id : String
  label : Option J
  statement : Option J
  scene : Option J
  animationId : Option J

/-- Fresh map entry `{"id": cid}` (the `setdefault` default). -/
def StoredClaim.new (cid : String) : StoredClaim := ⟨cid, none, none, none, none⟩

/-- `entry.setdefault("label", d)`. -/
def StoredClaim.labelDefault (s : StoredClaim) (d : String) : StoredClaim :=
  match s.label with
  | some _ => s
  | none => ⟨s.id, some (J.str d), s.statement, s.scene, s.animationId⟩

/-- `entry["animationId"] = v`. -/
def StoredClaim.setAnim (s : StoredClaim) (v : J) : StoredClaim :=
  ⟨s.id, s.label, s.statement, s.scene, some v⟩

/-- `claim_map.setdefault(cid, {"id": cid})` followed by in-place mutation
`f` of the entry. -/
def upsertStored (m : List StoredClaim) (cid : String) (f : StoredClaim → StoredClaim) :
    List StoredClaim :=
  if m.any (fun s => s.id = cid) then m.map (fun s => if s.id = cid then f s else s)
  else m ++ [f (StoredClaim.new cid)]

/-- Truthiness of `stored.get(key)` (absent key is `None`). -/
def optTruthy : Option J → Bool
  | some v => pyTruthy v
  | none => false

/-- One field of the merge loop: `if claim.get(key) and not stored.get(key):
stored[key] = claim[key]`. -/
def mergeField (stored : Option J) (v : J) : Option J :=
  if pyTruthy v ∧ ¬ optTruthy stored then some v else stored

/-- The whole `for key in ("label", "statement", "scene")` merge loop. -/
def mergeClaimFields (ckvs : List (String × J)) (s : StoredClaim) : StoredClaim :=
  ⟨s.id,
   mergeField s.label (objGet ckvs "label"),
   mergeField s.statement (objGet ckvs "statement"),
   mergeField s.scene (objGet ckvs "scene"),
   s.animationId⟩

/-- `str(claim.get("id") or "main")` — the claim-map key. -/
def cidOfClaim (ckvs : List (String × J)) : String :=
  pyStr (pyOr (objGet ckvs "id") (J.str "main"))

/-- The claims an item contributes to pass 1: `item.proof.claims` when
truthy, else the synthesized `[{"id": active, "label": active}]`.  A truthy
non-list `claims` value raises as soon as iteration reaches an element
(strings yield characters, dicts yield keys; both lack `.get`; other types
are not iterable). -/
def itemClaimsE (it : J) : Except Unit (List J) := do
  let kvs ← asObj it
  let pkvs ← asObj (pyOr (objGet kvs "proof") (J.obj []))
  let claims := pyOr (objGet pkvs "claims") (J.arr [])
  if pyTruthy claims then
    match claims with
    | J.arr cs => Except.ok cs
    | _ => Except.error ()
  else
    let active := pyOr (objGet pkvs "activeClaimId") (J.str "main")
    Except.ok [J.obj [("id", active), ("label", active)]]

/-- Pass-1 processing of one contributed claim. -/
def collectClaimE (m : List StoredClaim) (c : J) : Except Unit (List StoredClaim) := do
  let ckvs ← asObj c
  Except.ok (upsertStored m (cidOfClaim ckvs) (mergeClaimFields ckvs))

/-- Pass 1 over a theorem group: collect claim metadata across variants. -/
def pass1E (g : List J) : Except Unit (List StoredClaim) :=
  g.foldlM (fun m it => do (← itemClaimsE it).foldlM collectClaimE m) []

/-- `str(proof.get("activeClaimId") or "main")` for one item. -/
def activeIdOfE (it : J) : Except Unit String := do
  let kvs ← asObj it
  let pkvs ← asObj (pyOr (objGet kvs "proof") (J.obj []))
  Except.ok (pyStr (pyOr (objGet pkvs "activeClaimId") (J.str "main")))

/-- Pass-2 step for one item: `setdefault` the active claim's entry, default
its label to `"(" + active + ")"`, then stamp `animationId = item.get("id")`
(last writer wins). -/
def attachAnimStepE (m : List StoredClaim) (it : J) : Except Unit (List StoredClaim) := do
  let a ← activeIdOfE it
  let kvs ← asObj it
  Except.ok (upsertStored m a (fun s => (s.labelDefault ("(" ++ a ++ ")")).setAnim (objGet kvs "id")))

/-- Pass 2 over a theorem group. -/
def pass2E (g : List J) (m : List StoredClaim) : Except Unit (List StoredClaim) :=
  g.foldlM attachAnimStepE m

/-- `sorted(claim_map.values(), key=lambda c: c.get("id", ""))`. -/
def sortStored (m : List StoredClaim) : List StoredClaim :=
  List.insertionSort (fun a b => a.id ≤ b.id) m

/-- Optional JSON key. -/
def optKV (k : String) : Option J → List (String × J)
  | some v => [(k, v)]
  | none => []

/-- Serialize a claim-map entry back to a JSON object. -/
def storedToJ (s : StoredClaim) : J :=
  J.obj ([("id", J.str s.id)] ++ optKV "label" s.label ++ optKV "statement" s.statement ++
    optKV "scene" s.scene ++ optKV "animationId" s.animationId)

/-- The final shared claims list of a theorem group, as a JSON array. -/
def claimsArrForE (g : List J) : Except Unit J := do
  let m1 ← pass1E g
  let m2 ← pass2E g m1
  Except.ok (J.arr ((sortStored m2).map storedToJ))

/-- The grouping key: `item.get("theoremId") or (item.get("proof") or
{}).get("theoremId") or item.get("id")`; an unhashable key raises at
`setdefault`. -/
def groupKeyE (it : J) : Except Unit J := do
  let kvs ← asObj it
  let t := objGet kvs "theoremId"
  let k ←
    if pyTruthy t then Except.ok t
    else do
      let pkvs ← asObj (pyOr (objGet kvs "proof") (J.obj []))
      Except.ok (pyOr (objGet pkvs "theoremId") (objGet kvs "id"))
  if hashable k then Except.ok k else Except.error ()

/-- Equality of two (hashable) dict keys.  On hashable values this coincides
with value equality; Python's cross-type numeric key equality (`1 == True`)
is not modeled. -/
def keyEq : J → J → Bool
  | J.null, J.null => true
  | J.bool a, J.bool b => a = b
  | J.num a, J.num b => a = b
  | J.str a, J.str b => a = b
  | _, _ => false

/-- Append an item to its key's group, creating the group at the end on a
first occurrence (`grouped.setdefault(theorem_id, []).append(item)`). -/
def insertGroup (gs : List (J × List J)) (k : J) (it : J) : List (J × List J) :=
  if gs.any (fun p => keyEq p.1 k) then
    gs.map (fun p => if keyEq p.1 k then (p.1, p.2 ++ [it]) else p)
  else gs ++ [(k, [it])]

/-- Build the insertion-ordered `grouped` dict from the keyed item list. -/
def buildGroups (keyed : List (J × J)) : List (J × List J) :=
  keyed.foldl (fun gs p => insertGroup gs p.1 p.2) []

/-- Find the processed claims array of a key. -/
def lookupByKey (l : List (J × J)) (k : J) : Option J :=
  (l.find? (fun p => keyEq p.1 k)).map (fun p => p.2)

/-- `proof = item.get("proof") or {}; proof["claims"] = claims_list;
item["proof"] = proof`. -/
def setProofClaimsE (it : J) (cl : J) : Except Unit J := do
  let kvs ← asObj it
  let pkvs ← asObj (pyOr (objGet kvs "proof") (J.obj []))
  Except.ok (J.obj (setKey kvs "proof" (J.obj (setKey pkvs "claims" cl))))

/-- `attach_claim_animation_links(items)`: group items by theorem id, build
each group's reconciled claims list, and stamp it into every item's
`proof.claims`. -/
def attach_claim_animation_links (items : List J) : Except Unit (List J) := do
  let keyed ← items.mapM (fun it => do Except.ok ((← groupKeyE it), it))
  let processed ← (buildGroups keyed).mapM (fun p => do Except.ok (p.1, ← claimsArrForE p.2))
  keyed.mapM (fun p => setProofClaimsE p.2 ((lookupByKey processed p.1).getD J.null))

/-! Pure mirrors of the attach pass, used to reason about (and compute) the
result once well-formedness rules out the exceptional paths. -/

/-- Pure mirror of `itemClaimsE` (defaults on the exceptional paths). -/
def itemClaims (it : J) : List J :=
  let pkvs := pyOr (jGet it "proof") (J.obj [])
  let claims := pyOr (jGet pkvs "claims") (J.arr [])
  if pyTruthy claims then
    match claims with
    | J.arr cs => cs
    | _ => []
  else
    let active := pyOr (jGet pkvs "activeClaimId") (J.str "main")
    [J.obj [("id", active), ("label", active)]]

/-- Pure mirror of `collectClaimE`. -/
def collectClaim (m : List StoredClaim) (c : J) : List StoredClaim :=
  match c with
  | J.obj ckvs => upsertStored m (cidOfClaim ckvs) (mergeClaimFields ckvs)
  | _ => m

/-- Pure mirror of `pass1E`. -/
def pass1 (g : List J) : List StoredClaim :=
  g.foldl (fun m it => (itemClaims it).foldl collectClaim m) []

/-- Pure mirror of `activeIdOfE`. -/
def activeIdOf (it : J) : String :=
  pyStr (pyOr (jGet (pyOr (jGet it "proof") (J.obj [])) "activeClaimId") (J.str "main"))

/-- Pure mirror of `attachAnimStepE`. -/
def attachAnimStep (m : List StoredClaim) (it : J) : List StoredClaim :=
  upsertStored m (activeIdOf it)
    (fun s => (s.labelDefault ("(" ++ activeIdOf it ++ ")")).setAnim (jGet it "id"))

/-- Pure mirror of `pass2E`. -/
def pass2 (g : List J) (m : List StoredClaim) : List StoredClaim :=
  g.foldl attachAnimStep m

/-- Pure mirror of `claimsArrForE`. -/
def claimsArrFor (g : List J) : J :=
  J.arr ((sortStored (pass2 g (pass1 g))).map storedToJ)

/-- Pure mirror of `groupKeyE`. -/
def groupKeyPure (it : J) : J :=
  let t := jGet it "theoremId"
  if pyTruthy t then t
  else pyOr (jGet (pyOr (jGet it "proof") (J.obj [])) "theoremId") (jGet it "id")

/-- Pure mirror of `setProofClaimsE`. -/
def setProofClaims (it : J) (cl : J) : J :=
  match it with
  | J.obj kvs =>
      let pkvs :=
        match pyOr (objGet kvs "proof") (J.obj []) with
        | J.obj p => p
        | _ => []
      J.obj (setKey kvs "proof" (J.obj (setKey pkvs "claims" cl)))
  | v => v

/-- Pure mirror of the whole attach pass: every item receives the claims
array of its own group (the items whose group key equals its key). -/
def attachPure (items : List J) : List J :=
  items.map (fun it =>
    setProofClaims it
      (claimsArrFor (items.filter (fun x => keyEq (groupKeyPure x) (groupKeyPure it)))))

/-- Constructor tests used by the well-formedness predicates. -/
def isObjB : J → Bool
  | J.obj _ => true
  | _ => false

/-- Array constructor test. -/
def isArrB : J → Bool
  | J.arr _ => true
  | _ => false

/-- Well-formedness of one manifest item for the attach pass: it is a dict,
its `proof` is a dict or falsy, the `proof.claims` value is a list of dicts
or falsy, and its group key is hashable.  On such items
`attach_claim_animation_links` cannot raise. -/
def wfAttachItem (it : J) : Bool :=
  isObjB it &&
    isObjB (pyOr (jGet it "proof") (J.obj [])) &&
    isArrB (pyOr (jGet (pyOr (jGet it "proof") (J.obj [])) "claims") (J.arr [])) &&
    (match pyOr (jGet (pyOr (jGet it "proof") (J.obj [])) "claims") (J.arr []) with
     | J.arr cs => cs.all isObjB
     | _ => false) &&
    hashable (groupKeyPure it)

/-! ### Paths and the filesystem model

Paths are project-root-relative POSIX strings (`PROJECT_ROOT` is the empty
prefix and `resolve()` is the identity; the scripts only ever join and
relativize against the project root).  The filesystem is a finite map from
path to parse outcome: a present file either parses to a JSON value or fails
to parse (`json.loads` raising, which the loader logs and skips). -/

/-- Split a character list at `'/'` separators. -/
def splitSlashChars : List Char → List (List Char)
  | [] => [[]]
  | c :: t =>
      if c = '/' then [] :: splitSlashChars t
      else
        match splitSlashChars t with
        | h :: r => (c :: h) :: r
        | [] => [[c]]

/-- Path components of a POSIX path string. -/
def splitSlash (s : String) : List String := (splitSlashChars s.data).map String.mk

/-- Final path component. -/
def nameOf (p : String) : String := ((splitSlash p).getLast?).getD p

/-- All but the final path component, joined. -/
def dirOf (p : String) : String := String.intercalate "/" ((splitSlash p).dropLast)

/-- Join a (possibly empty) directory prefix with a file name. -/
def joinPath (d n : String) : String := if d = "" then n else d ++ "/" ++ n

/-- `pathlib.PurePath.stem`: the name minus its suffix; the suffix starts at
the last dot provided that dot is neither the first nor the last character. -/
def pstem (name : String) : String :=
  let l := name.data
  match l.reverse.findIdx? (fun c => c = '.') with
  | none => name
  | some j =>
      let i := l.length - 1 - j
      if 0 < i ∧ i < l.length - 1 then String.mk (l.take i) else name

/-- `path.with_suffix(suffix)`: stem plus the new suffix, in place. -/
def withSuffixPath (p : String) (suffix : String) : String :=
  joinPath (dirOf p) (pstem (nameOf p) ++ suffix)

/-- The filesystem: present files with their JSON parse outcome (`none` =
present but unparseable). -/
structure FS where
  files : List (String × Option J)

/-- `path.exists()`. -/
def FS.existsP (fs : FS) (p : String) : Bool := fs.files.any (fun e => e.1 = p)

/-- Parse outcome of a present file. -/
def FS.parseP (fs : FS) (p : String) : Option J :=
  match fs.files.find? (fun e => e.1 = p) with
  | some e => e.2
  | none => none

/-- Candidate loop shared by the payload loaders: first candidate that exists
and parses wins; a parse failure is logged and the loop continues. -/
def tryCandidates (fs : FS) : List String → Option J × Option String
  | [] => (none, none)
  | c :: rest =>
      if fs.existsP c then
        match fs.parseP c with
        | some j => (some j, some c)
        | none => tryCandidates fs rest
      else tryCandidates fs rest

/-- `load_proof_payload(file_path)` (`scripts/render_manim.py` lines
133-150): tries `file_path.with_suffix(".proof.json")` and then
`file_path.parent / f"{stem}.proof.json"` — two spellings of the same
path. -/
def load_proof_payload (fs : FS) (filePath : String) : Option J × Option String :=
  tryCandidates fs
    [withSuffixPath filePath ".proof.json",
     joinPath (dirOf filePath) (pstem (nameOf filePath) ++ ".proof.json")]

/-- The candidate list of `load_proof_data` (`scripts/render_manim.py` lines
317-345) — the helper holding the legacy per-scene candidates.  No caller of
it exists anywhere in the repository. -/
def load_proof_data_candidates (filePath sceneName : String) : List String :=
  [withSuffixPath filePath ".proof.json",
   joinPath (dirOf filePath) (pstem (nameOf filePath) ++ "__" ++ sceneName ++ ".proof.json"),
   joinPath (dirOf filePath) (sceneName ++ ".proof.json")]

/-- The search claim C5 describes for the incremental refresh: try
`<stem>.proof.json`, `<stem>__<scene>.proof.json`, `<scene>.proof.json` in
order and use the first candidate that exists and parses. -/
def claimedRefreshSearch (fs : FS) (sourcePath sceneName : String) : Option J :=
  (tryCandidates fs (load_proof_data_candidates sourcePath sceneName)).1

/-! ### Theorem-id resolution and the per-scene proof dict

These model the identical code blocks at `scripts/render_manim.py` lines
418-426/589-597 (theorem id) and 441-457/615-631 (the `proof` dict). -/

/-- Truthiness of an optional payload (`if proof_payload`). -/
def optTruthyJ : Option J → Bool
  | some p => pyTruthy p
  | none => false

/-- Theorem id: explicit truthy `id` (stripped `str`), else
`str(payload.get("tags", {}).get("number")).strip()` for dict payloads —
note the missing-number case literally yields the string `"None"` — else
`""`; a falsy result falls back to the source stem. -/
def theoremIdE (payload? : Option J) (stem : String) : Except Unit String := do
  let base ←
    match payload? with
    | some (J.obj kvs) =>
        if pyTruthy (objGet kvs "id") then Except.ok (pyStrip (pyStr (objGet kvs "id")))
        else do
          let tkvs ← asObj (objGetD kvs "tags" (J.obj []))
          Except.ok (pyStrip (pyStr (objGet tkvs "number")))
    | _ => Except.ok ""
  Except.ok (if base = "" then stem else base)

/-- `(x or {})` for an optional value, demanding a dict of the survivor
(`.get` on a truthy non-dict raises). -/
def orObjE : Option J → Except Unit (List (String × J))
  | some v => if pyTruthy v then asObj v else Except.ok []
  | none => Except.ok []

/-- `(proof_for_scene or {}).get(key) or (proof_payload or {}).get(key)`,
with Python's left-to-right short-circuit. -/
def fieldOrE (pfs? payload? : Option J) (k : String) : Except Unit J := do
  let akvs ← orObjE pfs?
  let a := objGet akvs k
  if pyTruthy a then Except.ok a
  else do
    let bkvs ← orObjE payload?
    Except.ok (objGet bkvs k)

/-- The `steps` resolution: the selected claim's `steps` list if it has one,
else the scene fragment's `steps` list, else `[]`. -/
def stepsOfE (selected? pfs? : Option J) : Except Unit J := do
  let fromSel ←
    match selected? with
    | some c =>
        if pyTruthy c then do
          let ckvs ← asObj c
          match objGet ckvs "steps" with
          | J.arr xs => Except.ok (some (J.arr xs))
          | _ => Except.ok (none : Option J)
        else Except.ok (none : Option J)
    | none => Except.ok (none : Option J)
  match fromSel with
  | some s => Except.ok s
  | none =>
      match pfs? with
      | some p =>
          if pyTruthy p then do
            let pkvs ← asObj p
            match objGet pkvs "steps" with
            | J.arr xs => Except.ok (J.arr xs)
            | _ => Except.ok (J.arr [])
          else Except.ok (J.arr [])
      | none => Except.ok (J.arr [])

/-- One entry of the `proof["claims"]` projection. -/
def claimRefJ (c : J) : Except Unit J := do
  let kvs ← asObj c
  Except.ok (J.obj
    [("id", objGet kvs "id"), ("label", objGet kvs "label"),
     ("scene", objGet kvs "scene"), ("statement", objGet kvs "statement")])

/-- `(selected_claim or {}).get("id", "main")`. -/
def activeOfSelectedE : Option J → Except Unit J
  | some c =>
      if pyTruthy c then do
        let kvs ← asObj c
        Except.ok (objGetD kvs "id" (J.str "main"))
      else Except.ok (J.str "main")
  | none => Except.ok (J.str "main")

/-- Build the per-scene `proof` dict shared by the full render loop and the
text-only refresh. -/
def buildProofE (payload? : Option J) (claims : List J) (tid : String) (sceneJ : J)
    (idx : Nat) : Except Unit J := do
  let pfs? : Option J :=
    if optTruthyJ payload? then extract_proof_from_payload (payload?.getD J.null) sceneJ
    else none
  let selected? ← pick_claim_for_scene claims sceneJ idx
  let steps ← stepsOfE selected? pfs?
  let title ← fieldOrE pfs? payload? "title"
  let description ← fieldOrE pfs? payload? "description"
  let statement ← fieldOrE pfs? payload? "statement"
  let claimsJ ← claims.mapM claimRefJ
  let claimsArr :=
    if claimsJ.isEmpty then [J.obj [("id", J.str "main"), ("label", J.str "main")]]
    else claimsJ
  let act ← activeOfSelectedE selected?
  Except.ok (J.obj
    [("title", title), ("description", description),
     ("statement", pyOr statement (J.str "")), ("steps", steps),
     ("claims", J.arr claimsArr), ("activeClaimId", act),
     ("theoremId", J.str tid)])

/-! ### `refresh_text_only` (`scripts/render_manim.py` lines 379-470)

Reading and writing the manifest file and the `generatedAt` timestamp are
external I/O; the embedding starts from the parsed `items` list and returns
the refreshed items that are written back. -/

/-- Regroup manifest items by their `source` value, preserving insertion
order; non-dict items are silently dropped and an unhashable `source` value
raises at `setdefault`. -/
def buildSourceGroups (items : List J) : Except Unit (List (J × List J)) :=
  items.foldlM
    (fun gs it =>
      match it with
      | J.obj kvs =>
          let src := objGet kvs "source"
          if hashable src then Except.ok (insertGroup gs src it) else Except.error ()
      | _ => Except.ok gs)
    []

/-- Refresh of one manifest item of a group (lines 428-466): rebuild `proof`,
`theoremId`, `proofSource` and `tags`, keep every other key.  Returns `none`
for non-dict items (the loop's `continue`). -/
def processItemE (payload? : Option J) (ppath? : Option String) (claims : List J)
    (tid : String) (idx : Nat) (item : J) : Except Unit (Option J) :=
  match item with
  | J.obj kvs => do
      let proof ← buildProofE payload? claims tid (objGet kvs "scene") idx
      let it1 := setKey kvs "proof" proof
      let it2 := setKey it1 "theoremId" (J.str tid)
      let it3 :=
        match ppath? with
        | some p => setKey it2 "proofSource" (J.str p)
        | none => it2
      let tags := normalize_tags proof
      let it4 := if pyTruthy tags then setKey it3 "tags" tags else it3
      Except.ok (some (J.obj it4))
  | _ => Except.ok none

/-- Refresh of one source group: falsy `source` or missing source file passes
the group through untouched; otherwise reload the payload and rebuild each
item's text fields. -/
def processGroupE (fs : FS) (src : J) (g : List J) : Except Unit (List J) :=
  if ¬ pyTruthy src then Except.ok g
  else do
    let s ← asStr src
    if ¬ fs.existsP s then Except.ok g
    else do
      let payloadPath := load_proof_payload fs s
      let claims := normalizeClaimsOpt payloadPath.1
      let tid ← theoremIdE payloadPath.1 (pstem (nameOf s))
      g.enum.foldlM
        (fun acc p => do
          match ← processItemE payloadPath.1 payloadPath.2 claims tid p.1 p.2 with
          | some it => Except.ok (acc ++ [it])
          | none => Except.ok acc)
        []

/-- `refresh_text_only` from the parsed `items` list on: regroup by source,
refresh each group, re-attach the claim links.  No renderer capability
appears anywhere in this computation. -/
def refresh_text_only (fs : FS) (items : List J) : Except Unit (List J) := do
  let grouped ← buildSourceGroups items
  let updated ← grouped.foldlM
    (fun acc p => do Except.ok (acc ++ (← processGroupE fs p.1 p.2))) []
  attach_claim_animation_links updated

/-! ### The full-render loop of `main` (`scripts/render_manim.py` lines 586-669)

Scene discovery and the renderer are external capabilities (spec section 6):
discovery is the `scenes` list carried by each source file, and rendering is
a function returning `none` on failure (a non-zero renderer exit or any other
exception inside `render_scene`) or the produced video path (relative to the
output parent) plus section metadata.  CLI parsing, the
missing-source-folder and missing-renderer early exits, and temp-dir cleanup
sit outside the modeled loop. -/

/-- One discovered source file: project-relative path and its scenes in
declaration order. -/
structure SrcFile where
  path : String
  scenes : List String

/-- Build one manifest item for a successfully rendered scene (lines
607-648). -/
def buildMainItemE (payload? : Option J) (ppath? : Option String) (claims : List J)
    (tid : String) (f : SrcFile) (scene : String) (idx : Nat) (videoRel : String)
    (sections : List J) (quality : String) : Except Unit J := do
  let proof ← buildProofE payload? claims tid (J.str scene) idx
  let tags := normalize_tags proof
  let base :=
    [("id", J.str (pstem (nameOf f.path) ++ "__" ++ scene)),
     ("scene", J.str scene),
     ("source", J.str f.path),
     ("file", J.str videoRel),
     ("url", J.str ("/" ++ videoRel)),
     ("quality", J.str quality),
     ("sections", J.arr sections),
     ("proof", proof),
     ("theoremId", J.str tid)]
  let base2 :=
    match ppath? with
    | some p => base ++ [("proofSource", J.str p)]
    | none => base
  Except.ok (J.obj (if pyTruthy tags then base2 ++ [("tags", tags)] else base2))

/-- The per-scene body of the render loop: a renderer failure or any
exception while building the item is caught, recorded in the error flag, and
the loop continues. -/
def renderSceneStep (render : String → String → Option (String × List J))
    (quality : String) (payload? : Option J) (ppath? : Option String)
    (claims : List J) (tid : String) (f : SrcFile) (acc : List J × Bool)
    (p : Nat × String) : List J × Bool :=
  match render f.path p.2 with
  | none => (acc.1, true)
  | some r =>
      match buildMainItemE payload? ppath? claims tid f p.2 p.1 r.1 r.2 quality with
      | Except.ok it => (acc.1 ++ [it], acc.2)
      | Except.error _ => (acc.1, true)

/-- The body of `main` after CLI parsing and the availability checks: render
every discovered scene of every file, attach claim links, and return the
exit code (`1` iff any scene failed) with the manifest items. -/
def render_all (fs : FS) (files : List SrcFile)
    (render : String → String → Option (String × List J)) (quality : String) :
    Except Unit (Nat × List J) := do
  if files.isEmpty then Except.ok (0, [])
  else do
    let itemsErrors ← files.foldlM
      (fun (acc : List J × Bool) f => do
        let payloadPath := load_proof_payload fs f.path
        let claims := normalizeClaimsOpt payloadPath.1
        let tid ← theoremIdE payloadPath.1 (pstem (nameOf f.path))
        if f.scenes.isEmpty then Except.ok acc
        else Except.ok (f.scenes.enum.foldl
          (renderSceneStep render quality payloadPath.1 payloadPath.2 claims tid f) acc))
      ([], false)
    let out ← attach_claim_animation_links itemsErrors.1
    Except.ok ((if itemsErrors.2 then 1 else 0), out)

/-! ### Lemmas: idempotence of stripping, `dedupe`, `_as_list` (claim C8) -/

theorem stripChars_eq (l : List Char) :
    stripChars l = List.rdropWhile pySpace (List.dropWhile pySpace l) := rfl

theorem stripChars_idem (l : List Char) : stripChars (stripChars l) = stripChars l := by
  have h1 : List.dropWhile pySpace (stripChars l) = stripChars l := by
    rw [List.dropWhile_eq_self_iff]
    intro hl
    have hpre : stripChars l <+: List.dropWhile pySpace l := by
      rw [stripChars_eq]; exact List.rdropWhile_prefix _ _
    have hlen : 0 < (List.dropWhile pySpace l).length := lt_of_lt_of_le hl hpre.length_le
    have hget := hpre.getElem (n := 0) hl
    have hnot := List.dropWhile_get_zero_not (p := pySpace) l hlen
    simp only [List.get_eq_getElem] at hnot ⊢
    rwa [hget]
  have h2 : List.rdropWhile pySpace (stripChars l) = stripChars l := by
    rw [List.rdropWhile_eq_self_iff]
    intro hl
    exact List.rdropWhile_last_not _ _ hl
  rw [stripChars_eq (stripChars l), h1, h2]

theorem pyStrip_idem (s : String) : pyStrip (pyStrip s) = pyStrip s := by
  unfold pyStrip
  rw [show (String.mk (stripChars s.data)).data = stripChars s.data from rfl, stripChars_idem]

/-- Elements produced by `dedupeGo` avoid the `seen` accumulator. -/
theorem dedupeGo_not_seen (seen : List String) (l : List String) :
    ∀ x ∈ dedupeGo seen l, x ∉ seen := by
  induction l generalizing seen with
  | nil => intro x hx; simp [dedupeGo] at hx
  | cons a t ih =>
      intro x hx
      by_cases ha : a ∈ seen
      · rw [dedupeGo, if_pos ha] at hx
        exact ih seen x hx
      · rw [dedupeGo, if_neg ha] at hx
        rcases List.mem_cons.mp hx with h | h
        · subst h; exact ha
        · intro hxs
          exact (ih (a :: seen) x h) (List.mem_cons_of_mem a hxs)

/-- `dedupeGo` output has no duplicates. -/
theorem dedupeGo_nodup (seen : List String) (l : List String) :
    (dedupeGo seen l).Nodup := by
  induction l generalizing seen with
  | nil => simp [dedupeGo]
  | cons a t ih =>
      by_cases ha : a ∈ seen
      · rw [dedupeGo, if_pos ha]; exact ih seen
      · rw [dedupeGo, if_neg ha]
        refine List.nodup_cons.mpr ⟨?_, ih (a :: seen)⟩
        intro hmem
        exact (dedupeGo_not_seen (a :: seen) t a hmem) (List.mem_cons_self a seen)

/-- On a duplicate-free list avoiding `seen`, `dedupeGo` is the identity. -/
theorem dedupeGo_of_nodup (seen : List String) (l : List String) (hn : l.Nodup)
    (hs : ∀ x ∈ l, x ∉ seen) : dedupeGo seen l = l := by
  induction l generalizing seen with
  | nil => rfl
  | cons a t ih =>
      rw [dedupeGo, if_neg (hs a (List.mem_cons_self a t))]
      congr 1
      refine ih (a :: seen) (List.Nodup.of_cons hn) ?_
      intro x hx hmem
      rcases List.mem_cons.mp hmem with h | h
      · subst h; exact (List.nodup_cons.mp hn).1 hx
      · exact hs x (List.mem_cons_of_mem a hx) h

theorem dedupe_idem (l : List String) : dedupe (dedupe l) = dedupe l :=
  dedupeGo_of_nodup [] (dedupe l) (dedupeGo_nodup [] l) (by intro x _ h; simp at h)

theorem dedupe_ne_nil (l : List String) (h : ¬ l.isEmpty) : ¬ (dedupe l).isEmpty := by
  cases l with
  | nil => simp at h
  | cons a t => simp [dedupe, dedupeGo]

/-- Membership in `dedupeGo` output implies membership in the input. -/
theorem dedupeGo_subset (seen : List String) (l : List String) :
    ∀ x ∈ dedupeGo seen l, x ∈ l := by
  induction l generalizing seen with
  | nil => intro x hx; simp [dedupeGo] at hx
  | cons a t ih =>
      intro x hx
      by_cases ha : a ∈ seen
      · rw [dedupeGo, if_pos ha] at hx
        exact List.mem_cons_of_mem a (ih seen x hx)
      · rw [dedupeGo, if_neg ha] at hx
        rcases List.mem_cons.mp hx with h | h
        · rw [h]; exact List.mem_cons_self a t
        · exact List.mem_cons_of_mem a (ih (a :: seen) x h)

/-- A produced `_as_list` element is stripped and non-empty (step level). -/
theorem asListStep_clean (item : J) (s : String) (h : asListStep item = some s) :
    pyStrip s = s ∧ s ≠ "" := by
  cases item <;> simp only [asListStep] at h
  case null => exact Option.noConfusion h
  all_goals
    split at h
    · exact Option.noConfusion h
    · rcases Option.some.inj h with rfl
      exact ⟨pyStrip_idem _, by assumption⟩

/-- Every string `_as_list` produces is stripped and non-empty. -/
theorem asList_clean (v : J) : ∀ s ∈ asList v, pyStrip s = s ∧ s ≠ "" := by
  intro s hs
  unfold asList at hs
  split at hs
  · simp at hs
  · split at hs
    · split at hs
      · simp at hs
      · rcases List.mem_singleton.mp hs with rfl
        exact ⟨pyStrip_idem _, by assumption⟩
    · simp only [asListItems, List.mem_filterMap] at hs
      obtain ⟨item, _, hitem⟩ := hs
      exact asListStep_clean item s hitem
    · simp only [asListItems, List.mem_filterMap] at hs
      obtain ⟨item, _, hitem⟩ := hs
      exact asListStep_clean item s hitem
    · simp at hs

/-- On a `J.str` literal the step keeps a clean string. -/
theorem asListStep_str (a : String) (h1 : pyStrip a = a) (h2 : a ≠ "") :
    asListStep (J.str a) = some a := by
  simp only [asListStep, pyStr, h1]
  exact if_neg h2

/-- `_as_list` maps a list of clean strings to exactly those strings. -/
theorem asListItems_clean (l : List String) (h : ∀ s ∈ l, pyStrip s = s ∧ s ≠ "") :
    asListItems (l.map J.str) = l := by
  induction l with
  | nil => rfl
  | cons a t ih =>
      have ha := h a (List.mem_cons_self a t)
      have ht := ih (fun s hs => h s (List.mem_cons_of_mem a hs))
      simp only [asListItems, List.map_cons, List.filterMap_cons,
        asListStep_str a ha.1 ha.2]
      simpa [asListItems] using ht

theorem asList_of_clean (l : List String) (hne : ¬ l.isEmpty)
    (h : ∀ s ∈ l, pyStrip s = s ∧ s ≠ "") : asList (J.arr (l.map J.str)) = l := by
  unfold asList
  rw [if_neg]
  · exact asListItems_clean l h
  · simp only [pyTruthy]
    simpa using hne

/-! ### Object-lookup computation lemmas -/

theorem objGet_nil (k : String) : objGet [] k = J.null := rfl

theorem objGet_cons_eq (k : String) (v : J) (t : List (String × J)) :
    objGet ((k, v) :: t) k = v := by
  simp [objGet, List.find?]

theorem objGet_cons_ne (k k' : String) (v : J) (t : List (String × J)) (h : ¬ (k' = k)) :
    objGet ((k', v) :: t) k = objGet t k := by
  simp only [objGet, List.find?, decide_eq_false h]

/-! ### Shapes of the `normalize_tags` output parts -/

theorem scalarPart_null (k : String) : scalarPart k J.null = [] := rfl

theorem scalarPart_fix (k cs : String) (h1 : pyStrip cs = cs) (h2 : cs ≠ "") :
    scalarPart k (J.str cs) = [(k, J.str cs)] := by
  simp only [scalarPart, pyStr, h1]
  exact if_neg h2

theorem scalarPart_shape (k : String) (v : J) :
    scalarPart k v = [] ∨ ∃ cs, scalarPart k v = [(k, J.str cs)] ∧ pyStrip cs = cs ∧ cs ≠ "" := by
  cases v
  case null => exact Or.inl rfl
  all_goals
    simp only [scalarPart]
    split
    · exact Or.inl rfl
    · exact Or.inr ⟨_, rfl, pyStrip_idem _, by assumption⟩

theorem subjectsPart_null : subjectsPart J.null = [] := rfl

theorem subjectsPart_fix (l : List String) (hne : ¬ l.isEmpty) (hd : dedupe l = l)
    (hc : ∀ s ∈ l, pyStrip s = s ∧ s ≠ "") :
    subjectsPart (J.arr (l.map J.str)) = [("subjects", J.arr (l.map J.str))] := by
  unfold subjectsPart
  rw [asList_of_clean l hne hc]
  rw [if_neg hne, hd]

theorem subjectsPart_shape (v : J) :
    subjectsPart v = [] ∨
      ∃ l, subjectsPart v = [("subjects", J.arr (l.map J.str))] ∧ ¬ l.isEmpty ∧
        dedupe l = l ∧ (∀ s ∈ l, pyStrip s = s ∧ s ≠ "") := by
  by_cases h : (asList v).isEmpty
  · exact Or.inl (by simp [subjectsPart, h])
  · refine Or.inr ⟨dedupe (asList v), ?_, ?_, dedupe_idem _, ?_⟩
    · simp [subjectsPart, h]
    · exact dedupe_ne_nil _ h
    · intro s hs
      exact asList_clean v s (dedupeGo_subset [] (asList v) s hs)

/-- The field-collection core of `normalize_tags` is idempotent. -/
theorem normalizeTagsCore_idem (kvs : List (String × J)) :
    normalizeTagsCore (normalizeTagsCore kvs) = normalizeTagsCore kvs := by
  rcases subjectsPart_shape (subjectsChain kvs) with hs | ⟨l, hs, hlne, hld, hlc⟩
  all_goals rcases scalarPart_shape "chapter" (chapterChain kvs) with hc | ⟨cs, hc, hcs, hcne⟩
  all_goals rcases scalarPart_shape "number" (numberChain kvs) with hn | ⟨ns, hn, hns, hnne⟩
  -- the four cases without a `subjects` part
  case inl.inl.inl =>
    have hout : normalizeTagsCore kvs = [] := by rw [normalizeTagsCore, hs, hc, hn]; rfl
    rw [hout]; rfl
  case inl.inl.inr.intro.intro.intro =>
    have hout : normalizeTagsCore kvs = [("number", J.str ns)] := by
      rw [normalizeTagsCore, hs, hc, hn]; rfl
    rw [hout, normalizeTagsCore]
    rw [show subjectsChain [("number", J.str ns)] = J.null by
      simp [subjectsChain, tagsDictOf, objGetD, objGet, List.find?, pyOr, pyTruthy]]
    rw [show chapterChain [("number", J.str ns)] = J.null by
      simp [chapterChain, tagsDictOf, objGetD, objGet, List.find?, pyOr, pyTruthy]]
    rw [show numberChain [("number", J.str ns)] = J.str ns by
      simp [numberChain, tagsDictOf, objGetD, objGet, List.find?, pyOr, pyTruthy, hnne]]
    rw [subjectsPart_null, scalarPart_null, scalarPart_fix _ _ hns hnne]
    rfl
  case inl.inr.intro.intro.intro.inl =>
    have hout : normalizeTagsCore kvs = [("chapter", J.str cs)] := by
      rw [normalizeTagsCore, hs, hc, hn]; rfl
    rw [hout, normalizeTagsCore]
    rw [show subjectsChain [("chapter", J.str cs)] = J.null by
      simp [subjectsChain, tagsDictOf, objGetD, objGet, List.find?, pyOr, pyTruthy]]
    rw [show chapterChain [("chapter", J.str cs)] = J.str cs by
      simp [chapterChain, tagsDictOf, objGetD, objGet, List.find?, pyOr, pyTruthy]]
    rw [show numberChain [("chapter", J.str cs)] = J.null by
      simp [numberChain, tagsDictOf, objGetD, objGet, List.find?, pyOr, pyTruthy, hcne]]
    rw [subjectsPart_null, scalarPart_null, scalarPart_fix _ _ hcs hcne]
    rfl
  case inl.inr.intro.intro.intro.inr.intro.intro.intro =>
    have hout : normalizeTagsCore kvs = [("chapter", J.str cs), ("number", J.str ns)] := by
      rw [normalizeTagsCore, hs, hc, hn]; rfl
    rw [hout, normalizeTagsCore]
    rw [show subjectsChain [("chapter", J.str cs), ("number", J.str ns)] = J.null by
      simp [subjectsChain, tagsDictOf, objGetD, objGet, List.find?, pyOr, pyTruthy]]
    rw [show chapterChain [("chapter", J.str cs), ("number", J.str ns)] = J.str cs by
      simp [chapterChain, tagsDictOf, objGetD, objGet, List.find?, pyOr, pyTruthy]]
    rw [show numberChain [("chapter", J.str cs), ("number", J.str ns)] = J.str ns by
      simp [numberChain, tagsDictOf, objGetD, objGet, List.find?, pyOr, pyTruthy, hcne, hnne]]
    rw [subjectsPart_null, scalarPart_fix _ _ hcs hcne, scalarPart_fix _ _ hns hnne]
    rfl
  -- the four cases with a `subjects` part
  all_goals
    have hlnil : l ≠ [] := by simpa [List.isEmpty_iff] using hlne
  all_goals
    have htruthy : pyTruthy (J.arr (l.map J.str)) = true := by
      simp [pyTruthy, hlnil]
  case inr.intro.intro.intro.intro.inl.inl =>
    have hout : normalizeTagsCore kvs = [("subjects", J.arr (l.map J.str))] := by
      rw [normalizeTagsCore, hs, hc, hn]; rfl
    rw [hout, normalizeTagsCore]
    rw [show subjectsChain [("subjects", J.arr (l.map J.str))] = J.arr (l.map J.str) by
      simp [subjectsChain, tagsDictOf, objGetD, objGet, List.find?, pyOr, pyTruthy, htruthy, hlnil]]
    rw [show chapterChain [("subjects", J.arr (l.map J.str))] = J.null by
      simp [chapterChain, tagsDictOf, objGetD, objGet, List.find?, pyOr, pyTruthy]]
    rw [show numberChain [("subjects", J.arr (l.map J.str))] = J.null by
      simp [numberChain, tagsDictOf, objGetD, objGet, List.find?, pyOr, pyTruthy]]
    rw [subjectsPart_fix l hlne hld hlc, scalarPart_null, scalarPart_null]
    rfl
  case inr.intro.intro.intro.intro.inl.inr.intro.intro.intro =>
    have hout : normalizeTagsCore kvs =
        [("subjects", J.arr (l.map J.str)), ("number", J.str ns)] := by
      rw [normalizeTagsCore, hs, hc, hn]; rfl
    rw [hout, normalizeTagsCore]
    rw [show subjectsChain [("subjects", J.arr (l.map J.str)), ("number", J.str ns)]
        = J.arr (l.map J.str) by
      simp [subjectsChain, tagsDictOf, objGetD, objGet, List.find?, pyOr, pyTruthy, htruthy, hlnil]]
    rw [show chapterChain [("subjects", J.arr (l.map J.str)), ("number", J.str ns)] = J.null by
      simp [chapterChain, tagsDictOf, objGetD, objGet, List.find?, pyOr, pyTruthy]]
    rw [show numberChain [("subjects", J.arr (l.map J.str)), ("number", J.str ns)]
        = J.str ns by
      simp [numberChain, tagsDictOf, objGetD, objGet, List.find?, pyOr, pyTruthy, hnne]]
    rw [subjectsPart_fix l hlne hld hlc, scalarPart_null, scalarPart_fix _ _ hns hnne]
    rfl
  case inr.intro.intro.intro.intro.inr.intro.intro.intro.inl =>
    have hout : normalizeTagsCore kvs =
        [("subjects", J.arr (l.map J.str)), ("chapter", J.str cs)] := by
      rw [normalizeTagsCore, hs, hc, hn]; rfl
    rw [hout, normalizeTagsCore]
    rw [show subjectsChain [("subjects", J.arr (l.map J.str)), ("chapter", J.str cs)]
        = J.arr (l.map J.str) by
      simp [subjectsChain, tagsDictOf, objGetD, objGet, List.find?, pyOr, pyTruthy, htruthy, hlnil]]
    rw [show chapterChain [("subjects", J.arr (l.map J.str)), ("chapter", J.str cs)]
        = J.str cs by
      simp [chapterChain, tagsDictOf, objGetD, objGet, List.find?, pyOr, pyTruthy]]
    rw [show numberChain [("subjects", J.arr (l.map J.str)), ("chapter", J.str cs)] = J.null by
      simp [numberChain, tagsDictOf, objGetD, objGet, List.find?, pyOr, pyTruthy, hcne]]
    rw [subjectsPart_fix l hlne hld hlc, scalarPart_fix _ _ hcs hcne, scalarPart_null]
    rfl
  case inr.intro.intro.intro.intro.inr.intro.intro.intro.inr.intro.intro.intro =>
    have hout : normalizeTagsCore kvs =
        [("subjects", J.arr (l.map J.str)), ("chapter", J.str cs), ("number", J.str ns)] := by
      rw [normalizeTagsCore, hs, hc, hn]; rfl
    rw [hout, normalizeTagsCore]
    rw [show subjectsChain
        [("subjects", J.arr (l.map J.str)), ("chapter", J.str cs), ("number", J.str ns)]
        = J.arr (l.map J.str) by
      simp [subjectsChain, tagsDictOf, objGetD, objGet, List.find?, pyOr, pyTruthy, htruthy, hlnil]]
    rw [show chapterChain
        [("subjects", J.arr (l.map J.str)), ("chapter", J.str cs), ("number", J.str ns)]
        = J.str cs by
      simp [chapterChain, tagsDictOf, objGetD, objGet, List.find?, pyOr, pyTruthy]]
    rw [show numberChain
        [("subjects", J.arr (l.map J.str)), ("chapter", J.str cs), ("number", J.str ns)]
        = J.str ns by
      simp [numberChain, tagsDictOf, objGetD, objGet, List.find?, pyOr, pyTruthy, hcne, hnne]]
    rw [subjectsPart_fix l hlne hld hlc, scalarPart_fix _ _ hcs hcne,
      scalarPart_fix _ _ hns hnne]
    rfl

/-- C8: the tag normalizer is idempotent — for every input value, applying
`normalize_tags` to its own output returns that output unchanged. -/
theorem c8_normalize_tags_idempotent (e : J) :
    normalize_tags (normalize_tags e) = normalize_tags e := by
  cases e
  case obj kvs =>
    by_cases h : pyTruthy (J.obj kvs)
    · have h1 : normalize_tags (J.obj kvs) = J.obj (normalizeTagsCore kvs) := by
        simp [normalize_tags, h]
      rw [h1]
      by_cases h2 : pyTruthy (J.obj (normalizeTagsCore kvs))
      · simp [normalize_tags, h2, normalizeTagsCore_idem]
      · have h3 : normalizeTagsCore kvs = [] := by
          simpa [pyTruthy, List.isEmpty_iff] using h2
        rw [h3]; rfl
    · rw [show normalize_tags (J.obj kvs) = J.obj [] from by simp [normalize_tags, h]]
      rfl
  case null => rfl
  case bool b =>
    have h1 : normalize_tags (J.bool b) = J.obj [] := by unfold normalize_tags; split <;> rfl
    rw [h1]; rfl
  case num n =>
    have h1 : normalize_tags (J.num n) = J.obj [] := by unfold normalize_tags; split <;> rfl
    rw [h1]; rfl
  case str s =>
    have h1 : normalize_tags (J.str s) = J.obj [] := by unfold normalize_tags; split <;> rfl
    rw [h1]; rfl
  case arr xs =>
    have h1 : normalize_tags (J.arr xs) = J.obj [] := by unfold normalize_tags; split <;> rfl
    rw [h1]; rfl

/-! ### Claim C10: the `label` fallback of the `number` tag -/

theorem scalarPart_of_ne_null (k : String) (v : J) (h : v ≠ J.null) :
    scalarPart k v =
      (if pyStrip (pyStr v) = "" then [] else [(k, J.str (pyStrip (pyStr v)))]) := by
  cases v
  case null => exact absurd rfl h
  all_goals rfl

/-- Lookup of the `number` key across the two possibly-empty leading parts of
a `normalize_tags` output. -/
theorem objGet_parts_number (sv cv : J) (v : J) :
    objGet (subjectsPart sv ++ scalarPart "chapter" cv ++ [("number", v)]) "number" = v := by
  rcases subjectsPart_shape sv with hs | ⟨l, hs, _, _, _⟩ <;>
    rcases scalarPart_shape "chapter" cv with hc | ⟨cs, hc, _, _⟩ <;>
      rw [hs, hc] <;>
        simp [objGet_cons_eq, objGet_cons_ne]

/-- C10: when none of `tags.number`, `tags.numbering`, top-level `number` or
`numbering` carries a truthy value but a top-level `label` (other than JSON
`null`, whose Python form is guarded by `is not None`) has a non-empty
stripped string form, both `normalize_tags` variants emit that stripped
string as the `number` tag. -/
theorem c10_label_number_fallback (kvs : List (String × J))
    (h1 : ¬ pyTruthy (objGet (tagsDictOf kvs) "number"))
    (h2 : ¬ pyTruthy (objGet (tagsDictOf kvs) "numbering"))
    (h3 : ¬ pyTruthy (objGet kvs "number"))
    (h4 : ¬ pyTruthy (objGet kvs "numbering"))
    (h5 : objGet kvs "label" ≠ J.null)
    (h6 : pyStrip (pyStr (objGet kvs "label")) ≠ "") :
    jGet (normalize_tags (J.obj kvs)) "number" = J.str (pyStrip (pyStr (objGet kvs "label"))) ∧
    jGet (normalize_tags_definitions kvs) "number" =
      J.str (pyStrip (pyStr (objGet kvs "label"))) := by
  have hchain : numberChain kvs = objGet kvs "label" := by
    simp only [numberChain, pyOr]
    rw [if_neg (by simpa using h1), if_neg (by simpa using h2),
      if_neg (by simpa using h3), if_neg (by simpa using h4)]
  have hnum : scalarPart "number" (numberChain kvs) =
      [("number", J.str (pyStrip (pyStr (objGet kvs "label"))))] := by
    rw [hchain, scalarPart_of_ne_null _ _ h5, if_neg h6]
  have hkvs : kvs ≠ [] := by
    intro h; rw [h] at h5; exact h5 rfl
  have htruthy : pyTruthy (J.obj kvs) = true := by simp [pyTruthy, hkvs]
  have hcore : jGet (J.obj (normalizeTagsCore kvs)) "number" =
      J.str (pyStrip (pyStr (objGet kvs "label"))) := by
    rw [jGet, normalizeTagsCore, hnum, objGet_parts_number]
  constructor
  · rw [show normalize_tags (J.obj kvs) = J.obj (normalizeTagsCore kvs) from by
      simp [normalize_tags, htruthy]]
    exact hcore
  · rw [normalize_tags_definitions]
    exact hcore

/-- Witness for C10 at a concrete entry `{"label": " Thm 1.2 "}`. -/
theorem c10_label_number_fallback_witness :
    jGet (normalize_tags (J.obj [("label", J.str " Thm 1.2 ")])) "number" =
      J.str "Thm 1.2" ∧
    jGet (normalize_tags_definitions [("label", J.str " Thm 1.2 ")]) "number" =
      J.str "Thm 1.2" := by
  have h := c10_label_number_fallback [("label", J.str " Thm 1.2 ")]
    (by decide) (by decide) (by decide) (by decide) (by simp [objGet_cons_eq]) (by decide)
  simpa using h

/-! ### Claim C9: claim id/label defaulting in `normalize_claims` -/

/-- The amended id rule: the stripped string form of the first truthy value
among `id`, `label` and the position letter; if that strips to the empty
string, the raw position letter. -/
def claimIdAmended (kvs : List (String × J)) (idx : Nat) : String :=
  let chosen := pyOr (objGet kvs "id") (pyOr (objGet kvs "label") (J.str (letterAt idx)))
  let stripped := pyStrip (pyStr chosen)
  if stripped = "" then letterAt idx else stripped

/-- The label rule: an untruthy `label` defaults to `"(" + id + ")"`. -/
def claimLabelAmended (kvs : List (String × J)) (cid : String) : J :=
  pyOr (objGet kvs "label") (J.str ("(" ++ cid ++ ")"))

/-- The claim normalizer described by the amended claim C9, written over the
enumerated raw sequence (non-dict entries are dropped but keep consuming
positions). -/
def normalizeClaimsAmended (payload : J) : List J :=
  match payload with
  | J.obj kvs =>
      if pyTruthy (J.obj kvs) then
        match objGet kvs "claims" with
        | J.arr raw =>
            raw.enum.filterMap (fun p =>
              match p.2 with
              | J.obj ckvs =>
                  let cid := claimIdAmended ckvs p.1
                  some (J.obj
                    [("id", J.str cid),
                     ("label", claimLabelAmended ckvs cid),
                     ("scene",
                       pyOr (objGet ckvs "scene")
                         (pyOr (objGet ckvs "animation") (objGet ckvs "variant"))),
                     ("statement", pyOr (objGet ckvs "statement") (J.str "")),
                     ("steps",
                       match objGet ckvs "steps" with
                       | J.arr xs => J.arr xs
                       | _ => J.arr [])])
              | _ => none)
        | _ => []
      else []
  | _ => []

theorem normalizeClaimsGo_eq_enumFrom (raw : List J) (idx : Nat) :
    normalizeClaimsGo idx raw =
      (List.enumFrom idx raw).filterMap (fun p =>
        match p.2 with
        | J.obj ckvs =>
            let cid := claimIdAmended ckvs p.1
            some (J.obj
              [("id", J.str cid),
               ("label", claimLabelAmended ckvs cid),
               ("scene",
                 pyOr (objGet ckvs "scene")
                   (pyOr (objGet ckvs "animation") (objGet ckvs "variant"))),
               ("statement", pyOr (objGet ckvs "statement") (J.str "")),
               ("steps",
                 match objGet ckvs "steps" with
                 | J.arr xs => J.arr xs
                 | _ => J.arr [])])
        | _ => none) := by
  induction raw generalizing idx with
  | nil => rfl
  | cons c rest ih =>
      cases c <;>
        simp only [normalizeClaimsGo, List.enumFrom, List.filterMap_cons, ih,
          normalizeClaimEntry, claimIdAmended, claimLabelAmended]

/-- C9 counterexample: a claim entry with no author-supplied `id` but with a
label `"foo"` receives id `"foo"`, not the position letter `"a"` the claim
prescribes. -/
theorem c9_counterexample :
    (normalize_claims (J.obj [("claims", J.arr [J.obj [("label", J.str "foo")]])])).map
        (fun c => jGet c "id") = [J.str "foo"] ∧
      letterAt 0 = "a" ∧ ("foo" : String) ≠ "a" :=
  ⟨rfl, rfl, by decide⟩

/-- C9 amended: a claim entry's id is the stripped string form of the first
truthy value among its `id`, its `label` and the lowercase position letter
(the raw letter when that strip is empty), and an untruthy `label` defaults
to `"(" + id + ")"` — `normalize_claims` equals the normalizer built from
these amended rules. -/
theorem c9_claim_id_label_defaults (payload : J) :
    normalize_claims payload = normalizeClaimsAmended payload := by
  cases payload
  case obj kvs =>
      by_cases h : pyTruthy (J.obj kvs)
      · simp only [normalize_claims, normalizeClaimsAmended, h, if_pos, not_true_eq_false,
          Bool.false_eq_true, if_false]
        cases hog : objGet kvs "claims" <;>
          simp only [normalizeClaimsGo_eq_enumFrom, List.enum]
      · simp [normalize_claims, normalizeClaimsAmended, h]
  case null => rfl
  case bool b =>
    rw [show normalize_claims (J.bool b) = [] from by unfold normalize_claims; split <;> rfl]
    rfl
  case num n =>
    rw [show normalize_claims (J.num n) = [] from by unfold normalize_claims; split <;> rfl]
    rfl
  case str s =>
    rw [show normalize_claims (J.str s) = [] from by unfold normalize_claims; split <;> rfl]
    rfl
  case arr xs =>
    rw [show normalize_claims (J.arr xs) = [] from by unfold normalize_claims; split <;> rfl]
    rfl

/-! ### Claim C4: per-scene proof-fragment extraction -/

/-- C4: for every parsed payload and scene name,
`extract_proof_from_payload` returns exactly what the claim's ordered rule
chain prescribes: a bare list is wrapped as `{steps: ...}`; a `scenes`
mapping's entry for the scene is used (lists wrapped, mappings taken as-is,
anything else deferring to the next rule); otherwise the whole payload when
it has a top-level `steps` list; otherwise no fragment. -/
theorem c4_extract_proof_rule_chain (payload : J) (sceneName : String) :
    extract_proof_from_payload payload (J.str sceneName) = extractSpecChain payload sceneName := by
  cases payload
  case arr xs => rfl
  case obj kvs =>
      simp only [extract_proof_from_payload, extractSpecChain, ruleBareList, ruleScenesMap,
        ruleWholeSteps, sceneGet, Option.or]
      cases hsc : objGet kvs "scenes"
      case obj skvs =>
          cases hsv : objGet skvs sceneName <;> simp only [hsc, hsv]
      all_goals simp only [hsc]
  all_goals rfl

/-! ### Claim C1: the claim matcher's rule chain -/

theorem pickSceneLoop_eq_find (sn : String) (claims : List J)
    (h : ∀ c ∈ claims, wfClaimForPick c = true) :
    pickSceneLoop (J.str sn) claims = Except.ok (claims.find? (ruleSceneAmended sn)) := by
  induction claims with
  | nil => rfl
  | cons c rest ih =>
      have hc := h c (List.mem_cons_self c rest)
      have hrest := fun x hx => h x (List.mem_cons_of_mem c hx)
      cases c
      case obj kvs =>
          have hstr : ∃ s, pyOr (objGet kvs "scene") (J.str "") = J.str s := by
            simp only [wfClaimForPick] at hc
            cases hv : objGet kvs "scene"
            case str t =>
                refine ⟨if t = "" then "" else t, ?_⟩
                by_cases ht : t = "" <;> simp [pyOr, pyTruthy, ht]
            case null => exact ⟨"", by simp [pyOr, pyTruthy]⟩
            case bool b =>
                rw [hv] at hc
                have hb : b = false := by simpa [pyTruthy] using hc
                exact ⟨"", by simp [pyOr, pyTruthy, hb]⟩
            case num n =>
                rw [hv] at hc
                have hn : n = 0 := by simpa [pyTruthy] using hc
                exact ⟨"", by simp [pyOr, pyTruthy, hn]⟩
            case arr xs =>
                rw [hv] at hc
                have hx : xs = [] := by simpa [pyTruthy, List.isEmpty_iff] using hc
                exact ⟨"", by simp [pyOr, pyTruthy, hx]⟩
            case obj kvs2 =>
                rw [hv] at hc
                have hx : kvs2 = [] := by simpa [pyTruthy, List.isEmpty_iff] using hc
                exact ⟨"", by simp [pyOr, pyTruthy, hx]⟩
          obtain ⟨s, hs⟩ := hstr
          simp only [pickSceneLoop, hs, stripE, List.find?, ruleSceneAmended, strEqJ]
          by_cases hb : (pyStrip s != "" && pyStrip s == sn) = true
          · rw [if_pos hb, hb]
          · rw [if_neg hb, Bool.eq_false_iff.mpr hb]
            exact ih hrest
      all_goals
        simp only [pickSceneLoop, List.find?, ruleSceneAmended]
        exact ih hrest

theorem pickIdLoop_eq_find (sn : String) (claims : List J)
    (h : ∀ c ∈ claims, wfClaimForPick c = true) :
    pickIdLoop (J.str sn) claims = Except.ok (claims.find? (ruleIdAmended sn)) := by
  induction claims with
  | nil => rfl
  | cons c rest ih =>
      have hc := h c (List.mem_cons_self c rest)
      have hrest := fun x hx => h x (List.mem_cons_of_mem c hx)
      cases c
      case obj kvs =>
          simp only [pickIdLoop, asObj, List.find?, ruleIdAmended, strEqJ]
          by_cases hb : (pyStrip (pyStr (pyOr (objGet kvs "id") (J.str ""))) != "" &&
              pyStrip (pyStr (pyOr (objGet kvs "id") (J.str ""))) == sn) = true
          · rw [if_pos hb, hb]
          · rw [if_neg hb, Bool.eq_false_iff.mpr hb]
            exact ih hrest
      all_goals simp [wfClaimForPick] at hc

/-- C1 amended: on claim sequences whose entries are mappings with
string-or-falsy `scene` fields, the matcher implements the claimed
first-match-wins chain — first claim whose truthy `scene` trims to a
non-empty string equal to the scene identifier, else first claim whose `id`
has a non-empty trimmed string form equal to the scene identifier, else the
claim at the scene's position when in range, else the first claim, else
none. -/
theorem c1_pick_claim_rule_chain (claims : List J) (sceneName : String) (sceneIndex : Nat)
    (h : ∀ c ∈ claims, wfClaimForPick c = true) :
    pick_claim_for_scene claims (J.str sceneName) sceneIndex =
      Except.ok (pickClaimAmended claims sceneName sceneIndex) := by
  rw [pick_claim_for_scene, pickClaimAmended]
  rw [pickSceneLoop_eq_find sceneName claims h]
  cases hfind : claims.find? (ruleSceneAmended sceneName) with
  | some c => simp [Bind.bind, Except.bind]
  | none =>
      simp only [Bind.bind, Except.bind]
      rw [pickIdLoop_eq_find sceneName claims h]
      cases hfind2 : claims.find? (ruleIdAmended sceneName) with
      | some c => rfl
      | none =>
          simp only [rulePositional]
          split
          · rfl
          · rfl

/-- C1 witness: the spec's own example — claims `[{id:"a"},
{id:"b", scene:"Part2"}]` at scene `"Part2"`, position 0, resolve to claim
`b` through the explicit-scene rule. -/
theorem c1_pick_claim_rule_chain_witness :
    (∀ c ∈ [J.obj [("id", J.str "a")], J.obj [("id", J.str "b"), ("scene", J.str "Part2")]],
        wfClaimForPick c = true) ∧
    pick_claim_for_scene
        [J.obj [("id", J.str "a")], J.obj [("id", J.str "b"), ("scene", J.str "Part2")]]
        (J.str "Part2") 0 =
      Except.ok (pickClaimAmended
        [J.obj [("id", J.str "a")], J.obj [("id", J.str "b"), ("scene", J.str "Part2")]]
        "Part2" 0) ∧
    pickClaimAmended
        [J.obj [("id", J.str "a")], J.obj [("id", J.str "b"), ("scene", J.str "Part2")]]
        "Part2" 0 = some (J.obj [("id", J.str "b"), ("scene", J.str "Part2")]) :=
  ⟨by decide,
   c1_pick_claim_rule_chain
     [J.obj [("id", J.str "a")], J.obj [("id", J.str "b"), ("scene", J.str "Part2")]]
     "Part2" 0 (by decide),
   rfl⟩

/-- C1 counterexample: with scene identifier `""` and claims
`[{id:"a"}, {scene:" "}]` at position 0, the claimed rule chain picks the
second claim (its scene field trims to `""`), while the code skips the falsy
trimmed value and returns the positional match, the first claim. -/
theorem c1_counterexample :
    pickClaimLiteral [J.obj [("id", J.str "a")], J.obj [("scene", J.str " ")]] "" 0 =
        some (J.obj [("scene", J.str " ")]) ∧
      pick_claim_for_scene [J.obj [("id", J.str "a")], J.obj [("scene", J.str " ")]]
          (J.str "") 0 =
        Except.ok (some (J.obj [("id", J.str "a")])) ∧
      (J.obj [("id", J.str "a")] : J) ≠ J.obj [("scene", J.str " ")] :=
  ⟨rfl, rfl, by simp⟩

/-! ### Claim C5: the refresh's proof-file search -/

/-- C5 amended: the payload loader used by the text-only refresh consults
exactly one path, `<stem>.proof.json` beside the source (its two candidate
spellings coincide); it returns the parsed payload when that file exists and
parses, and nothing otherwise.  The legacy per-scene candidates live only in
`load_proof_data_candidates`, whose function has no caller. -/
theorem c5_load_payload_single_path (fs : FS) (filePath : String) :
    load_proof_payload fs filePath =
      (if fs.existsP (withSuffixPath filePath ".proof.json") then
        match fs.parseP (withSuffixPath filePath ".proof.json") with
        | some j => (some j, some (withSuffixPath filePath ".proof.json"))
        | none => (none, none)
      else (none, none)) := by
  simp only [load_proof_payload, tryCandidates, withSuffixPath]
  by_cases he : fs.existsP (joinPath (dirOf filePath) (pstem (nameOf filePath) ++ ".proof.json"))
  · simp only [if_pos he]
    cases hp : fs.parseP (joinPath (dirOf filePath) (pstem (nameOf filePath) ++ ".proof.json")) <;>
      simp [hp]
  · simp only [if_neg he]

/-- C5 counterexample: a filesystem holding only the legacy per-scene file
`x__S.proof.json` (with claim `a` and statement `"LAW"`).  The search the
claim describes finds that payload, but the text-only refresh never consults
it: the refreshed item gets statement `""` and the synthetic claim list
`["main"]`. -/
theorem c5_counterexample :
    claimedRefreshSearch
        (FS.mk [("data/proofs/x.py", none),
          ("data/proofs/x__S.proof.json",
            some (J.obj [("claims", J.arr [J.obj [("id", J.str "a"), ("statement", J.str "law")]]),
              ("statement", J.str "LAW")]))])
        "data/proofs/x.py" "S" =
      some (J.obj [("claims", J.arr [J.obj [("id", J.str "a"), ("statement", J.str "law")]]),
        ("statement", J.str "LAW")]) ∧
    (refresh_text_only
        (FS.mk [("data/proofs/x.py", none),
          ("data/proofs/x__S.proof.json",
            some (J.obj [("claims", J.arr [J.obj [("id", J.str "a"), ("statement", J.str "law")]]),
              ("statement", J.str "LAW")]))])
        [J.obj [("id", J.str "x__S"), ("scene", J.str "S"),
          ("source", J.str "data/proofs/x.py")]]).map
        (List.map (fun it => jGet (jGet it "proof") "statement")) =
      Except.ok [J.str ""] ∧
    (refresh_text_only
        (FS.mk [("data/proofs/x.py", none),
          ("data/proofs/x__S.proof.json",
            some (J.obj [("claims", J.arr [J.obj [("id", J.str "a"), ("statement", J.str "law")]]),
              ("statement", J.str "LAW")]))])
        [J.obj [("id", J.str "x__S"), ("scene", J.str "S"),
          ("source", J.str "data/proofs/x.py")]]).map
        (List.map (fun it =>
          match jGet (jGet it "proof") "claims" with
          | J.arr cs => cs.map (fun c => jGet c "id")
          | _ => [])) =
      Except.ok [[J.str "main"]] :=
  ⟨by rfl, by rfl, by rfl⟩

/-! ### Generic fold/bind lemmas for the `Except`-based translations -/

theorem foldlM_eq_ok {α β : Type} (f : β → α → Except Unit β) (g : β → α → β) (l : List α)
    (h : ∀ x ∈ l, ∀ b, f b x = Except.ok (g b x)) :
    ∀ b, l.foldlM f b = Except.ok (l.foldl g b) := by
  induction l with
  | nil => intro b; rfl
  | cons x t ih =>
      intro b
      have hx := h x (List.mem_cons_self x t)
      have ht := fun y hy => h y (List.mem_cons_of_mem x hy)
      simp only [List.foldlM, List.foldl, hx]
      simpa [Bind.bind, Except.bind] using ih ht (g b x)

theorem mapM_eq_ok {α β : Type} (f : α → Except Unit β) (g : α → β) (l : List α)
    (h : ∀ x ∈ l, f x = Except.ok (g x)) :
    l.mapM f = Except.ok (l.map g) := by
  induction l with
  | nil => rfl
  | cons x t ih =>
      have hx := h x (List.mem_cons_self x t)
      have ht := fun y hy => h y (List.mem_cons_of_mem x hy)
      simp only [List.mapM_cons, hx, ih ht, List.map]
      rfl

theorem find?_append {α : Type} (p : α → Bool) (l₁ l₂ : List α) :
    (l₁ ++ l₂).find? p = ((l₁.find? p).orElse (fun _ => l₂.find? p)) := by
  induction l₁ with
  | nil => rfl
  | cons x t ih =>
      by_cases hx : p x
      · simp [List.find?, hx]
      · simp only [List.cons_append, List.find?, Bool.not_eq_true] at *
        rw [hx] at *
        simpa using ih

/-! ### Claim C3: first-truthy-wins field merging in pass 1 -/

/-- Normalized claim-map key of a contributed claim (total form). -/
def cidOfClaimJ (c : J) : String := pyStr (pyOr (jGet c "id") (J.str "main"))

/-- All claims the entries of a group contribute, in entry iteration order
(an entry without claims contributes its synthetic active claim). -/
def contribsOf (g : List J) : List J := g.flatMap itemClaims

/-- First Python-truthy value of field `k` among the claims with id `cid` in
a contribution list. -/
def fieldFindIn (cs : List J) (cid k : String) : Option J :=
  ((cs.filter (fun c => cidOfClaimJ c == cid)).map (fun c => jGet c k)).find? pyTruthy

/-- The claim's merge rule for one field: the first Python-truthy value among
the field's values over the contributions carrying this claim id, in order. -/
def firstTruthyField (g : List J) (cid : String) (k : String) : Option J :=
  fieldFindIn (contribsOf g) cid k

theorem isObjB_iff (v : J) : isObjB v = true ↔ ∃ kvs, v = J.obj kvs := by
  cases v <;> simp [isObjB]

theorem isArrB_iff (v : J) : isArrB v = true ↔ ∃ xs, v = J.arr xs := by
  cases v <;> simp [isArrB]

/-- Destructure an attach-well-formed item into its pieces. -/
theorem wfAttach_parts (it : J) (h : wfAttachItem it = true) :
    ∃ kvs pkvs cs, it = J.obj kvs ∧ pyOr (objGet kvs "proof") (J.obj []) = J.obj pkvs ∧
      pyOr (objGet pkvs "claims") (J.arr []) = J.arr cs ∧
      (∀ c ∈ cs, ∃ ckvs, c = J.obj ckvs) ∧ hashable (groupKeyPure it) = true := by
  simp only [wfAttachItem, Bool.and_eq_true] at h
  obtain ⟨⟨⟨⟨hobj, hpobj⟩, hclarr⟩, hclobjs⟩, hhash⟩ := h
  obtain ⟨kvs, rfl⟩ := (isObjB_iff it).mp hobj
  rw [show jGet (J.obj kvs) "proof" = objGet kvs "proof" from rfl] at hpobj hclarr hclobjs
  obtain ⟨pkvs, hp⟩ := (isObjB_iff _).mp hpobj
  rw [hp] at hclarr hclobjs
  rw [show jGet (J.obj pkvs) "claims" = objGet pkvs "claims" from rfl] at hclarr hclobjs
  obtain ⟨cs, hcl⟩ := (isArrB_iff _).mp hclarr
  rw [hcl] at hclobjs
  refine ⟨kvs, pkvs, cs, rfl, hp, hcl, ?_, hhash⟩
  intro c hc
  have := List.all_eq_true.mp hclobjs c hc
  exact (isObjB_iff c).mp this

theorem itemClaimsE_eq (it : J) (h : wfAttachItem it = true) :
    itemClaimsE it = Except.ok (itemClaims it) := by
  obtain ⟨kvs, pkvs, cs, rfl, hp, hcl, _, _⟩ := wfAttach_parts it h
  simp only [itemClaimsE, itemClaims, asObj, jGet, hp, hcl, Bind.bind, Except.bind]
  split <;> rfl

theorem itemClaims_objs (it : J) (h : wfAttachItem it = true) :
    ∀ c ∈ itemClaims it, ∃ ckvs, c = J.obj ckvs := by
  obtain ⟨kvs, pkvs, cs, rfl, hp, hcl, hobjs, _⟩ := wfAttach_parts it h
  intro c hc
  simp only [itemClaims, jGet, hp, hcl] at hc
  by_cases ht : pyTruthy (J.arr cs)
  · rw [if_pos ht] at hc
    exact hobjs c hc
  · rw [if_neg ht] at hc
    rcases List.mem_singleton.mp hc with rfl
    exact ⟨_, rfl⟩

theorem collectClaimE_eq (m : List StoredClaim) (c : J) (ckvs : List (String × J))
    (hc : c = J.obj ckvs) : collectClaimE m c = Except.ok (collectClaim m c) := by
  subst hc; rfl

theorem pass1E_eq (g : List J) (h : ∀ it ∈ g, wfAttachItem it = true) :
    pass1E g = Except.ok (pass1 g) := by
  apply foldlM_eq_ok
  intro it hit m
  rw [show (do (← itemClaimsE it).foldlM collectClaimE m) =
      Except.bind (itemClaimsE it) (fun cs => cs.foldlM collectClaimE m) from rfl]
  rw [itemClaimsE_eq it (h it hit)]
  simp only [Except.bind]
  exact foldlM_eq_ok _ _ _
    (fun c hcmem b => by
      obtain ⟨ckvs, hck⟩ := itemClaims_objs it (h it hit) c hcmem
      exact collectClaimE_eq b c ckvs hck) m

theorem foldl_flatMapList {α β γ : Type} (F : α → List β) (step : γ → β → γ) (g : List α) :
    ∀ init, g.foldl (fun m it => (F it).foldl step m) init = (g.flatMap F).foldl step init := by
  induction g with
  | nil => intro _; rfl
  | cons x t ih => intro init; simp only [List.flatMap_cons, List.foldl_append, List.foldl, ih]

theorem pass1_eq_foldl_contribs (g : List J) :
    pass1 g = (contribsOf g).foldl collectClaim [] :=
  foldl_flatMapList itemClaims collectClaim g []

theorem fieldFindIn_some_truthy (cs : List J) (cid k : String) (v : J)
    (h : fieldFindIn cs cid k = some v) : pyTruthy v = true :=
  List.find?_some h

theorem fieldFindIn_append_one (cs : List J) (c : J) (cid k : String) :
    fieldFindIn (cs ++ [c]) cid k =
      ((fieldFindIn cs cid k).orElse (fun _ =>
        if cidOfClaimJ c == cid then
          (if pyTruthy (jGet c k) then some (jGet c k) else none)
        else none)) := by
  unfold fieldFindIn
  rw [List.filter_append, List.map_append, find?_append]
  congr 1
  funext u
  by_cases hcid : cidOfClaimJ c == cid
  · simp only [List.filter_cons, hcid, if_pos, List.filter_nil, List.map_cons, List.map_nil,
      List.find?]
    by_cases ht : pyTruthy (jGet c k) <;> simp [ht]
  · simp [List.filter_cons, hcid]

theorem fieldFindIn_of_no_cid (cs : List J) (cid k : String)
    (h : ∀ c ∈ cs, ¬ (cidOfClaimJ c == cid) = true) : fieldFindIn cs cid k = none := by
  unfold fieldFindIn
  rw [List.filter_eq_nil_iff.mpr h]
  rfl

theorem mergeClaimFields_id (ckvs : List (String × J)) (s : StoredClaim) :
    (mergeClaimFields ckvs s).id = s.id := rfl

theorem mem_upsertStored (m : List StoredClaim) (cid : String) (f : StoredClaim → StoredClaim)
    (st' : StoredClaim) (h : st' ∈ upsertStored m cid f) :
    (∃ st, st ∈ m ∧ st.id ≠ cid ∧ st' = st) ∨
    (∃ st, st ∈ m ∧ st.id = cid ∧ st' = f st) ∨
    (¬ ((m.any (fun s => s.id = cid)) = true) ∧ st' = f (StoredClaim.new cid)) := by
  unfold upsertStored at h
  by_cases hany : m.any (fun s => s.id = cid) = true
  · rw [if_pos hany] at h
    obtain ⟨st, hst, heq⟩ := List.mem_map.mp h
    by_cases hid : st.id = cid
    · right; left; exact ⟨st, hst, hid, by rw [← heq, if_pos hid]⟩
    · left; exact ⟨st, hst, hid, by rw [← heq, if_neg hid]⟩
  · rw [if_neg hany] at h
    rcases List.mem_append.mp h with h1 | h1
    · left
      refine ⟨st', h1, ?_, rfl⟩
      intro hid
      exact hany (List.any_eq_true.mpr ⟨st', h1, by simp [hid]⟩)
    · rcases List.mem_singleton.mp h1 with rfl
      exact Or.inr (Or.inr ⟨hany, rfl⟩)

theorem upsert_any_self (m : List StoredClaim) (cid : String) (f : StoredClaim → StoredClaim)
    (hf : ∀ s, (f s).id = s.id) :
    (upsertStored m cid f).any (fun s => s.id = cid) = true := by
  unfold upsertStored
  by_cases hany : m.any (fun s => s.id = cid) = true
  · rw [if_pos hany]
    obtain ⟨st, hst, hid⟩ := List.any_eq_true.mp hany
    refine List.any_eq_true.mpr ⟨_, List.mem_map.mpr ⟨st, hst, rfl⟩, ?_⟩
    rw [if_pos (by simpa using hid)]
    simp [hf, by simpa using hid]
  · rw [if_neg hany]
    refine List.any_eq_true.mpr ⟨f (StoredClaim.new cid), ?_, by simp [hf, StoredClaim.new]⟩
    simp

theorem upsert_any_mono (m : List StoredClaim) (cid x : String) (f : StoredClaim → StoredClaim)
    (hf : ∀ s, (f s).id = s.id) (h : m.any (fun s => s.id = x) = true) :
    (upsertStored m cid f).any (fun s => s.id = x) = true := by
  unfold upsertStored
  obtain ⟨st, hst, hid⟩ := List.any_eq_true.mp h
  by_cases hany : m.any (fun s => s.id = cid) = true
  · rw [if_pos hany]
    refine List.any_eq_true.mpr ⟨_, List.mem_map.mpr ⟨st, hst, rfl⟩, ?_⟩
    by_cases hcid : st.id = cid
    · rw [if_pos hcid]; simp [hf]; simpa using hid
    · rw [if_neg hcid]; exact hid
  · rw [if_neg hany]
    exact List.any_eq_true.mpr ⟨st, List.mem_append_left _ hst, hid⟩

theorem fieldFindIn_append_other (cs : List J) (c : J) (cid k : String)
    (h : ¬ (cidOfClaimJ c == cid) = true) :
    fieldFindIn (cs ++ [c]) cid k = fieldFindIn cs cid k := by
  rw [fieldFindIn_append_one, if_neg h]
  cases fieldFindIn cs cid k <;> rfl

theorem fieldFindIn_append_same (cs : List J) (c : J) (cid k : String)
    (h : (cidOfClaimJ c == cid) = true) :
    fieldFindIn (cs ++ [c]) cid k =
      (fieldFindIn cs cid k).orElse
        (fun _ => if pyTruthy (jGet c k) then some (jGet c k) else none) := by
  rw [fieldFindIn_append_one, if_pos h]

theorem mergeField_char (cs : List J) (cid k : String) (old : Option J) (v : J)
    (hold : old = fieldFindIn cs cid k) :
    mergeField old v =
      (fieldFindIn cs cid k).orElse (fun _ => if pyTruthy v then some v else none) := by
  cases hv : fieldFindIn cs cid k with
  | some w =>
      have hw := fieldFindIn_some_truthy cs cid k w hv
      rw [hold, hv]
      simp [mergeField, optTruthy, hw, Option.orElse]
  | none =>
      rw [hold, hv]
      simp only [mergeField, optTruthy, Option.orElse]
      by_cases ht : pyTruthy v <;> simp [ht]

/-- Invariant of the pass-1 fold: each stored field is the first truthy
contributed value for that claim id, no `animationId` is ever set, and every
processed claim id owns a map entry. -/
theorem collect_fold_invariant (cs : List J) (hobj : ∀ c ∈ cs, ∃ ckvs, c = J.obj ckvs) :
    (∀ st ∈ cs.foldl collectClaim [],
       st.label = fieldFindIn cs st.id "label" ∧
       st.statement = fieldFindIn cs st.id "statement" ∧
       st.scene = fieldFindIn cs st.id "scene" ∧
       st.animationId = none) ∧
    (∀ c ∈ cs, (cs.foldl collectClaim []).any (fun st => st.id = cidOfClaimJ c) = true) := by
  induction cs using List.reverseRecOn with
  | nil => exact ⟨fun st h => absurd h (by simp), fun c h => absurd h (by simp)⟩
  | append_singleton l c ih =>
      have hl := fun x hx => hobj x (List.mem_append_left _ hx)
      obtain ⟨ckvs, rfl⟩ := hobj c (List.mem_append_right _ (List.mem_singleton.mpr rfl))
      obtain ⟨ih1, ih2⟩ := ih hl
      rw [List.foldl_append]
      have hcid : cidOfClaimJ (J.obj ckvs) = cidOfClaim ckvs := rfl
      have hfid : ∀ s, (mergeClaimFields ckvs s).id = s.id := fun s => rfl
      constructor
      · intro st' hst'
        simp only [List.foldl, collectClaim] at hst'
        rcases mem_upsertStored (l.foldl collectClaim []) (cidOfClaim ckvs)
            (mergeClaimFields ckvs) st' hst'
          with ⟨st, hst, hne, heqa⟩ | ⟨st, hst, heq, heqb⟩ | ⟨hnone, heqc⟩
        · subst heqa
          obtain ⟨g1, g2, g3, g4⟩ := ih1 st' hst
          have hnocid : ¬ (cidOfClaimJ (J.obj ckvs) == st'.id) = true := by
            simpa [hcid] using fun hx => hne hx.symm
          exact ⟨by rw [fieldFindIn_append_other _ _ _ _ hnocid]; exact g1,
            by rw [fieldFindIn_append_other _ _ _ _ hnocid]; exact g2,
            by rw [fieldFindIn_append_other _ _ _ _ hnocid]; exact g3, g4⟩
        · subst heqb
          obtain ⟨g1, g2, g3, g4⟩ := ih1 st hst
          have hsame : (cidOfClaimJ (J.obj ckvs) == st.id) = true := by
            simp [hcid, heq]
          have hid' : (mergeClaimFields ckvs st).id = st.id := rfl
          refine ⟨?_, ?_, ?_, g4⟩ <;> rw [hid', fieldFindIn_append_same _ _ _ _ hsame]
          · exact mergeField_char l st.id "label" st.label _ g1
          · exact mergeField_char l st.id "statement" st.statement _ g2
          · exact mergeField_char l st.id "scene" st.scene _ g3
        · subst heqc
          have hnil : fieldFindIn l (cidOfClaim ckvs) "label" = none ∧
              fieldFindIn l (cidOfClaim ckvs) "statement" = none ∧
              fieldFindIn l (cidOfClaim ckvs) "scene" = none := by
            have hno : ∀ c' ∈ l, ¬ (cidOfClaimJ c' == cidOfClaim ckvs) = true := by
              intro c' hc' hx
              have := ih2 c' hc'
              obtain ⟨st, hst, hidst⟩ := List.any_eq_true.mp this
              refine hnone (List.any_eq_true.mpr ⟨st, hst, ?_⟩)
              have hx' : cidOfClaimJ c' = cidOfClaim ckvs := by simpa using hx
              simpa [hx'] using hidst
            exact ⟨fieldFindIn_of_no_cid l _ _ hno, fieldFindIn_of_no_cid l _ _ hno,
              fieldFindIn_of_no_cid l _ _ hno⟩
          have hsame : (cidOfClaimJ (J.obj ckvs) == cidOfClaim ckvs) = true := by
            simp [hcid]
          have hid' : (mergeClaimFields ckvs (StoredClaim.new (cidOfClaim ckvs))).id =
              cidOfClaim ckvs := rfl
          refine ⟨?_, ?_, ?_, rfl⟩ <;> rw [hid', fieldFindIn_append_same _ _ _ _ hsame]
          · rw [hnil.1]
            simp only [mergeClaimFields, StoredClaim.new, mergeField, optTruthy, Option.orElse]
            by_cases ht : pyTruthy (objGet ckvs "label") <;> simp [ht, jGet]
          · rw [hnil.2.1]
            simp only [mergeClaimFields, StoredClaim.new, mergeField, optTruthy, Option.orElse]
            by_cases ht : pyTruthy (objGet ckvs "statement") <;> simp [ht, jGet]
          · rw [hnil.2.2]
            simp only [mergeClaimFields, StoredClaim.new, mergeField, optTruthy, Option.orElse]
            by_cases ht : pyTruthy (objGet ckvs "scene") <;> simp [ht, jGet]
      · intro c' hc'
        simp only [List.foldl, collectClaim]
        rcases List.mem_append.mp hc' with h1 | h1
        · exact upsert_any_mono _ _ _ _ hfid (ih2 c' h1)
        · rcases List.mem_singleton.mp h1 with rfl
          rw [hcid]
          exact upsert_any_self _ _ _ hfid

/-- C3: in pass 1 of the claim-link attachment, the claims contributed by a
theorem group's entries (an entry without claims contributing the synthetic
claim built from its `activeClaimId`) are merged by claim id so that each of
`label`, `statement` and `scene` holds the first Python-truthy value
encountered in entry iteration order — a later entry never overwrites an
already-populated field. -/
theorem c3_merge_first_nonempty (g : List J) (h : ∀ it ∈ g, wfAttachItem it = true) :
    ∃ m, pass1E g = Except.ok m ∧
      ∀ st ∈ m,
        st.label = firstTruthyField g st.id "label" ∧
        st.statement = firstTruthyField g st.id "statement" ∧
        st.scene = firstTruthyField g st.id "scene" := by
  refine ⟨pass1 g, pass1E_eq g h, ?_⟩
  rw [pass1_eq_foldl_contribs]
  have hobj : ∀ c ∈ contribsOf g, ∃ ckvs, c = J.obj ckvs := by
    intro c hc
    obtain ⟨it, hitg, hc'⟩ := List.mem_flatMap.mp hc
    exact itemClaims_objs it (h it hitg) c hc'
  intro st hst
  obtain ⟨g1, g2, g3, _⟩ := (collect_fold_invariant (contribsOf g) hobj).1 st hst
  exact ⟨g1, g2, g3⟩

/-- Witness for C3: two variants of one theorem contribute claim `a` — the
first with label `"L1"` and empty statement, the second with label `"L2"`
and statement `"S2"`; the merge keeps label `"L1"` (first truthy) and fills
statement `"S2"` without overwriting the label. -/
theorem c3_merge_first_nonempty_witness :
    (∀ it ∈
        [J.obj [("id", J.str "v1"),
           ("proof", J.obj [("activeClaimId", J.str "a"),
             ("claims", J.arr [J.obj [("id", J.str "a"), ("label", J.str "L1"),
               ("statement", J.str "")]])])],
         J.obj [("id", J.str "v2"),
           ("proof", J.obj [("activeClaimId", J.str "a"),
             ("claims", J.arr [J.obj [("id", J.str "a"), ("label", J.str "L2"),
               ("statement", J.str "S2")]])])]],
      wfAttachItem it = true) ∧
    (∃ m, pass1E
        [J.obj [("id", J.str "v1"),
           ("proof", J.obj [("activeClaimId", J.str "a"),
             ("claims", J.arr [J.obj [("id", J.str "a"), ("label", J.str "L1"),
               ("statement", J.str "")]])])],
         J.obj [("id", J.str "v2"),
           ("proof", J.obj [("activeClaimId", J.str "a"),
             ("claims", J.arr [J.obj [("id", J.str "a"), ("label", J.str "L2"),
               ("statement", J.str "S2")]])])]] = Except.ok m ∧
      ∀ st ∈ m,
        st.label = firstTruthyField
          [J.obj [("id", J.str "v1"),
             ("proof", J.obj [("activeClaimId", J.str "a"),
               ("claims", J.arr [J.obj [("id", J.str "a"), ("label", J.str "L1"),
                 ("statement", J.str "")]])])],
           J.obj [("id", J.str "v2"),
             ("proof", J.obj [("activeClaimId", J.str "a"),
               ("claims", J.arr [J.obj [("id", J.str "a"), ("label", J.str "L2"),
                 ("statement", J.str "S2")]])])]] st.id "label" ∧
        st.statement = firstTruthyField
          [J.obj [("id", J.str "v1"),
             ("proof", J.obj [("activeClaimId", J.str "a"),
               ("claims", J.arr [J.obj [("id", J.str "a"), ("label", J.str "L1"),
                 ("statement", J.str "")]])])],
           J.obj [("id", J.str "v2"),
             ("proof", J.obj [("activeClaimId", J.str "a"),
               ("claims", J.arr [J.obj [("id", J.str "a"), ("label", J.str "L2"),
                 ("statement", J.str "S2")]])])]] st.id "statement" ∧
        st.scene = firstTruthyField
          [J.obj [("id", J.str "v1"),
             ("proof", J.obj [("activeClaimId", J.str "a"),
               ("claims", J.arr [J.obj [("id", J.str "a"), ("label", J.str "L1"),
                 ("statement", J.str "")]])])],
           J.obj [("id", J.str "v2"),
             ("proof", J.obj [("activeClaimId", J.str "a"),
               ("claims", J.arr [J.obj [("id", J.str "a"), ("label", J.str "L2"),
                 ("statement", J.str "S2")]])])]] st.id "scene") :=
  ⟨by decide,
   c3_merge_first_nonempty
     [J.obj [("id", J.str "v1"),
        ("proof", J.obj [("activeClaimId", J.str "a"),
          ("claims", J.arr [J.obj [("id", J.str "a"), ("label", J.str "L1"),
            ("statement", J.str "")]])])],
      J.obj [("id", J.str "v2"),
        ("proof", J.obj [("activeClaimId", J.str "a"),
          ("claims", J.arr [J.obj [("id", J.str "a"), ("label", J.str "L2"),
            ("statement", J.str "S2")]])])]]
     (by decide)⟩

/-! ### Claim C2: support lemmas (dict updates, keys, serialization, sorting) -/

theorem objGet_setKey_same (l : List (String × J)) (k : String) (v : J) :
    objGet (setKey l k v) k = v := by
  induction l with
  | nil => simp [setKey, objGet, List.find?]
  | cons p t ih =>
      by_cases hp : p.1 = k
      · simp [setKey, hp, objGet, List.find?]
      · cases p with
        | mk k' v' =>
            simp only at hp
            rw [show setKey ((k', v') :: t) k v = (k', v') :: setKey t k v from by
              simp [setKey, hp]]
            rw [objGet_cons_ne _ _ _ _ hp]
            exact ih

theorem objGet_setKey_other (l : List (String × J)) (k : String) (v : J) (k' : String)
    (h : ¬ (k' = k)) : objGet (setKey l k v) k' = objGet l k' := by
  induction l with
  | nil =>
      simp only [setKey]
      rw [objGet_cons_ne _ _ _ _ (fun hc => h hc.symm)]
  | cons p t ih =>
      cases p with
      | mk k0 v0 =>
          by_cases hp : k0 = k
          · subst hp
            rw [show setKey ((k0, v0) :: t) k0 v = (k0, v) :: t from by simp [setKey]]
            rw [objGet_cons_ne _ _ _ _ (fun hc => h hc.symm),
              objGet_cons_ne _ _ _ _ (fun hc => h hc.symm)]
          · rw [show setKey ((k0, v0) :: t) k v = (k0, v0) :: setKey t k v from by
              simp [setKey, hp]]
            by_cases hk0 : k0 = k'
            · subst hk0
              rw [objGet_cons_eq, objGet_cons_eq]
            · rw [objGet_cons_ne _ _ _ _ hk0, objGet_cons_ne _ _ _ _ hk0]
              exact ih

theorem setKey_ne_nil (l : List (String × J)) (k : String) (v : J) : setKey l k v ≠ [] := by
  cases l with
  | nil => simp [setKey]
  | cons p t =>
      cases p with
      | mk k' v' =>
          simp only [setKey]
          split <;> simp

theorem keyEq_eq (a b : J) (ha : hashable a = true) : keyEq a b = true ↔ a = b := by
  cases a <;> cases b <;> simp_all [keyEq, hashable]

theorem keyEq_refl (a : J) (ha : hashable a = true) : keyEq a a = true :=
  (keyEq_eq a a ha).mpr rfl

theorem jGet_storedToJ_id (s : StoredClaim) : jGet (storedToJ s) "id" = J.str s.id := by
  simp [storedToJ, jGet, objGet_cons_eq]

/-- String id of a serialized claim (used to state sortedness). -/
def claimIdStrOf (c : J) : String :=
  match jGet c "id" with
  | J.str s => s
  | _ => ""

theorem claimIdStrOf_storedToJ (s : StoredClaim) : claimIdStrOf (storedToJ s) = s.id := by
  simp [claimIdStrOf, jGet_storedToJ_id]

theorem any_key_optKV (k k' : String) (o : Option J) :
    ((optKV k o).any (fun p => p.1 = k')) = (o.isSome && decide (k = k')) := by
  cases o <;> simp [optKV]

theorem objGet_append_none (xs ys : List (String × J)) (k : String)
    (h : xs.any (fun p => p.1 = k) = false) : objGet (xs ++ ys) k = objGet ys k := by
  induction xs with
  | nil => rfl
  | cons p t ih =>
      simp only [List.any_cons, Bool.or_eq_false_iff] at h
      cases p with
      | mk k0 v0 =>
          rw [List.cons_append, objGet_cons_ne]
          · exact ih h.2
          · simpa using h.1

theorem hasKey_storedToJ_anim (s : StoredClaim) :
    hasKey (storedToJ s) "animationId" = s.animationId.isSome := by
  simp only [hasKey, storedToJ, List.any_append, List.any_cons, List.any_nil, any_key_optKV]
  cases s.animationId <;> cases s.label <;> cases s.statement <;> cases s.scene <;> simp +decide

/-! Bridging the exception-based attach pass to its pure mirror on
well-formed items. -/

theorem activeIdOfE_eq (it : J) (h : wfAttachItem it = true) :
    activeIdOfE it = Except.ok (activeIdOf it) := by
  obtain ⟨kvs, pkvs, cs, rfl, hp, _, _, _⟩ := wfAttach_parts it h
  simp only [activeIdOfE, activeIdOf, asObj, jGet, hp, Bind.bind, Except.bind]

theorem attachAnimStepE_eq (m : List StoredClaim) (it : J) (h : wfAttachItem it = true) :
    attachAnimStepE m it = Except.ok (attachAnimStep m it) := by
  obtain ⟨kvs, pkvs, cs, heq, hp, _, _, _⟩ := wfAttach_parts it h
  rw [show attachAnimStepE m it =
      Except.bind (activeIdOfE it) (fun a =>
        Except.bind (asObj it) (fun kvs' => Except.ok
          (upsertStored m a
            (fun s => (s.labelDefault ("(" ++ a ++ ")")).setAnim (objGet kvs' "id")))))
    from rfl]
  rw [activeIdOfE_eq it h, heq]
  rfl

theorem pass2E_eq (g : List J) (m : List StoredClaim) (h : ∀ it ∈ g, wfAttachItem it = true) :
    pass2E g m = Except.ok (pass2 g m) :=
  foldlM_eq_ok attachAnimStepE attachAnimStep g
    (fun it hit b => attachAnimStepE_eq b it (h it hit)) m

theorem claimsArrForE_eq (g : List J) (h : ∀ it ∈ g, wfAttachItem it = true) :
    claimsArrForE g = Except.ok (claimsArrFor g) := by
  rw [show claimsArrForE g = Except.bind (pass1E g) (fun m1 =>
      Except.bind (pass2E g m1) (fun m2 =>
        Except.ok (J.arr ((sortStored m2).map storedToJ)))) from rfl]
  rw [pass1E_eq g h]
  simp only [Except.bind]
  rw [pass2E_eq g (pass1 g) h]
  rfl

theorem groupKeyE_eq (it : J) (h : wfAttachItem it = true) :
    groupKeyE it = Except.ok (groupKeyPure it) := by
  obtain ⟨kvs, pkvs, cs, rfl, hp, _, _, hhash⟩ := wfAttach_parts it h
  by_cases ht : pyTruthy (objGet kvs "theoremId") = true
  · have hkey : groupKeyPure (J.obj kvs) = objGet kvs "theoremId" := by
      simp [groupKeyPure, jGet, ht]
    simp only [groupKeyE, asObj, Bind.bind, Except.bind, if_pos ht]
    rw [← hkey, if_pos hhash]
  · have hkey : groupKeyPure (J.obj kvs) =
        pyOr (objGet pkvs "theoremId") (objGet kvs "id") := by
      simp only [groupKeyPure, jGet, if_neg ht, hp]
    simp only [groupKeyE, asObj, Bind.bind, Except.bind, if_neg ht, hp]
    rw [← hkey, if_pos hhash]

theorem setProofClaimsE_eq (it : J) (cl : J) (h : wfAttachItem it = true) :
    setProofClaimsE it cl = Except.ok (setProofClaims it cl) := by
  obtain ⟨kvs, pkvs, cs, rfl, hp, _, _, _⟩ := wfAttach_parts it h
  simp only [setProofClaimsE, setProofClaims, asObj, jGet, hp, Bind.bind, Except.bind]

/-! The grouping dict: each group holds, in order, exactly the keyed items
whose key equals the group's key, and every key owns a group. -/

theorem insertGroup_inv (gs : List (J × List J)) (P : List (J × J)) (k : J) (it : J)
    (hk : hashable k = true)
    (hPh : ∀ p ∈ P, hashable p.1 = true)
    (h1 : ∀ q ∈ gs, hashable q.1 = true ∧
      q.2 = (P.filter (fun p => keyEq p.1 q.1)).map Prod.snd)
    (h2 : ∀ p ∈ P, ∃ g, (p.1, g) ∈ gs) :
    (∀ q ∈ insertGroup gs k it, hashable q.1 = true ∧
        q.2 = ((P ++ [(k, it)]).filter (fun p => keyEq p.1 q.1)).map Prod.snd) ∧
    (∀ p ∈ P ++ [(k, it)], ∃ g, (p.1, g) ∈ insertGroup gs k it) := by
  by_cases hany : gs.any (fun p => keyEq p.1 k) = true
  · unfold insertGroup
    rw [if_pos hany]
    constructor
    · intro q' hq'
      obtain ⟨q, hq, hmap⟩ := List.mem_map.mp hq'
      obtain ⟨hqh, hqeq⟩ := h1 q hq
      by_cases hkq : keyEq q.1 k = true
      · have hqk : q.1 = k := (keyEq_eq q.1 k hqh).mp hkq
        rw [if_pos hkq] at hmap
        subst hmap
        refine ⟨hqh, ?_⟩
        rw [List.filter_append, List.map_append, ← hqeq]
        have hfk : keyEq k q.1 = true := by rw [hqk]; exact keyEq_refl k hk
        simp [List.filter, hfk]
      · rw [if_neg hkq] at hmap
        subst hmap
        refine ⟨hqh, ?_⟩
        have hfk : keyEq k q.1 = false := by
          by_contra hc
          have hc' : keyEq k q.1 = true := by
            cases hx : keyEq k q.1
            · exact absurd hx hc
            · rfl
          have : k = q.1 := (keyEq_eq k q.1 hk).mp hc'
          exact hkq (by rw [this] at hc' ⊢; exact (keyEq_eq q.1 q.1 hqh).mpr rfl)
        rw [List.filter_append]
        simp [List.filter, hfk, hqeq]
    · intro p hp
      rcases List.mem_append.mp hp with hp1 | hp1
      · obtain ⟨g, hg⟩ := h2 p hp1
        refine ⟨if keyEq p.1 k then g ++ [it] else g, List.mem_map.mpr ⟨(p.1, g), hg, ?_⟩⟩
        by_cases hc : keyEq p.1 k = true <;> simp [hc]
      · rcases List.mem_singleton.mp hp1 with rfl
        obtain ⟨q, hq, hkq⟩ := List.any_eq_true.mp hany
        have hqk : q.1 = k := (keyEq_eq q.1 k (h1 q hq).1).mp hkq
        refine ⟨q.2 ++ [it], List.mem_map.mpr ⟨q, hq, ?_⟩⟩
        rw [if_pos hkq, hqk]
  · unfold insertGroup
    rw [if_neg hany]
    constructor
    · intro q' hq'
      rcases List.mem_append.mp hq' with hq1 | hq1
      · obtain ⟨hqh, hqeq⟩ := h1 q' hq1
        refine ⟨hqh, ?_⟩
        have hfk : keyEq k q'.1 = false := by
          by_contra hc
          have hc' : keyEq k q'.1 = true := by
            cases hx : keyEq k q'.1
            · exact absurd hx hc
            · rfl
          have hEq : k = q'.1 := (keyEq_eq k q'.1 hk).mp hc'
          exact hany (List.any_eq_true.mpr ⟨q', hq1,
            by rw [← hEq]; exact keyEq_refl k hk⟩)
        rw [List.filter_append]
        simp [List.filter, hfk, hqeq]
      · rcases List.mem_singleton.mp hq1 with rfl
        refine ⟨hk, ?_⟩
        have hfP : P.filter (fun p => keyEq p.1 k) = [] := by
          rw [List.filter_eq_nil_iff]
          intro p hpP hpk
          have hpk' : p.1 = k := (keyEq_eq p.1 k (hPh p hpP)).mp hpk
          obtain ⟨g, hg⟩ := h2 p hpP
          exact absurd (List.any_eq_true.mpr ⟨(p.1, g), hg,
            by rw [hpk']; exact keyEq_refl k hk⟩) hany
        rw [List.filter_append, hfP]
        simp [List.filter, keyEq_refl k hk]
    · intro p hp
      rcases List.mem_append.mp hp with hp1 | hp1
      · obtain ⟨g, hg⟩ := h2 p hp1
        exact ⟨g, List.mem_append_left _ hg⟩
      · rcases List.mem_singleton.mp hp1 with rfl
        exact ⟨[it], List.mem_append_right _ (List.mem_singleton.mpr rfl)⟩

theorem buildGroups_fold (keyed : List (J × J)) :
    ∀ (P : List (J × J)) (gs : List (J × List J)),
      (∀ p ∈ keyed, hashable p.1 = true) →
      (∀ p ∈ P, hashable p.1 = true) →
      (∀ q ∈ gs, hashable q.1 = true ∧
        q.2 = (P.filter (fun p => keyEq p.1 q.1)).map Prod.snd) →
      (∀ p ∈ P, ∃ g, (p.1, g) ∈ gs) →
      (∀ q ∈ keyed.foldl (fun gs p => insertGroup gs p.1 p.2) gs, hashable q.1 = true ∧
          q.2 = ((P ++ keyed).filter (fun p => keyEq p.1 q.1)).map Prod.snd) ∧
      (∀ p ∈ P ++ keyed, ∃ g, (p.1, g) ∈ keyed.foldl (fun gs p => insertGroup gs p.1 p.2) gs) := by
  induction keyed with
  | nil =>
      intro P gs _ _ h1 h2
      constructor
      · intro q hq
        rw [List.append_nil]
        exact h1 q hq
      · intro p hp
        rw [List.append_nil] at hp
        exact h2 p hp
  | cons x t ih =>
      intro P gs hk hPh h1 h2
      have hx : hashable x.1 = true := hk x (List.mem_cons_self x t)
      have step := insertGroup_inv gs P x.1 x.2 hx hPh h1 h2
      have hPx : ∀ p ∈ P ++ [x], hashable p.1 = true := by
        intro p hp
        rcases List.mem_append.mp hp with hp1 | hp1
        · exact hPh p hp1
        · rcases List.mem_singleton.mp hp1 with rfl; exact hx
      have hres := ih (P ++ [x]) (insertGroup gs x.1 x.2)
        (fun p hp => hk p (List.mem_cons_of_mem x hp)) hPx step.1 step.2
      rw [show P ++ (x :: t) = (P ++ [x]) ++ t from by
        rw [List.append_assoc]; rfl]
      rw [List.foldl_cons]
      exact hres

theorem buildGroups_char (keyed : List (J × J)) (hk : ∀ p ∈ keyed, hashable p.1 = true) :
    (∀ q ∈ buildGroups keyed, hashable q.1 = true ∧
        q.2 = (keyed.filter (fun p => keyEq p.1 q.1)).map Prod.snd) ∧
    (∀ p ∈ keyed, ∃ g, (p.1, g) ∈ buildGroups keyed) := by
  have := buildGroups_fold keyed [] [] hk (by simp) (by simp) (by simp)
  simpa [buildGroups] using this

theorem lookup_processed (keyed : List (J × J)) (hk : ∀ p ∈ keyed, hashable p.1 = true)
    (F : List J → J) (k : J) (hkh : hashable k = true)
    (hmem : ∃ p ∈ keyed, p.1 = k) :
    lookupByKey ((buildGroups keyed).map (fun q => (q.1, F q.2))) k =
      some (F ((keyed.filter (fun p => keyEq p.1 k)).map Prod.snd)) := by
  obtain ⟨p0, hp0, hp0k⟩ := hmem
  obtain ⟨g0, hg0⟩ := (buildGroups_char keyed hk).2 p0 hp0
  have hexists : ∃ q ∈ buildGroups keyed, keyEq q.1 k = true :=
    ⟨(p0.1, g0), hg0, by rw [show (p0.1, g0).1 = p0.1 from rfl, hp0k]; exact keyEq_refl k hkh⟩
  have hsome : ((buildGroups keyed).find? (fun q => keyEq q.1 k)).isSome := by
    rw [List.find?_isSome]
    exact hexists
  obtain ⟨q0, hfind⟩ := Option.isSome_iff_exists.mp hsome
  have hq0p0 := List.find?_some hfind
  have hq0p : keyEq q0.1 k = true := by simpa using hq0p0
  have hq0m : q0 ∈ buildGroups keyed := List.mem_of_find?_eq_some hfind
  obtain ⟨hq0h, hq0eq⟩ := (buildGroups_char keyed hk).1 q0 hq0m
  have hq0k : q0.1 = k := (keyEq_eq q0.1 k hq0h).mp hq0p
  unfold lookupByKey
  rw [List.find?_map]
  have hcomp : ((fun p => keyEq p.1 k) ∘ (fun q : J × List J => (q.1, F q.2))) =
      (fun q : J × List J => keyEq q.1 k) := rfl
  rw [hcomp, hfind]
  simp only [Option.map_some, Option.map]
  rw [hq0eq, hq0k]

theorem attachE_eq (items : List J) (h : ∀ it ∈ items, wfAttachItem it = true) :
    attach_claim_animation_links items = Except.ok (attachPure items) := by
  have hkeyed : items.mapM (fun it => do Except.ok ((← groupKeyE it), it)) =
      Except.ok (items.map (fun it => (groupKeyPure it, it))) := by
    apply mapM_eq_ok
    intro it hit
    rw [show (do Except.ok ((← groupKeyE it), it) : Except Unit (J × J)) =
        Except.bind (groupKeyE it) (fun k => Except.ok (k, it)) from rfl]
    rw [groupKeyE_eq it (h it hit)]
    rfl
  have hkh : ∀ p ∈ items.map (fun it => (groupKeyPure it, it)), hashable p.1 = true := by
    intro p hp
    obtain ⟨it, hit, rfl⟩ := List.mem_map.mp hp
    obtain ⟨_, _, _, _, _, _, _, hh⟩ := wfAttach_parts it (h it hit)
    exact hh
  have hproc : (buildGroups (items.map (fun it => (groupKeyPure it, it)))).mapM
      (fun p => do Except.ok (p.1, ← claimsArrForE p.2)) =
      Except.ok ((buildGroups (items.map (fun it => (groupKeyPure it, it)))).map
        (fun p => (p.1, claimsArrFor p.2))) := by
    apply mapM_eq_ok
    intro q hq
    have hq2 := ((buildGroups_char _ hkh).1 q hq).2
    have hwfg : ∀ it ∈ q.2, wfAttachItem it = true := by
      intro it hit
      rw [hq2] at hit
      obtain ⟨p, hp, rfl⟩ := List.mem_map.mp hit
      have hpk := List.mem_of_mem_filter hp
      obtain ⟨it0, hit0, rfl⟩ := List.mem_map.mp hpk
      exact h it0 hit0
    rw [show (do Except.ok (q.1, ← claimsArrForE q.2) : Except Unit (J × J)) =
        Except.bind (claimsArrForE q.2) (fun c => Except.ok (q.1, c)) from rfl]
    rw [claimsArrForE_eq q.2 hwfg]
    rfl
  have hfilter : ∀ k : J,
      ((items.map (fun it => (groupKeyPure it, it))).filter
        (fun p => keyEq p.1 k)).map Prod.snd =
      items.filter (fun x => keyEq (groupKeyPure x) k) := by
    intro k
    rw [List.filter_map, List.map_map]
    have : (Prod.snd ∘ fun it : J => (groupKeyPure it, it)) = id := rfl
    rw [show ((fun p : J × J => keyEq p.1 k) ∘ fun it : J => (groupKeyPure it, it)) =
      (fun x : J => keyEq (groupKeyPure x) k) from rfl, this, List.map_id]
  have hfin : (items.map (fun it => (groupKeyPure it, it))).mapM
      (fun p => setProofClaimsE p.2
        ((lookupByKey ((buildGroups (items.map (fun it => (groupKeyPure it, it)))).map
          (fun q => (q.1, claimsArrFor q.2))) p.1).getD J.null)) =
      Except.ok (attachPure items) := by
    rw [show attachPure items = (items.map (fun it => (groupKeyPure it, it))).map
        (fun p => setProofClaims p.2
          (claimsArrFor (items.filter (fun x => keyEq (groupKeyPure x) p.1)))) from by
      rw [List.map_map]; rfl]
    apply mapM_eq_ok
    intro p hp
    obtain ⟨it, hit, rfl⟩ := List.mem_map.mp hp
    obtain ⟨_, _, _, _, _, _, _, hh⟩ := wfAttach_parts it (h it hit)
    rw [lookup_processed _ hkh claimsArrFor (groupKeyPure it) hh
      ⟨(groupKeyPure it, it), List.mem_map.mpr ⟨it, hit, rfl⟩, rfl⟩]
    rw [Option.getD_some, hfilter (groupKeyPure it)]
    exact setProofClaimsE_eq it _ (h it hit)
  rw [show attach_claim_animation_links items =
      Except.bind (items.mapM (fun it => do Except.ok ((← groupKeyE it), it)))
        (fun keyed => Except.bind
          ((buildGroups keyed).mapM (fun p => do Except.ok (p.1, ← claimsArrForE p.2)))
          (fun processed => keyed.mapM
            (fun p => setProofClaimsE p.2 ((lookupByKey processed p.1).getD J.null))))
    from rfl]
  rw [hkeyed]
  simp only [Except.bind]
  rw [hproc]
  exact hfin

/-! Pass 2: the `animationId` stamped on a stored claim is the id of the last
entry of the group whose active claim id names that claim. -/

theorem labelDefault_setAnim_id (s : StoredClaim) (d : String) (v : J) :
    ((s.labelDefault d).setAnim v).id = s.id := by
  obtain ⟨i, lb, stm, sc, an⟩ := s
  cases lb <;> rfl

theorem labelDefault_setAnim_anim (s : StoredClaim) (d : String) (v : J) :
    ((s.labelDefault d).setAnim v).animationId = some v := by
  obtain ⟨i, lb, stm, sc, an⟩ := s
  cases lb <;> rfl

theorem pass2_anim (g : List J) (m : List StoredClaim)
    (hm : ∀ st ∈ m, st.animationId = none) :
    ∀ st ∈ pass2 g m,
      st.animationId = ((g.filter (fun x => activeIdOf x == st.id)).getLast?).map
        (fun x => jGet x "id") := by
  induction g using List.reverseRecOn with
  | nil =>
      intro st hst
      rw [show pass2 [] m = m from rfl] at hst
      rw [hm st hst]
      rfl
  | append_singleton l it ih =>
      intro st' hst'
      rw [show pass2 (l ++ [it]) m = attachAnimStep (pass2 l m) it from by
        unfold pass2; rw [List.foldl_append]; rfl] at hst'
      unfold attachAnimStep at hst'
      rcases mem_upsertStored _ _ _ _ hst' with
        ⟨st, hstm, hne, rfl⟩ | ⟨st, hstm, hid, rfl⟩ | ⟨hnone, rfl⟩
      · have hchar := ih st' hstm
        rw [List.filter_append]
        have hpred : (activeIdOf it == st'.id) = false :=
          beq_eq_false_iff_ne.mpr (fun hc => hne hc.symm)
        rw [show List.filter (fun x => activeIdOf x == st'.id) [it] = [] from by
          simp [List.filter, hpred]]
        rw [List.append_nil]
        exact hchar
      · simp only [labelDefault_setAnim_anim, labelDefault_setAnim_id]
        rw [List.filter_append]
        have hpred : (activeIdOf it == st.id) = true := beq_iff_eq.mpr hid.symm
        rw [show List.filter (fun x => activeIdOf x == st.id) [it] = [it] from by
          simp [List.filter, hpred]]
        rw [List.getLast?_concat]
        rfl
      · simp only [labelDefault_setAnim_anim, labelDefault_setAnim_id]
        rw [show (StoredClaim.new (activeIdOf it)).id = activeIdOf it from rfl]
        rw [List.filter_append]
        have hpred : (activeIdOf it == activeIdOf it) = true := beq_iff_eq.mpr rfl
        rw [show List.filter (fun x => activeIdOf x == activeIdOf it) [it] = [it] from by
          simp [List.filter, hpred]]
        rw [List.getLast?_concat]
        rfl

theorem collectClaim_anim (m : List StoredClaim) (c : J)
    (hm : ∀ st ∈ m, st.animationId = none) :
    ∀ st ∈ collectClaim m c, st.animationId = none := by
  intro st' hst'
  unfold collectClaim at hst'
  match c, hst' with
  | J.obj ckvs, hst' =>
      rcases mem_upsertStored _ _ _ _ hst' with
        ⟨st, hstm, _, rfl⟩ | ⟨st, hstm, _, rfl⟩ | ⟨_, rfl⟩
      · exact hm st' hstm
      · rw [show (mergeClaimFields ckvs st).animationId = st.animationId from rfl]
        exact hm st hstm
      · rfl
  | J.null, hst' => exact hm st' hst'
  | J.bool b, hst' => exact hm st' hst'
  | J.num n, hst' => exact hm st' hst'
  | J.str s, hst' => exact hm st' hst'
  | J.arr xs, hst' => exact hm st' hst'

theorem foldl_collect_anim (cs : List J) :
    ∀ m, (∀ st ∈ m, st.animationId = none) →
      ∀ st ∈ cs.foldl collectClaim m, st.animationId = none := by
  induction cs with
  | nil => intro m hm; exact hm
  | cons c t ih =>
      intro m hm
      exact ih (collectClaim m c) (collectClaim_anim m c hm)

theorem pass1_anim_none (g : List J) : ∀ st ∈ pass1 g, st.animationId = none := by
  rw [pass1_eq_foldl_contribs]
  exact foldl_collect_anim (contribsOf g) [] (by intro st hst; cases hst)

instance : IsTotal StoredClaim (fun a b => a.id ≤ b.id) :=
  ⟨fun a b => le_total a.id b.id⟩

instance : IsTrans StoredClaim (fun a b => a.id ≤ b.id) :=
  ⟨fun _ _ _ hab hbc => le_trans hab hbc⟩

theorem sortStored_sorted (m : List StoredClaim) :
    List.Sorted (fun a b : StoredClaim => a.id ≤ b.id) (sortStored m) :=
  List.sorted_insertionSort _ m

theorem sortStored_mem (m : List StoredClaim) (st : StoredClaim) :
    st ∈ sortStored m ↔ st ∈ m :=
  (List.perm_insertionSort _ m).mem_iff

/-! Fields of an item after `setProofClaims`. -/

theorem jGet_setProofClaims_claims (it cl : J) (h : wfAttachItem it = true) :
    jGet (jGet (setProofClaims it cl) "proof") "claims" = cl := by
  obtain ⟨kvs, pkvs, cs, rfl, hp, _, _, _⟩ := wfAttach_parts it h
  simp only [setProofClaims, jGet, hp, objGet_setKey_same]

theorem jGet_setProofClaims_other (it cl : J) (k : String) (hk : ¬ (k = "proof")) :
    jGet (setProofClaims it cl) k = jGet it k := by
  cases it with
  | obj kvs => simp only [setProofClaims, jGet, objGet_setKey_other _ _ _ _ hk]
  | null => rfl
  | bool b => rfl
  | num n => rfl
  | str s => rfl
  | arr xs => rfl

theorem jGet_setProofClaims_proofField (it cl : J) (k : String) (hk : ¬ (k = "claims"))
    (h : wfAttachItem it = true) :
    jGet (jGet (setProofClaims it cl) "proof") k =
      jGet (pyOr (jGet it "proof") (J.obj [])) k := by
  obtain ⟨kvs, pkvs, cs, rfl, hp, _, _, _⟩ := wfAttach_parts it h
  simp only [setProofClaims, jGet, hp, objGet_setKey_same, objGet_setKey_other _ _ _ _ hk]

theorem groupKeyPure_setProofClaims (it cl : J) (h : wfAttachItem it = true) :
    groupKeyPure (setProofClaims it cl) = groupKeyPure it := by
  obtain ⟨kvs, pkvs, cs, rfl, hp, _, _, _⟩ := wfAttach_parts it h
  have hsp : setProofClaims (J.obj kvs) cl =
      J.obj (setKey kvs "proof" (J.obj (setKey pkvs "claims" cl))) := by
    simp only [setProofClaims, jGet, hp]
  rw [hsp]
  unfold groupKeyPure
  have ht : objGet (setKey kvs "proof" (J.obj (setKey pkvs "claims" cl))) "theoremId" =
      objGet kvs "theoremId" :=
    objGet_setKey_other _ _ _ _ (by decide)
  rw [show jGet (J.obj (setKey kvs "proof" (J.obj (setKey pkvs "claims" cl)))) "theoremId" =
      objGet (setKey kvs "proof" (J.obj (setKey pkvs "claims" cl))) "theoremId" from rfl, ht]
  rw [show jGet (J.obj kvs) "theoremId" = objGet kvs "theoremId" from rfl]
  by_cases htr : pyTruthy (objGet kvs "theoremId") = true
  · rw [if_pos htr, if_pos htr]
  · rw [if_neg htr, if_neg htr]
    have hpr : jGet (J.obj (setKey kvs "proof" (J.obj (setKey pkvs "claims" cl)))) "proof" =
        J.obj (setKey pkvs "claims" cl) := by
      rw [show jGet (J.obj (setKey kvs "proof" (J.obj (setKey pkvs "claims" cl)))) "proof" =
        objGet (setKey kvs "proof" (J.obj (setKey pkvs "claims" cl))) "proof" from rfl,
        objGet_setKey_same]
    rw [hpr]
    have htr2 : pyTruthy (J.obj (setKey pkvs "claims" cl)) = true := by
      simp only [pyTruthy]
      cases hsk : setKey pkvs "claims" cl with
      | nil => exact absurd hsk (setKey_ne_nil pkvs "claims" cl)
      | cons a t => simp
    rw [show pyOr (J.obj (setKey pkvs "claims" cl)) (J.obj []) =
      J.obj (setKey pkvs "claims" cl) from by unfold pyOr; rw [if_pos htr2]]
    rw [show jGet (J.obj kvs) "proof" = objGet kvs "proof" from rfl, hp]
    rw [show jGet (J.obj (setKey pkvs "claims" cl)) "theoremId" =
      objGet (setKey pkvs "claims" cl) "theoremId" from rfl,
      objGet_setKey_other _ _ _ _ (by decide),
      show jGet (J.obj pkvs) "theoremId" = objGet pkvs "theoremId" from rfl]
    rw [show jGet (J.obj (setKey kvs "proof" (J.obj (setKey pkvs "claims" cl)))) "id" =
      objGet (setKey kvs "proof" (J.obj (setKey pkvs "claims" cl))) "id" from rfl,
      objGet_setKey_other _ _ _ _ (by decide),
      show jGet (J.obj kvs) "id" = objGet kvs "id" from rfl]

/-- The raw `proof.activeClaimId` value of an item (`(item.get("proof") or
{}).get("activeClaimId")`). -/
def activeRawOf (it : J) : J := jGet (pyOr (jGet it "proof") (J.obj [])) "activeClaimId"

/-- Attach-well-formedness plus a non-empty string `activeClaimId`, so that
the normalized active id round-trips through `str()`. -/
def wfC2Item (it : J) : Bool :=
  wfAttachItem it &&
    (match activeRawOf it with
     | J.str s => s != ""
     | _ => false)

theorem wfC2_parts (it : J) (h : wfC2Item it = true) :
    wfAttachItem it = true ∧ activeRawOf it = J.str (activeIdOf it) := by
  rw [show wfC2Item it = (wfAttachItem it &&
      (match activeRawOf it with
       | J.str s => s != ""
       | _ => false)) from rfl] at h
  rw [Bool.and_eq_true] at h
  obtain ⟨h1, h2⟩ := h
  refine ⟨h1, ?_⟩
  cases hr : activeRawOf it with
  | str s =>
      rw [hr] at h2
      have hs : ¬ (s = "") := by simpa using h2
      unfold activeIdOf
      rw [show jGet (pyOr (jGet it "proof") (J.obj [])) "activeClaimId" =
        activeRawOf it from rfl, hr]
      unfold pyOr
      rw [if_pos (by simpa [pyTruthy] using hs)]
      rfl
  | null => rw [hr] at h2; simp at h2
  | bool b => rw [hr] at h2; simp at h2
  | num n => rw [hr] at h2; simp at h2
  | arr xs => rw [hr] at h2; simp at h2
  | obj kvs => rw [hr] at h2; simp at h2

theorem jGet_storedToJ_anim (s : StoredClaim) (v : J) (h : s.animationId = some v) :
    jGet (storedToJ s) "animationId" = v := by
  have hxs : ((([("id", J.str s.id)] ++ optKV "label" s.label) ++
      optKV "statement" s.statement) ++ optKV "scene" s.scene).any
      (fun p => p.1 = "animationId") = false := by
    simp only [List.any_append, any_key_optKV, List.any_cons, List.any_nil]
    cases s.label <;> cases s.statement <;> cases s.scene <;> simp +decide
  rw [show storedToJ s = J.obj (((([("id", J.str s.id)] ++ optKV "label" s.label) ++
      optKV "statement" s.statement) ++ optKV "scene" s.scene) ++
      optKV "animationId" s.animationId) from rfl, h]
  rw [show jGet (J.obj (((([("id", J.str s.id)] ++ optKV "label" s.label) ++
      optKV "statement" s.statement) ++ optKV "scene" s.scene) ++
      optKV "animationId" (some v))) "animationId" =
    objGet (((([("id", J.str s.id)] ++ optKV "label" s.label) ++
      optKV "statement" s.statement) ++ optKV "scene" s.scene) ++
      optKV "animationId" (some v)) "animationId" from rfl]
  rw [objGet_append_none _ _ _ hxs]
  rw [show optKV "animationId" (some v) = [("animationId", v)] from rfl, objGet_cons_eq]

/-- **C2.** (amended) `attach_claim_animation_links` groups manifest entries by
`entry.get("theoremId") or (entry.get("proof") or {}).get("theoremId") or
entry.get("id")` — the claim's stated key (`theoremId`, else the entry's own
`id`) omits the middle `proof.theoremId` fallback.  Within a group every entry
receives the same reconciled `proof.claims` list, sorted by claim id; a claim
in that list carries an `animationId` exactly when some entry of the group
names it as its `activeClaimId`, and then the `animationId` is such an entry's
`id`. -/
theorem c2_attach_claim_links (items : List J)
    (h : ∀ it ∈ items, wfC2Item it = true) :
    ∃ out, attach_claim_animation_links items = Except.ok out ∧
      ∀ e1 ∈ out, ∀ e2 ∈ out, groupKeyPure e1 = groupKeyPure e2 →
        jGet (jGet e1 "proof") "claims" = jGet (jGet e2 "proof") "claims" ∧
        ∃ l, jGet (jGet e1 "proof") "claims" = J.arr l ∧
          List.Sorted (fun a b => claimIdStrOf a ≤ claimIdStrOf b) l ∧
          (∀ c ∈ l, hasKey c "animationId" = true →
            ∃ e' ∈ out, groupKeyPure e' = groupKeyPure e1 ∧
              jGet (jGet e' "proof") "activeClaimId" = jGet c "id" ∧
              jGet e' "id" = jGet c "animationId") ∧
          (∀ c ∈ l, (∀ e' ∈ out, groupKeyPure e' = groupKeyPure e1 →
              ¬ (jGet (jGet e' "proof") "activeClaimId" = jGet c "id")) →
            hasKey c "animationId" = false) := by
  have hwf : ∀ it ∈ items, wfAttachItem it = true :=
    fun it hit => (wfC2_parts it (h it hit)).1
  refine ⟨attachPure items, attachE_eq items hwf, ?_⟩
  intro e1 he1 e2 he2 hkeys
  obtain ⟨it1, hit1, rfl⟩ := List.mem_map.mp he1
  obtain ⟨it2, hit2, rfl⟩ := List.mem_map.mp he2
  have hw1 := hwf it1 hit1
  have hw2 := hwf it2 hit2
  rw [groupKeyPure_setProofClaims _ _ hw1, groupKeyPure_setProofClaims _ _ hw2] at hkeys
  have hGeq : items.filter (fun x => keyEq (groupKeyPure x) (groupKeyPure it1)) =
      items.filter (fun x => keyEq (groupKeyPure x) (groupKeyPure it2)) := by rw [hkeys]
  constructor
  · rw [jGet_setProofClaims_claims _ _ hw1, jGet_setProofClaims_claims _ _ hw2, hGeq]
  refine ⟨(sortStored (pass2
      (items.filter (fun x => keyEq (groupKeyPure x) (groupKeyPure it1)))
      (pass1 (items.filter (fun x => keyEq (groupKeyPure x) (groupKeyPure it1)))))).map
        storedToJ, ?_, ?_, ?_, ?_⟩
  · rw [jGet_setProofClaims_claims _ _ hw1]
    rfl
  · refine List.pairwise_map.mpr ?_
    refine (sortStored_sorted _).imp ?_
    intro a b hab
    rw [claimIdStrOf_storedToJ, claimIdStrOf_storedToJ]
    exact hab
  · intro c hc hanim
    obtain ⟨s, hsmem, rfl⟩ := List.mem_map.mp hc
    rw [hasKey_storedToJ_anim] at hanim
    obtain ⟨v, hv⟩ := Option.isSome_iff_exists.mp hanim
    have hsm2 : s ∈ pass2
        (items.filter (fun x => keyEq (groupKeyPure x) (groupKeyPure it1)))
        (pass1 (items.filter (fun x => keyEq (groupKeyPure x) (groupKeyPure it1)))) :=
      (sortStored_mem _ _).mp hsmem
    have hchar := pass2_anim _ _ (pass1_anim_none _) s hsm2
    rw [hv] at hchar
    cases hgl : ((items.filter (fun x => keyEq (groupKeyPure x) (groupKeyPure it1))).filter
        (fun x => activeIdOf x == s.id)).getLast? with
    | none => rw [hgl] at hchar; simp at hchar
    | some it0 =>
        rw [hgl] at hchar
        have hveq : v = jGet it0 "id" := by simpa using hchar
        have hmem0 : it0 ∈ (items.filter
            (fun x => keyEq (groupKeyPure x) (groupKeyPure it1))).filter
            (fun x => activeIdOf x == s.id) := by
          obtain ⟨hne, heq⟩ := List.mem_getLast?_eq_getLast hgl
          rw [heq]; exact List.getLast_mem hne
        have hactive : activeIdOf it0 = s.id := by simpa using List.of_mem_filter hmem0
        have hit0G := List.mem_of_mem_filter hmem0
        have hit0items : it0 ∈ items := List.mem_of_mem_filter hit0G
        have hkey0 : keyEq (groupKeyPure it0) (groupKeyPure it1) = true := by
          have hq := List.of_mem_filter hit0G
          simpa using hq
        have hh0 : hashable (groupKeyPure it0) = true := by
          obtain ⟨_, _, _, _, _, _, _, hh⟩ := wfAttach_parts it0 (hwf it0 hit0items)
          exact hh
        have hgk0 : groupKeyPure it0 = groupKeyPure it1 := (keyEq_eq _ _ hh0).mp hkey0
        refine ⟨setProofClaims it0 (claimsArrFor (items.filter
            (fun x => keyEq (groupKeyPure x) (groupKeyPure it0)))),
          List.mem_map.mpr ⟨it0, hit0items, rfl⟩, ?_, ?_, ?_⟩
        · rw [groupKeyPure_setProofClaims _ _ (hwf it0 hit0items),
            groupKeyPure_setProofClaims _ _ hw1, hgk0]
        · rw [jGet_setProofClaims_proofField _ _ "activeClaimId" (by decide)
            (hwf it0 hit0items)]
          rw [show jGet (pyOr (jGet it0 "proof") (J.obj [])) "activeClaimId" =
            activeRawOf it0 from rfl]
          rw [(wfC2_parts it0 (h it0 hit0items)).2, hactive, jGet_storedToJ_id]
        · rw [jGet_setProofClaims_other _ _ "id" (by decide),
            jGet_storedToJ_anim s v hv, hveq]
  · intro c hc hno
    obtain ⟨s, hsmem, rfl⟩ := List.mem_map.mp hc
    rw [hasKey_storedToJ_anim]
    have hsm2 : s ∈ pass2
        (items.filter (fun x => keyEq (groupKeyPure x) (groupKeyPure it1)))
        (pass1 (items.filter (fun x => keyEq (groupKeyPure x) (groupKeyPure it1)))) :=
      (sortStored_mem _ _).mp hsmem
    have hchar := pass2_anim _ _ (pass1_anim_none _) s hsm2
    have hfe : (items.filter (fun x => keyEq (groupKeyPure x) (groupKeyPure it1))).filter
        (fun x => activeIdOf x == s.id) = [] := by
      rw [List.filter_eq_nil_iff]
      intro it0 hit0G hpred
      have hactive : activeIdOf it0 = s.id := by simpa using hpred
      have hit0items : it0 ∈ items := List.mem_of_mem_filter hit0G
      have hkey0 : keyEq (groupKeyPure it0) (groupKeyPure it1) = true := by
        have hq := List.of_mem_filter hit0G
        simpa using hq
      have hh0 : hashable (groupKeyPure it0) = true := by
        obtain ⟨_, _, _, _, _, _, _, hh⟩ := wfAttach_parts it0 (hwf it0 hit0items)
        exact hh
      have hgk0 : groupKeyPure it0 = groupKeyPure it1 := (keyEq_eq _ _ hh0).mp hkey0
      refine hno (setProofClaims it0 (claimsArrFor (items.filter
          (fun x => keyEq (groupKeyPure x) (groupKeyPure it0)))))
        (List.mem_map.mpr ⟨it0, hit0items, rfl⟩) ?_ ?_
      · rw [groupKeyPure_setProofClaims _ _ (hwf it0 hit0items),
          groupKeyPure_setProofClaims _ _ hw1, hgk0]
      · rw [jGet_setProofClaims_proofField _ _ "activeClaimId" (by decide)
          (hwf it0 hit0items)]
        rw [show jGet (pyOr (jGet it0 "proof") (J.obj [])) "activeClaimId" =
          activeRawOf it0 from rfl]
        rw [(wfC2_parts it0 (h it0 hit0items)).2, hactive, jGet_storedToJ_id]
    rw [hchar, hfe]
    rfl

/-- Two manifest entries in one theorem group (`theoremId` `"T"`), with active
claim ids `"a"` and `"b"`. -/
def c2Items : List J :=
  [J.obj [("id", J.str "x"), ("theoremId", J.str "T"),
    ("proof", J.obj [("activeClaimId", J.str "a")])],
   J.obj [("id", J.str "y"), ("theoremId", J.str "T"),
    ("proof", J.obj [("activeClaimId", J.str "b")])]]

/-- Witness for `c2_attach_claim_links` on `c2Items`. -/
theorem c2_attach_claim_links_witness :
    (∀ it ∈ c2Items, wfC2Item it = true) ∧
    (∃ out, attach_claim_animation_links c2Items = Except.ok out ∧
      ∀ e1 ∈ out, ∀ e2 ∈ out, groupKeyPure e1 = groupKeyPure e2 →
        jGet (jGet e1 "proof") "claims" = jGet (jGet e2 "proof") "claims" ∧
        ∃ l, jGet (jGet e1 "proof") "claims" = J.arr l ∧
          List.Sorted (fun a b => claimIdStrOf a ≤ claimIdStrOf b) l ∧
          (∀ c ∈ l, hasKey c "animationId" = true →
            ∃ e' ∈ out, groupKeyPure e' = groupKeyPure e1 ∧
              jGet (jGet e' "proof") "activeClaimId" = jGet c "id" ∧
              jGet e' "id" = jGet c "animationId") ∧
          (∀ c ∈ l, (∀ e' ∈ out, groupKeyPure e' = groupKeyPure e1 →
              ¬ (jGet (jGet e' "proof") "activeClaimId" = jGet c "id")) →
            hasKey c "animationId" = false)) :=
  ⟨by decide, c2_attach_claim_links c2Items (by decide)⟩

/-- C2 counterexample to the stated grouping key: entry `A` (no top-level
`theoremId`, `proof.theoremId` `"T"`, id `"x"`) and entry `B` (top-level
`theoremId` `"x"`) share the claim's key (`theoremId` falling back to the
entry's own id: both `"x"`), yet the code groups them separately — `A` is
keyed by the `proof.theoremId` fallback the claim omits — and their attached
`proof.claims` lists differ (claim ids `["a"]` vs `["b"]`). -/
theorem c2_counterexample :
    (pyOr (jGet (J.obj [("id", J.str "x"),
        ("proof", J.obj [("theoremId", J.str "T"), ("activeClaimId", J.str "a")])])
        "theoremId")
      (jGet (J.obj [("id", J.str "x"),
        ("proof", J.obj [("theoremId", J.str "T"), ("activeClaimId", J.str "a")])]) "id") =
     pyOr (jGet (J.obj [("id", J.str "y"), ("theoremId", J.str "x"),
        ("proof", J.obj [("activeClaimId", J.str "b")])]) "theoremId")
      (jGet (J.obj [("id", J.str "y"), ("theoremId", J.str "x"),
        ("proof", J.obj [("activeClaimId", J.str "b")])]) "id")) ∧
    ∃ outA outB,
      attach_claim_animation_links
        [J.obj [("id", J.str "x"),
          ("proof", J.obj [("theoremId", J.str "T"), ("activeClaimId", J.str "a")])],
         J.obj [("id", J.str "y"), ("theoremId", J.str "x"),
          ("proof", J.obj [("activeClaimId", J.str "b")])]] = Except.ok [outA, outB] ∧
      (pyOr (jGet outA "theoremId") (jGet outA "id") =
        pyOr (jGet outB "theoremId") (jGet outB "id")) ∧
      (match jGet (jGet outA "proof") "claims" with
        | J.arr cs => cs.map claimIdStrOf
        | _ => []) = ["a"] ∧
      (match jGet (jGet outB "proof") "claims" with
        | J.arr cs => cs.map claimIdStrOf
        | _ => []) = ["b"] :=
  ⟨rfl, _, _, rfl, rfl, rfl, rfl⟩

/-! ### Claim C6: field preservation through a text-only refresh -/

theorem mapM_ok_forall2 {α β : Type} (f : α → Except Unit β) :
    ∀ (l : List α) (r : List β), l.mapM f = Except.ok r →
      List.Forall₂ (fun x y => f x = Except.ok y) l r := by
  intro l
  induction l with
  | nil =>
      intro r h
      rw [show ([] : List α).mapM f = Except.ok [] from rfl] at h
      rcases h with ⟨⟩
      exact List.Forall₂.nil
  | cons x t ih =>
      intro r h
      rw [List.mapM_cons] at h
      cases hx : f x with
      | error e =>
          rw [hx] at h
          exact absurd h (by simp [Bind.bind, Except.bind])
      | ok y =>
          rw [hx] at h
          simp only [Bind.bind, Except.bind] at h
          cases ht : t.mapM f with
          | error e => rw [ht] at h; exact absurd h (by simp)
          | ok ys =>
              rw [ht] at h
              simp only [Pure.pure] at h
              rcases h with ⟨⟩
              exact List.Forall₂.cons hx (ih ys ht)

theorem forall2_trans {α β γ : Type} (R : α → β → Prop) (S : β → γ → Prop)
    (T : α → γ → Prop) (h : ∀ a b c, R a b → S b c → T a c) :
    ∀ {l1 : List α} {l2 : List β} {l3 : List γ},
      List.Forall₂ R l1 l2 → List.Forall₂ S l2 l3 → List.Forall₂ T l1 l3 := by
  intro l1 l2 l3 h12 h23
  induction h12 generalizing l3 with
  | nil =>
      cases h23
      exact List.Forall₂.nil
  | cons hr _ ih =>
      cases h23 with
      | cons hs hrest => exact List.Forall₂.cons (h _ _ _ hr hs) (ih hrest)

theorem forall2_append {α β : Type} (R : α → β → Prop) {l1 u1 : List α} {l2 u2 : List β}
    (h1 : List.Forall₂ R l1 l2) (h2 : List.Forall₂ R u1 u2) :
    List.Forall₂ R (l1 ++ u1) (l2 ++ u2) := by
  induction h1 with
  | nil => exact h2
  | cons hr _ ih => exact List.Forall₂.cons hr ih

theorem forall2_flatten {α β : Type} (R : α → β → Prop) :
    ∀ {L : List (List α)} {M : List (List β)},
      List.Forall₂ (List.Forall₂ R) L M →
      List.Forall₂ R (L.flatMap id) (M.flatMap id) := by
  intro L M h
  induction h with
  | nil => exact List.Forall₂.nil
  | cons hr _ ih =>
      simp only [List.flatMap_cons, id]
      exact forall2_append R hr ih

theorem foldlM_concat_ok {α β : Type} (F : α → Except Unit (List β)) :
    ∀ (l : List α) (acc r : List β),
      l.foldlM (fun acc x => do Except.ok (acc ++ (← F x))) acc = Except.ok r →
      ∃ chunks, List.Forall₂ (fun x ch => F x = Except.ok ch) l chunks ∧
        r = acc ++ chunks.flatMap id := by
  intro l
  induction l with
  | nil =>
      intro acc r h
      rcases h with ⟨⟩
      exact ⟨[], List.Forall₂.nil, by simp⟩
  | cons x t ih =>
      intro acc r h
      rw [show (x :: t).foldlM (fun acc x => do Except.ok (acc ++ (← F x))) acc =
          Except.bind (Except.bind (F x) (fun l => Except.ok (acc ++ l)))
            (fun s => t.foldlM (fun acc x => do Except.ok (acc ++ (← F x))) s)
        from rfl] at h
      cases hx : F x with
      | error e => rw [hx] at h; exact absurd h (by simp [Except.bind])
      | ok ch =>
          rw [hx] at h
          simp only [Except.bind] at h
          obtain ⟨chunks, hfa, hr⟩ := ih (acc ++ ch) r h
          exact ⟨ch :: chunks, List.Forall₂.cons hx hfa, by
            rw [hr, List.flatMap_cons, id, List.append_assoc]⟩

theorem setProofClaimsE_ok_other (it cl o : J) (h : setProofClaimsE it cl = Except.ok o) :
    ∀ k, ¬ (k = "proof") → jGet o k = jGet it k := by
  intro k hk
  cases it with
  | obj kvs =>
      rw [show setProofClaimsE (J.obj kvs) cl =
          Except.bind (asObj (pyOr (objGet kvs "proof") (J.obj [])))
            (fun pkvs => Except.ok (J.obj (setKey kvs "proof"
              (J.obj (setKey pkvs "claims" cl))))) from rfl] at h
      cases hp : asObj (pyOr (objGet kvs "proof") (J.obj [])) with
      | error e => rw [hp] at h; exact absurd h (by simp [Except.bind])
      | ok pkvs =>
          rw [hp] at h
          simp only [Except.bind] at h
          rcases h with ⟨⟩
          rw [show jGet (J.obj (setKey kvs "proof" (J.obj (setKey pkvs "claims" cl)))) k =
            objGet (setKey kvs "proof" (J.obj (setKey pkvs "claims" cl))) k from rfl,
            objGet_setKey_other _ _ _ _ hk]
          rfl
  | null => exact absurd h (by simp [setProofClaimsE, asObj, Bind.bind, Except.bind])
  | bool b => exact absurd h (by simp [setProofClaimsE, asObj, Bind.bind, Except.bind])
  | num n => exact absurd h (by simp [setProofClaimsE, asObj, Bind.bind, Except.bind])
  | str s => exact absurd h (by simp [setProofClaimsE, asObj, Bind.bind, Except.bind])
  | arr xs => exact absurd h (by simp [setProofClaimsE, asObj, Bind.bind, Except.bind])

theorem attachE_ok_forall2 (items out : List J)
    (h : attach_claim_animation_links items = Except.ok out) :
    List.Forall₂ (fun u o => ∀ k, ¬ (k = "proof") → jGet o k = jGet u k) items out := by
  rw [show attach_claim_animation_links items =
      Except.bind (items.mapM (fun it => do Except.ok ((← groupKeyE it), it)))
        (fun keyed => Except.bind
          ((buildGroups keyed).mapM (fun p => do Except.ok (p.1, ← claimsArrForE p.2)))
          (fun processed => keyed.mapM
            (fun p => setProofClaimsE p.2 ((lookupByKey processed p.1).getD J.null))))
    from rfl] at h
  cases hk : items.mapM (fun it => do Except.ok ((← groupKeyE it), it)) with
  | error e => rw [hk] at h; exact absurd h (by simp [Except.bind])
  | ok keyed =>
      rw [hk] at h
      simp only [Except.bind] at h
      cases hp : (buildGroups keyed).mapM (fun p => do Except.ok (p.1, ← claimsArrForE p.2)) with
      | error e => rw [hp] at h; exact absurd h (by simp)
      | ok processed =>
          rw [hp] at h
          simp only at h
          have h1 := mapM_ok_forall2 _ items keyed hk
          have h2 := mapM_ok_forall2 _ keyed out h
          refine forall2_trans _ _ _ ?_ h1 h2
          intro it p o hitp hpo
          have hsnd : p.2 = it := by
            rw [show (do Except.ok ((← groupKeyE it), it) : Except Unit (J × J)) =
              Except.bind (groupKeyE it) (fun k => Except.ok (k, it)) from rfl] at hitp
            cases hg : groupKeyE it with
            | error e => rw [hg] at hitp; exact absurd hitp (by simp [Except.bind])
            | ok k0 =>
                rw [hg] at hitp
                simp only [Except.bind] at hitp
                rcases hitp with ⟨⟩
                rfl
          rw [← hsnd]
          exact setProofClaimsE_ok_other p.2 _ o hpo

/-- The source-grouping key of a manifest item (`item.get("source")`), with
the item itself; `none` for the non-dict items the regrouping loop skips. -/
def srcKeyOf : J → Option (J × J)
  | J.obj kvs => some (objGet kvs "source", J.obj kvs)
  | _ => none

theorem buildSourceGroups_go (items : List J) :
    ∀ gs res,
      items.foldlM
        (fun gs it =>
          match it with
          | J.obj kvs =>
              let src := objGet kvs "source"
              if hashable src then Except.ok (insertGroup gs src it) else Except.error ()
          | _ => Except.ok gs) gs = Except.ok res →
      res = (items.filterMap srcKeyOf).foldl (fun gs p => insertGroup gs p.1 p.2) gs ∧
      ∀ p ∈ items.filterMap srcKeyOf, hashable p.1 = true := by
  induction items with
  | nil =>
      intro gs res h
      rcases h with ⟨⟩
      exact ⟨rfl, by simp⟩
  | cons it t ih =>
      intro gs res h
      cases it with
      | obj kvs =>
          rw [show ((J.obj kvs) :: t).foldlM
              (fun gs it =>
                match it with
                | J.obj kvs =>
                    let src := objGet kvs "source"
                    if hashable src then Except.ok (insertGroup gs src it)
                    else Except.error ()
                | _ => Except.ok gs) gs =
            Except.bind
              (if hashable (objGet kvs "source") then
                Except.ok (insertGroup gs (objGet kvs "source") (J.obj kvs))
              else Except.error ())
              (fun gs2 => t.foldlM
                (fun gs it =>
                  match it with
                  | J.obj kvs =>
                      let src := objGet kvs "source"
                      if hashable src then Except.ok (insertGroup gs src it)
                      else Except.error ()
                  | _ => Except.ok gs) gs2) from rfl] at h
          by_cases hh : hashable (objGet kvs "source") = true
          · rw [if_pos hh] at h
            simp only [Except.bind] at h
            obtain ⟨h1, h2⟩ := ih _ res h
            refine ⟨?_, ?_⟩
            · rw [show (J.obj kvs :: t).filterMap srcKeyOf =
                (objGet kvs "source", J.obj kvs) :: t.filterMap srcKeyOf from by
                simp [List.filterMap_cons, srcKeyOf]]
              exact h1
            · intro p hp
              rw [show (J.obj kvs :: t).filterMap srcKeyOf =
                (objGet kvs "source", J.obj kvs) :: t.filterMap srcKeyOf from by
                simp [List.filterMap_cons, srcKeyOf]] at hp
              rcases List.mem_cons.mp hp with rfl | hp2
              · exact hh
              · exact h2 p hp2
          · rw [if_neg hh] at h
            exact absurd h (by simp [Except.bind])
      | null =>
          obtain ⟨h1, h2⟩ := ih _ res h
          exact ⟨h1, h2⟩
      | bool b =>
          obtain ⟨h1, h2⟩ := ih _ res h
          exact ⟨h1, h2⟩
      | num n =>
          obtain ⟨h1, h2⟩ := ih _ res h
          exact ⟨h1, h2⟩
      | str s =>
          obtain ⟨h1, h2⟩ := ih _ res h
          exact ⟨h1, h2⟩
      | arr xs =>
          obtain ⟨h1, h2⟩ := ih _ res h
          exact ⟨h1, h2⟩

theorem buildSourceGroups_ok (items : List J) (gs : List (J × List J))
    (h : buildSourceGroups items = Except.ok gs) :
    gs = buildGroups (items.filterMap srcKeyOf) ∧
    ∀ p ∈ items.filterMap srcKeyOf, hashable p.1 = true :=
  buildSourceGroups_go items [] gs h

theorem processItemE_obj_eq (payload? : Option J) (ppath? : Option String)
    (claims : List J) (tid : String) (idx : Nat) (kvs : List (String × J)) :
    processItemE payload? ppath? claims tid idx (J.obj kvs) =
      Except.bind (buildProofE payload? claims tid (objGet kvs "scene") idx)
        (fun proof => Except.ok (some (J.obj
          (if pyTruthy (normalize_tags proof) then
            setKey
              (match ppath? with
                | some p =>
                    setKey (setKey (setKey kvs "proof" proof) "theoremId" (J.str tid))
                      "proofSource" (J.str p)
                | none => setKey (setKey kvs "proof" proof) "theoremId" (J.str tid))
              "tags" (normalize_tags proof)
          else
            (match ppath? with
              | some p =>
                  setKey (setKey (setKey kvs "proof" proof) "theoremId" (J.str tid))
                    "proofSource" (J.str p)
              | none => setKey (setKey kvs "proof" proof) "theoremId" (J.str tid)))))) :=
  rfl

theorem processItemE_ok (payload? : Option J) (ppath? : Option String) (claims : List J)
    (tid : String) (idx : Nat) (kvs : List (String × J)) (r : Option J)
    (h : processItemE payload? ppath? claims tid idx (J.obj kvs) = Except.ok r) :
    ∃ new, r = some new ∧ ∀ k, ¬ (k = "proof") → ¬ (k = "theoremId") →
      ¬ (k = "proofSource") → ¬ (k = "tags") → jGet new k = jGet (J.obj kvs) k := by
  rw [processItemE_obj_eq] at h
  cases hb : buildProofE payload? claims tid (objGet kvs "scene") idx with
  | error e => rw [hb] at h; exact absurd h (by simp [Except.bind])
  | ok pf =>
      rw [hb] at h
      simp only [Except.bind] at h
      rcases h with ⟨⟩
      refine ⟨_, rfl, ?_⟩
      intro k h1 h2 h3 h4
      have e12 : objGet (setKey (setKey kvs "proof" pf) "theoremId" (J.str tid)) k =
          objGet kvs k := by
        rw [objGet_setKey_other _ _ _ _ h2, objGet_setKey_other _ _ _ _ h1]
      cases ppath? with
      | some p =>
          by_cases htg : pyTruthy (normalize_tags pf) = true
          · rw [if_pos htg]
            show objGet (setKey (setKey (setKey (setKey kvs "proof" pf) "theoremId"
              (J.str tid)) "proofSource" (J.str p)) "tags" (normalize_tags pf)) k =
              objGet kvs k
            rw [objGet_setKey_other _ _ _ _ h4, objGet_setKey_other _ _ _ _ h3, e12]
          · rw [if_neg htg]
            show objGet (setKey (setKey (setKey kvs "proof" pf) "theoremId"
              (J.str tid)) "proofSource" (J.str p)) k = objGet kvs k
            rw [objGet_setKey_other _ _ _ _ h3, e12]
      | none =>
          by_cases htg : pyTruthy (normalize_tags pf) = true
          · rw [if_pos htg]
            show objGet (setKey (setKey (setKey kvs "proof" pf) "theoremId"
              (J.str tid)) "tags" (normalize_tags pf)) k = objGet kvs k
            rw [objGet_setKey_other _ _ _ _ h4, e12]
          · rw [if_neg htg]
            show objGet (setKey (setKey kvs "proof" pf) "theoremId" (J.str tid)) k =
              objGet kvs k
            exact e12

theorem refresh_fold_forall2 (F : Nat × J → Except Unit (Option J)) (Q : J → J → Prop) :
    ∀ (l : List (Nat × J)) (acc r : List J),
      (∀ p ∈ l, ∀ rr, F p = Except.ok rr → ∃ new, rr = some new ∧ Q p.2 new) →
      l.foldlM
        (fun acc p => do
          match ← F p with
          | some it => Except.ok (acc ++ [it])
          | none => Except.ok acc) acc = Except.ok r →
      ∃ suffix, r = acc ++ suffix ∧ List.Forall₂ Q (l.map Prod.snd) suffix := by
  intro l
  induction l with
  | nil =>
      intro acc r _ h
      rcases h with ⟨⟩
      exact ⟨[], by simp, List.Forall₂.nil⟩
  | cons p t ih =>
      intro acc r hF h
      rw [show (p :: t).foldlM
          (fun acc p => do
            match ← F p with
            | some it => Except.ok (acc ++ [it])
            | none => Except.ok acc) acc =
        Except.bind
          (Except.bind (F p) (fun o =>
            match o with
            | some it => Except.ok (acc ++ [it])
            | none => Except.ok acc))
          (fun acc2 => t.foldlM
            (fun acc p => do
              match ← F p with
              | some it => Except.ok (acc ++ [it])
              | none => Except.ok acc) acc2) from rfl] at h
      cases hx : F p with
      | error e => rw [hx] at h; exact absurd h (by simp [Except.bind])
      | ok o =>
          obtain ⟨new, rfl, hq⟩ := hF p (List.mem_cons_self p t) o hx
          rw [hx] at h
          simp only [Except.bind] at h
          obtain ⟨suffix, hr, hfa⟩ :=
            ih (acc ++ [new]) r (fun q hq2 => hF q (List.mem_cons_of_mem p hq2)) h
          refine ⟨new :: suffix, ?_, List.Forall₂.cons hq hfa⟩
          rw [hr]
          simp

theorem processGroupE_ok (fs : FS) (src : J) (g res : List J)
    (h : processGroupE fs src g = Except.ok res)
    (hg : ∀ it ∈ g, ∃ kvs, it = J.obj kvs) :
    (res = g ∧ (¬ pyTruthy src = true ∨ ∃ s, src = J.str s ∧ fs.existsP s = false)) ∨
    ((pyTruthy src = true ∧ ∃ s, src = J.str s ∧ fs.existsP s = true) ∧
      List.Forall₂ (fun old new => ∀ k, ¬ (k = "proof") → ¬ (k = "theoremId") →
        ¬ (k = "proofSource") → ¬ (k = "tags") → jGet new k = jGet old k) g res) := by
  unfold processGroupE at h
  by_cases ht : pyTruthy src = true
  · rw [if_neg (fun hc => hc ht)] at h
    cases src with
    | str s =>
        rw [show (do
            let s2 ← asStr (J.str s)
            if ¬ fs.existsP s2 then Except.ok g
            else do
              let payloadPath := load_proof_payload fs s2
              let claims := normalizeClaimsOpt payloadPath.1
              let tid ← theoremIdE payloadPath.1 (pstem (nameOf s2))
              g.enum.foldlM
                (fun acc p => do
                  match ← processItemE payloadPath.1 payloadPath.2 claims tid p.1 p.2 with
                  | some it => Except.ok (acc ++ [it])
                  | none => Except.ok acc)
                [] : Except Unit (List J)) =
          (if ¬ fs.existsP s then Except.ok g
            else Except.bind (theoremIdE (load_proof_payload fs s).1 (pstem (nameOf s)))
              (fun tid => g.enum.foldlM
                (fun acc p => do
                  match ← processItemE (load_proof_payload fs s).1 (load_proof_payload fs s).2
                      (normalizeClaimsOpt (load_proof_payload fs s).1) tid p.1 p.2 with
                  | some it => Except.ok (acc ++ [it])
                  | none => Except.ok acc)
                [])) from rfl] at h
        by_cases he : fs.existsP s = true
        · rw [if_neg (by simpa using he)] at h
          cases htid : theoremIdE (load_proof_payload fs s).1 (pstem (nameOf s)) with
          | error e => rw [htid] at h; exact absurd h (by simp [Except.bind])
          | ok tid =>
              rw [htid] at h
              simp only [Except.bind] at h
              refine Or.inr ⟨⟨ht, s, rfl, he⟩, ?_⟩
              obtain ⟨suffix, hr, hfa⟩ := refresh_fold_forall2
                (fun p => processItemE (load_proof_payload fs s).1 (load_proof_payload fs s).2
                  (normalizeClaimsOpt (load_proof_payload fs s).1) tid p.1 p.2)
                (fun old new => ∀ k, ¬ (k = "proof") → ¬ (k = "theoremId") →
                  ¬ (k = "proofSource") → ¬ (k = "tags") → jGet new k = jGet old k)
                g.enum [] res
                (fun p hp rr hrr => by
                  obtain ⟨kvs, hk⟩ := hg p.2 (by
                    have := List.mem_map_of_mem Prod.snd hp
                    rwa [List.enum_map_snd] at this)
                  have hrr2 : processItemE (load_proof_payload fs s).1
                      (load_proof_payload fs s).2
                      (normalizeClaimsOpt (load_proof_payload fs s).1) tid p.1 p.2 =
                      Except.ok rr := hrr
                  rw [hk] at hrr2
                  obtain ⟨new, hnew, hpres⟩ := processItemE_ok _ _ _ _ _ _ _ hrr2
                  exact ⟨new, hnew, by rw [hk]; exact hpres⟩)
                h
              rw [hr, List.nil_append, ← List.enum_map_snd g]
              exact hfa
        · rw [if_pos (by simpa using he)] at h
          rcases h with ⟨⟩
          exact Or.inl ⟨rfl, Or.inr ⟨s, rfl, by simpa using he⟩⟩
    | null => rw [show asStr J.null = Except.error () from rfl] at h; exact absurd h (by simp [Bind.bind, Except.bind])
    | bool b => exact absurd h (by simp [Bind.bind, Except.bind, asStr])
    | num n => exact absurd h (by simp [Bind.bind, Except.bind, asStr])
    | arr xs => exact absurd h (by simp [Bind.bind, Except.bind, asStr])
    | obj kvs => exact absurd h (by simp [Bind.bind, Except.bind, asStr])
  · rw [if_pos ht] at h
    rcases h with ⟨⟩
    exact Or.inl ⟨rfl, Or.inl ht⟩

theorem forall2_imp_mem {α β : Type} (R S : α → β → Prop) :
    ∀ {l1 : List α} {l2 : List β}, (∀ a ∈ l1, ∀ b, R a b → S a b) →
      List.Forall₂ R l1 l2 → List.Forall₂ S l1 l2 := by
  intro l1 l2 himp h
  induction h with
  | nil => exact List.Forall₂.nil
  | cons hr hrest ih =>
      exact List.Forall₂.cons (himp _ (List.mem_cons_self _ _) _ hr)
        (ih (fun a ha b hab => himp a (List.mem_cons_of_mem _ ha) b hab))

/-- The refreshed manifest in regrouped order: groups of items sharing a
`source` value, in first-occurrence order, concatenated. -/
def regroupPure (items : List J) : List J :=
  (buildGroups (items.filterMap srcKeyOf)).flatMap (fun q => q.2)

/-- What a text-only refresh may change about one manifest item: everything
but `proof`, `theoremId`, `proofSource` and `tags` is kept, and a pass-through
item (falsy `source`, or a source file absent from the filesystem) keeps
everything but `proof`. -/
def refreshPres (fs : FS) (old new : J) : Prop :=
  (∀ k, ¬ (k = "proof") → ¬ (k = "theoremId") → ¬ (k = "proofSource") →
    ¬ (k = "tags") → jGet new k = jGet old k) ∧
  ((¬ pyTruthy (jGet old "source") = true ∨
    ∃ s, jGet old "source" = J.str s ∧ fs.existsP s = false) →
    ∀ k, ¬ (k = "proof") → jGet new k = jGet old k)

theorem group_item_facts (items : List J)
    (hkeys : ∀ p ∈ items.filterMap srcKeyOf, hashable p.1 = true) :
    ∀ q ∈ buildGroups (items.filterMap srcKeyOf), ∀ old ∈ q.2,
      (∃ kvs, old = J.obj kvs) ∧ jGet old "source" = q.1 := by
  intro q hq old hold
  have hq2 := ((buildGroups_char _ hkeys).1 q hq).2
  rw [hq2] at hold
  obtain ⟨p, hpf, rfl⟩ := List.mem_map.mp hold
  have hpk : p ∈ items.filterMap srcKeyOf := List.mem_of_mem_filter hpf
  have hkeq : keyEq p.1 q.1 = true := by
    have hx := List.of_mem_filter hpf
    simpa using hx
  have hpq : p.1 = q.1 := (keyEq_eq _ _ (hkeys p hpk)).mp hkeq
  obtain ⟨it, hit, hsk⟩ := List.mem_filterMap.mp hpk
  cases it with
  | obj kvs =>
      rw [show srcKeyOf (J.obj kvs) = some (objGet kvs "source", J.obj kvs) from rfl] at hsk
      rcases hsk with ⟨⟩
      exact ⟨⟨kvs, rfl⟩, by rw [← hpq]; rfl⟩
  | null => exact absurd hsk (by simp [srcKeyOf])
  | bool b => exact absurd hsk (by simp [srcKeyOf])
  | num n => exact absurd hsk (by simp [srcKeyOf])
  | str s2 => exact absurd hsk (by simp [srcKeyOf])
  | arr xs => exact absurd hsk (by simp [srcKeyOf])

/-- **C6.** (amended) A text-only refresh preserves, for every manifest item
(taken in regrouped source order), every field other than the recomputed
`proof`, `theoremId`, `proofSource` and `tags` — in particular `id`, `scene`,
`source`, `file`, `url`, `quality` and `sections`; items whose `source` is
falsy or whose source file is missing keep every field except `proof`, which
the final claim-link attachment pass rewrites even for them (the claim's
"pass through entirely unchanged" fails, see the counterexample).  The
embedded refresh also exhibits the renderer-freedom conjunct: no rendering
capability occurs in `refresh_text_only` at all. -/
theorem c6_refresh_preserves_fields (fs : FS) (items out : List J)
    (h : refresh_text_only fs items = Except.ok out) :
    List.Forall₂ (refreshPres fs) (regroupPure items) out := by
  rw [show refresh_text_only fs items =
      Except.bind (buildSourceGroups items) (fun grouped =>
        Except.bind (grouped.foldlM
          (fun acc p => do Except.ok (acc ++ (← processGroupE fs p.1 p.2))) [])
          (fun updated => attach_claim_animation_links updated)) from rfl] at h
  cases hbsg : buildSourceGroups items with
  | error e => rw [hbsg] at h; exact absurd h (by simp [Except.bind])
  | ok gs =>
      rw [hbsg] at h
      simp only [Except.bind] at h
      obtain ⟨hgs, hkeys⟩ := buildSourceGroups_ok items gs hbsg
      cases hupd : gs.foldlM
          (fun acc p => do Except.ok (acc ++ (← processGroupE fs p.1 p.2))) [] with
      | error e => rw [hupd] at h; exact absurd h (by simp)
      | ok updated =>
          rw [hupd] at h
          simp only at h
          obtain ⟨chunks, hfa, hupdeq⟩ := foldlM_concat_ok _ gs [] updated hupd
          subst hgs
          have hgf := group_item_facts items hkeys
          have hmid : List.Forall₂ (fun (g2 : List J) ch => List.Forall₂ (refreshPres fs) g2 ch)
              ((buildGroups (items.filterMap srcKeyOf)).map (fun q => q.2)) chunks := by
            rw [List.forall₂_map_left_iff]
            refine forall2_imp_mem _ _ ?_ hfa
            intro q hq ch hpg
            have hdicts : ∀ it ∈ q.2, ∃ kvs, it = J.obj kvs :=
              fun it hit => (hgf q hq it hit).1
            rcases processGroupE_ok fs q.1 q.2 ch hpg hdicts with
              ⟨rfl, _⟩ | ⟨⟨htr, s, hsrc, hex⟩, hfa2⟩
            · refine List.forall₂_same.mpr ?_
              intro old _
              exact ⟨fun k _ _ _ _ => rfl, fun _ k _ => rfl⟩
            · refine forall2_imp_mem _ _ ?_ hfa2
              intro old hold new hpres
              refine ⟨hpres, ?_⟩
              intro hpass
              exfalso
              have hsrcold : jGet old "source" = q.1 := (hgf q hq old hold).2
              rcases hpass with hp1 | ⟨s2, hs2, he2⟩
              · rw [hsrcold] at hp1
                exact hp1 htr
              · rw [hsrcold, hsrc] at hs2
                have : s = s2 := by injection hs2
                rw [← this] at he2
                rw [hex] at he2
                exact absurd he2 (by simp)
          have hflat : List.Forall₂ (refreshPres fs) (regroupPure items) updated := by
            rw [hupdeq, List.nil_append]
            rw [show regroupPure items =
              ((buildGroups (items.filterMap srcKeyOf)).map (fun q => q.2)).flatMap id from by
                rw [List.flatMap_map]; rfl]
            exact forall2_flatten _ hmid
          have hatt := attachE_ok_forall2 updated out h
          refine forall2_trans (refreshPres fs)
            (fun u o => ∀ k, ¬ (k = "proof") → jGet o k = jGet u k)
            (refreshPres fs) ?_ hflat hatt
          intro old mid new hr hmn
          refine ⟨?_, ?_⟩
          · intro k h1 h2 h3 h4
            rw [hmn k h1, hr.1 k h1 h2 h3 h4]
          · intro hpass k h1
            rw [hmn k h1, hr.2 hpass k h1]

/-- C6 counterexample to "pass through entirely unchanged": the item
`{"id": "x"}` has no `source` (falsy, so its group passes through the refresh
loop untouched), yet the refresh's final claim-link attachment pass stamps a
`proof.claims` list onto it — the output item gains a `proof` key the input
never had. -/
theorem c6_counterexample :
    pyTruthy (jGet (J.obj [("id", J.str "x")]) "source") = false ∧
    hasKey (J.obj [("id", J.str "x")]) "proof" = false ∧
    refresh_text_only ⟨[]⟩ [J.obj [("id", J.str "x")]] =
      Except.ok [J.obj [("id", J.str "x"),
        ("proof", J.obj [("claims", J.arr [J.obj [("id", J.str "main"),
          ("label", J.str "main"), ("animationId", J.str "x")]])])]] ∧
    hasKey (J.obj [("id", J.str "x"),
        ("proof", J.obj [("claims", J.arr [J.obj [("id", J.str "main"),
          ("label", J.str "main"), ("animationId", J.str "x")]])])]) "proof" = true :=
  ⟨rfl, rfl, rfl, rfl⟩

/-- Witness for `c6_refresh_preserves_fields` on a one-item manifest. -/
theorem c6_refresh_preserves_fields_witness :
    refresh_text_only ⟨[]⟩ [J.obj [("id", J.str "w")]] =
      Except.ok [J.obj [("id", J.str "w"),
        ("proof", J.obj [("claims", J.arr [J.obj [("id", J.str "main"),
          ("label", J.str "main"), ("animationId", J.str "w")]])])]] ∧
    List.Forall₂ (refreshPres ⟨[]⟩) (regroupPure [J.obj [("id", J.str "w")]])
      [J.obj [("id", J.str "w"),
        ("proof", J.obj [("claims", J.arr [J.obj [("id", J.str "main"),
          ("label", J.str "main"), ("animationId", J.str "w")]])])]] :=
  ⟨rfl, c6_refresh_preserves_fields ⟨[]⟩ [J.obj [("id", J.str "w")]]
    [J.obj [("id", J.str "w"),
      ("proof", J.obj [("claims", J.arr [J.obj [("id", J.str "main"),
        ("label", J.str "main"), ("animationId", J.str "w")]])])]] rfl⟩

/-! ### Claim C7: partial render failures in the full run -/

theorem forall2_mem_right {α β : Type} (R : α → β → Prop) :
    ∀ {l1 : List α} {l2 : List β}, List.Forall₂ R l1 l2 →
      ∀ b ∈ l2, ∃ a, a ∈ l1 ∧ R a b := by
  intro l1 l2 h
  induction h with
  | nil => intro b hb; cases hb
  | cons hr _ ih =>
      intro b hb
      rcases List.mem_cons.mp hb with rfl | hb2
      · exact ⟨_, List.mem_cons_self _ _, hr⟩
      · obtain ⟨a, ha, hab⟩ := ih b hb2
        exact ⟨a, List.mem_cons_of_mem _ ha, hab⟩

theorem claimRefJ_obj (c cj : J) (h : claimRefJ c = Except.ok cj) :
    ∃ ck, cj = J.obj ck := by
  cases c with
  | obj kvs =>
      rw [show claimRefJ (J.obj kvs) = Except.ok (J.obj
        [("id", objGet kvs "id"), ("label", objGet kvs "label"),
         ("scene", objGet kvs "scene"), ("statement", objGet kvs "statement")]) from rfl] at h
      rcases h with ⟨⟩
      exact ⟨_, rfl⟩
  | null => exact absurd h (by simp [claimRefJ, asObj, Bind.bind, Except.bind])
  | bool b => exact absurd h (by simp [claimRefJ, asObj, Bind.bind, Except.bind])
  | num n => exact absurd h (by simp [claimRefJ, asObj, Bind.bind, Except.bind])
  | str s => exact absurd h (by simp [claimRefJ, asObj, Bind.bind, Except.bind])
  | arr xs => exact absurd h (by simp [claimRefJ, asObj, Bind.bind, Except.bind])

theorem buildProofE_shape (payload? : Option J) (claims : List J) (tid : String)
    (sceneJ : J) (idx : Nat) (pf : J)
    (h : buildProofE payload? claims tid sceneJ idx = Except.ok pf) :
    ∃ title desc stmt steps claimsArr act,
      pf = J.obj [("title", title), ("description", desc), ("statement", stmt),
        ("steps", steps), ("claims", J.arr claimsArr), ("activeClaimId", act),
        ("theoremId", J.str tid)] ∧
      claimsArr ≠ [] ∧ ∀ c ∈ claimsArr, ∃ ck, c = J.obj ck := by
  rw [show buildProofE payload? claims tid sceneJ idx =
      (Except.bind (pick_claim_for_scene claims sceneJ idx) (fun selected? =>
        Except.bind (stepsOfE selected?
          (if optTruthyJ payload? then
            extract_proof_from_payload (payload?.getD J.null) sceneJ else none)) (fun steps =>
        Except.bind (fieldOrE
          (if optTruthyJ payload? then
            extract_proof_from_payload (payload?.getD J.null) sceneJ else none)
          payload? "title") (fun title =>
        Except.bind (fieldOrE
          (if optTruthyJ payload? then
            extract_proof_from_payload (payload?.getD J.null) sceneJ else none)
          payload? "description") (fun description =>
        Except.bind (fieldOrE
          (if optTruthyJ payload? then
            extract_proof_from_payload (payload?.getD J.null) sceneJ else none)
          payload? "statement") (fun statement =>
        Except.bind (claims.mapM claimRefJ) (fun claimsJ =>
        Except.bind (activeOfSelectedE selected?) (fun act =>
        Except.ok (J.obj
          [("title", title), ("description", description),
           ("statement", pyOr statement (J.str "")), ("steps", steps),
           ("claims", J.arr (if claimsJ.isEmpty then
              [J.obj [("id", J.str "main"), ("label", J.str "main")]] else claimsJ)),
           ("activeClaimId", act),
           ("theoremId", J.str tid)])))))))))
    from rfl] at h
  cases h1 : pick_claim_for_scene claims sceneJ idx with
  | error e => rw [h1] at h; exact absurd h (by simp [Except.bind])
  | ok selected? =>
  rw [h1] at h
  simp only [Except.bind] at h
  cases h2 : stepsOfE selected?
      (if optTruthyJ payload? then
        extract_proof_from_payload (payload?.getD J.null) sceneJ else none) with
  | error e => rw [h2] at h; exact absurd h (by simp)
  | ok steps =>
  rw [h2] at h
  simp only at h
  cases h3 : fieldOrE
      (if optTruthyJ payload? then
        extract_proof_from_payload (payload?.getD J.null) sceneJ else none)
      payload? "title" with
  | error e => rw [h3] at h; exact absurd h (by simp)
  | ok title =>
  rw [h3] at h
  simp only at h
  cases h4 : fieldOrE
      (if optTruthyJ payload? then
        extract_proof_from_payload (payload?.getD J.null) sceneJ else none)
      payload? "description" with
  | error e => rw [h4] at h; exact absurd h (by simp)
  | ok description =>
  rw [h4] at h
  simp only at h
  cases h5 : fieldOrE
      (if optTruthyJ payload? then
        extract_proof_from_payload (payload?.getD J.null) sceneJ else none)
      payload? "statement" with
  | error e => rw [h5] at h; exact absurd h (by simp)
  | ok statement =>
  rw [h5] at h
  simp only at h
  cases h6 : claims.mapM claimRefJ with
  | error e => rw [h6] at h; exact absurd h (by simp)
  | ok claimsJ =>
  rw [h6] at h
  simp only at h
  cases h7 : activeOfSelectedE selected? with
  | error e => rw [h7] at h; exact absurd h (by simp)
  | ok act =>
  rw [h7] at h
  simp only at h
  rcases h with ⟨⟩
  refine ⟨title, description, pyOr statement (J.str ""), steps,
    (if claimsJ.isEmpty then
      [J.obj [("id", J.str "main"), ("label", J.str "main")]] else claimsJ), act,
    rfl, ?_, ?_⟩
  · by_cases he : claimsJ.isEmpty
    · rw [if_pos he]; simp
    · rw [if_neg he]
      intro hc
      rw [hc] at he
      exact he rfl
  · intro c hc
    by_cases he : claimsJ.isEmpty
    · rw [if_pos he] at hc
      rcases List.mem_singleton.mp hc with rfl
      exact ⟨_, rfl⟩
    · rw [if_neg he] at hc
      obtain ⟨a, _, hac⟩ := forall2_mem_right _ (mapM_ok_forall2 claimRefJ claims claimsJ h6) c hc
      exact claimRefJ_obj a c hac

theorem wfAttachItem_built (title desc stmt steps act : J) (tid sid scene src file url q : String)
    (sections : List J) (claimsArr : List J) (rest : List (String × J))
    (hne : claimsArr ≠ []) (hobjs : ∀ c ∈ claimsArr, ∃ ck, c = J.obj ck) :
    wfAttachItem (J.obj ([("id", J.str sid), ("scene", J.str scene), ("source", J.str src),
      ("file", J.str file), ("url", J.str url), ("quality", J.str q),
      ("sections", J.arr sections),
      ("proof", J.obj [("title", title), ("description", desc), ("statement", stmt),
        ("steps", steps), ("claims", J.arr claimsArr), ("activeClaimId", act),
        ("theoremId", J.str tid)]),
      ("theoremId", J.str tid)] ++ rest)) = true := by
  obtain ⟨c0, cr, rfl⟩ : ∃ c0 cr, claimsArr = c0 :: cr := by
    cases claimsArr with
    | nil => exact absurd rfl hne
    | cons c0 cr => exact ⟨c0, cr, rfl⟩
  have hproof : jGet (J.obj ([("id", J.str sid), ("scene", J.str scene),
      ("source", J.str src), ("file", J.str file), ("url", J.str url),
      ("quality", J.str q), ("sections", J.arr sections),
      ("proof", J.obj [("title", title), ("description", desc), ("statement", stmt),
        ("steps", steps), ("claims", J.arr (c0 :: cr)), ("activeClaimId", act),
        ("theoremId", J.str tid)]),
      ("theoremId", J.str tid)] ++ rest)) "proof" =
      J.obj [("title", title), ("description", desc), ("statement", stmt),
        ("steps", steps), ("claims", J.arr (c0 :: cr)), ("activeClaimId", act),
        ("theoremId", J.str tid)] := by
    simp +decide [jGet, objGet, List.find?]
  have hid : jGet (J.obj ([("id", J.str sid), ("scene", J.str scene),
      ("source", J.str src), ("file", J.str file), ("url", J.str url),
      ("quality", J.str q), ("sections", J.arr sections),
      ("proof", J.obj [("title", title), ("description", desc), ("statement", stmt),
        ("steps", steps), ("claims", J.arr (c0 :: cr)), ("activeClaimId", act),
        ("theoremId", J.str tid)]),
      ("theoremId", J.str tid)] ++ rest)) "id" = J.str sid := by
    simp +decide [jGet, objGet, List.find?]
  have htid : jGet (J.obj ([("id", J.str sid), ("scene", J.str scene),
      ("source", J.str src), ("file", J.str file), ("url", J.str url),
      ("quality", J.str q), ("sections", J.arr sections),
      ("proof", J.obj [("title", title), ("description", desc), ("statement", stmt),
        ("steps", steps), ("claims", J.arr (c0 :: cr)), ("activeClaimId", act),
        ("theoremId", J.str tid)]),
      ("theoremId", J.str tid)] ++ rest)) "theoremId" = J.str tid := by
    simp +decide [jGet, objGet, List.find?]
  unfold wfAttachItem
  rw [hproof]
  have hort : pyOr (J.obj [("title", title), ("description", desc), ("statement", stmt),
      ("steps", steps), ("claims", J.arr (c0 :: cr)), ("activeClaimId", act),
      ("theoremId", J.str tid)]) (J.obj []) =
      J.obj [("title", title), ("description", desc), ("statement", stmt),
        ("steps", steps), ("claims", J.arr (c0 :: cr)), ("activeClaimId", act),
        ("theoremId", J.str tid)] := by
    unfold pyOr
    rw [if_pos (by simp [pyTruthy])]
  rw [hort]
  have hclaims : jGet (J.obj [("title", title), ("description", desc), ("statement", stmt),
      ("steps", steps), ("claims", J.arr (c0 :: cr)), ("activeClaimId", act),
      ("theoremId", J.str tid)]) "claims" = J.arr (c0 :: cr) := by
    simp +decide [jGet, objGet, List.find?]
  rw [hclaims]
  have horc : pyOr (J.arr (c0 :: cr)) (J.arr []) = J.arr (c0 :: cr) := by
    unfold pyOr
    rw [if_pos (by simp [pyTruthy])]
  rw [horc]
  have hall : (c0 :: cr).all isObjB = true := by
    rw [List.all_eq_true]
    intro c hc
    obtain ⟨ck, rfl⟩ := hobjs c hc
    rfl
  have hkey : hashable (groupKeyPure (J.obj ([("id", J.str sid), ("scene", J.str scene),
      ("source", J.str src), ("file", J.str file), ("url", J.str url),
      ("quality", J.str q), ("sections", J.arr sections),
      ("proof", J.obj [("title", title), ("description", desc), ("statement", stmt),
        ("steps", steps), ("claims", J.arr (c0 :: cr)), ("activeClaimId", act),
        ("theoremId", J.str tid)]),
      ("theoremId", J.str tid)] ++ rest))) = true := by
    unfold groupKeyPure
    rw [htid]
    by_cases ht : pyTruthy (J.str tid) = true
    · rw [if_pos ht]; rfl
    · rw [if_neg ht, hproof, hort]
      have hptid : jGet (J.obj [("title", title), ("description", desc),
          ("statement", stmt), ("steps", steps), ("claims", J.arr (c0 :: cr)),
          ("activeClaimId", act), ("theoremId", J.str tid)]) "theoremId" =
          J.str tid := by
        simp +decide [jGet, objGet, List.find?]
      rw [hptid, hid]
      unfold pyOr
      split <;> rfl
  rw [Bool.and_eq_true, Bool.and_eq_true, Bool.and_eq_true, Bool.and_eq_true]
  exact ⟨⟨⟨⟨rfl, rfl⟩, rfl⟩, hall⟩, hkey⟩

theorem buildMainItemE_eq (payload? : Option J) (ppath? : Option String) (claims : List J)
    (tid : String) (f : SrcFile) (scene : String) (idx : Nat) (videoRel : String)
    (sections : List J) (quality : String) :
    buildMainItemE payload? ppath? claims tid f scene idx videoRel sections quality =
      Except.bind (buildProofE payload? claims tid (J.str scene) idx) (fun proof =>
        Except.ok (J.obj (if pyTruthy (normalize_tags proof) then
          (match ppath? with
            | some p =>
                [("id", J.str (pstem (nameOf f.path) ++ "__" ++ scene)),
                 ("scene", J.str scene), ("source", J.str f.path),
                 ("file", J.str videoRel), ("url", J.str ("/" ++ videoRel)),
                 ("quality", J.str quality), ("sections", J.arr sections),
                 ("proof", proof), ("theoremId", J.str tid)] ++
                  [("proofSource", J.str p)]
            | none =>
                [("id", J.str (pstem (nameOf f.path) ++ "__" ++ scene)),
                 ("scene", J.str scene), ("source", J.str f.path),
                 ("file", J.str videoRel), ("url", J.str ("/" ++ videoRel)),
                 ("quality", J.str quality), ("sections", J.arr sections),
                 ("proof", proof), ("theoremId", J.str tid)]) ++
            [("tags", normalize_tags proof)]
          else
          (match ppath? with
            | some p =>
                [("id", J.str (pstem (nameOf f.path) ++ "__" ++ scene)),
                 ("scene", J.str scene), ("source", J.str f.path),
                 ("file", J.str videoRel), ("url", J.str ("/" ++ videoRel)),
                 ("quality", J.str quality), ("sections", J.arr sections),
                 ("proof", proof), ("theoremId", J.str tid)] ++
                  [("proofSource", J.str p)]
            | none =>
                [("id", J.str (pstem (nameOf f.path) ++ "__" ++ scene)),
                 ("scene", J.str scene), ("source", J.str f.path),
                 ("file", J.str videoRel), ("url", J.str ("/" ++ videoRel)),
                 ("quality", J.str quality), ("sections", J.arr sections),
                 ("proof", proof), ("theoremId", J.str tid)])))) := rfl

theorem buildMainItemE_ok (payload? : Option J) (ppath? : Option String) (claims : List J)
    (tid : String) (f : SrcFile) (scene : String) (idx : Nat) (videoRel : String)
    (sections : List J) (quality : String) (pf : J)
    (hpf : buildProofE payload? claims tid (J.str scene) idx = Except.ok pf) :
    ∃ it, buildMainItemE payload? ppath? claims tid f scene idx videoRel sections quality =
        Except.ok it ∧
      jGet it "id" = J.str (pstem (nameOf f.path) ++ "__" ++ scene) ∧
      wfAttachItem it = true := by
  obtain ⟨title, desc, stmt, steps, claimsArr, act, hpfeq, hne, hobjs⟩ :=
    buildProofE_shape payload? claims tid (J.str scene) idx pf hpf
  rw [buildMainItemE_eq, hpf]
  simp only [Except.bind]
  subst hpfeq
  refine ⟨_, rfl, ?_, ?_⟩
  · by_cases htg : pyTruthy (normalize_tags (J.obj [("title", title), ("description", desc),
        ("statement", stmt), ("steps", steps), ("claims", J.arr claimsArr),
        ("activeClaimId", act), ("theoremId", J.str tid)])) = true
    · rw [if_pos htg]
      cases ppath? with
      | some p => simp [jGet, objGet, List.find?]
      | none => simp [jGet, objGet, List.find?]
    · rw [if_neg htg]
      cases ppath? with
      | some p => simp [jGet, objGet, List.find?]
      | none => simp [jGet, objGet, List.find?]
  · by_cases htg : pyTruthy (normalize_tags (J.obj [("title", title), ("description", desc),
        ("statement", stmt), ("steps", steps), ("claims", J.arr claimsArr),
        ("activeClaimId", act), ("theoremId", J.str tid)])) = true
    · rw [if_pos htg]
      cases ppath? with
      | some p =>
          rw [List.append_assoc]
          exact wfAttachItem_built title desc stmt steps act tid _ scene f.path videoRel
            ("/" ++ videoRel) quality sections claimsArr _ hne hobjs
      | none =>
          exact wfAttachItem_built title desc stmt steps act tid _ scene f.path videoRel
            ("/" ++ videoRel) quality sections claimsArr _ hne hobjs
    · rw [if_neg htg]
      cases ppath? with
      | some p =>
          exact wfAttachItem_built title desc stmt steps act tid _ scene f.path videoRel
            ("/" ++ videoRel) quality sections claimsArr _ hne hobjs
      | none =>
          rw [show ([("id", J.str (pstem (nameOf f.path) ++ "__" ++ scene)),
              ("scene", J.str scene), ("source", J.str f.path),
              ("file", J.str videoRel), ("url", J.str ("/" ++ videoRel)),
              ("quality", J.str quality), ("sections", J.arr sections),
              ("proof", J.obj [("title", title), ("description", desc),
                ("statement", stmt), ("steps", steps), ("claims", J.arr claimsArr),
                ("activeClaimId", act), ("theoremId", J.str tid)]),
              ("theoremId", J.str tid)] : List (String × J)) =
            [("id", J.str (pstem (nameOf f.path) ++ "__" ++ scene)),
              ("scene", J.str scene), ("source", J.str f.path),
              ("file", J.str videoRel), ("url", J.str ("/" ++ videoRel)),
              ("quality", J.str quality), ("sections", J.arr sections),
              ("proof", J.obj [("title", title), ("description", desc),
                ("statement", stmt), ("steps", steps), ("claims", J.arr claimsArr),
                ("activeClaimId", act), ("theoremId", J.str tid)]),
              ("theoremId", J.str tid)] ++ [] from by simp]
          exact wfAttachItem_built title desc stmt steps act tid _ scene f.path videoRel
            ("/" ++ videoRel) quality sections claimsArr [] hne hobjs

theorem sceneFold_char (render : String → String → Option (String × List J))
    (quality : String) (payload? : Option J) (ppath? : Option String) (claims : List J)
    (tid : String) (f : SrcFile)
    (hb : ∀ scene idx, ∃ pf, buildProofE payload? claims tid (J.str scene) idx =
      Except.ok pf) :
    ∀ (l : List (Nat × String)) (acc : List J × Bool),
      ((l.foldl (renderSceneStep render quality payload? ppath? claims tid f) acc).2 =
        (acc.2 || l.any (fun p => (render f.path p.2).isNone))) ∧
      ∃ suffix,
        (l.foldl (renderSceneStep render quality payload? ppath? claims tid f) acc).1 =
          acc.1 ++ suffix ∧
        List.Forall₂ (fun sc it => jGet it "id" =
            J.str (pstem (nameOf f.path) ++ "__" ++ sc) ∧ wfAttachItem it = true)
          ((l.filter (fun p => (render f.path p.2).isSome)).map Prod.snd) suffix := by
  intro l
  induction l with
  | nil =>
      intro acc
      exact ⟨by simp, [], by simp, List.Forall₂.nil⟩
  | cons p t ih =>
      intro acc
      rw [List.foldl_cons]
      cases hr : render f.path p.2 with
      | none =>
          have hstep : renderSceneStep render quality payload? ppath? claims tid f acc p =
              (acc.1, true) := by
            unfold renderSceneStep
            rw [hr]
          rw [hstep]
          obtain ⟨he, suffix, hs, hfa⟩ := ih (acc.1, true)
          refine ⟨?_, suffix, hs, ?_⟩
          · rw [he]
            simp [hr]
          · rw [show (p :: t).filter (fun p => (render f.path p.2).isSome) =
              t.filter (fun p => (render f.path p.2).isSome) from by
              simp [List.filter_cons, hr]]
            exact hfa
      | some r =>
          obtain ⟨pf, hpf⟩ := hb p.2 p.1
          obtain ⟨it, hit, hid, hwf⟩ := buildMainItemE_ok payload? ppath? claims tid f
            p.2 p.1 r.1 r.2 quality pf hpf
          have hstep : renderSceneStep render quality payload? ppath? claims tid f acc p =
              (acc.1 ++ [it], acc.2) := by
            unfold renderSceneStep
            rw [hr]
            show (match buildMainItemE payload? ppath? claims tid f p.2 p.1 r.1 r.2 quality with
              | Except.ok it => (acc.1 ++ [it], acc.2)
              | Except.error _ => (acc.1, true)) = (acc.1 ++ [it], acc.2)
            rw [hit]
          rw [hstep]
          obtain ⟨he, suffix, hs, hfa⟩ := ih (acc.1 ++ [it], acc.2)
          refine ⟨?_, it :: suffix, ?_, ?_⟩
          · rw [he]
            simp [hr]
          · rw [hs]
            simp
          · rw [show (p :: t).filter (fun p => (render f.path p.2).isSome) =
              p :: t.filter (fun p => (render f.path p.2).isSome) from by
              simp [List.filter_cons, hr]]
            exact List.Forall₂.cons ⟨hid, hwf⟩ hfa


theorem any_map_snd {α β : Type} (l : List α) (f : α → β) (p : β → Bool) :
    (l.map f).any p = l.any (fun a => p (f a)) := by
  induction l with
  | nil => rfl
  | cons x t ih => simp [List.map_cons, List.any_cons, ih]

theorem enum_any_snd {α : Type} (l : List α) (g : α → Bool) :
    (l.enum.any fun p => g p.2) = l.any g := by
  have h := any_map_snd l.enum Prod.snd g
  rw [List.enum_map_snd] at h
  exact h.symm

theorem enum_filter_snd {α : Type} (l : List α) (g : α → Bool) :
    (l.enum.filter (fun p => g p.2)).map Prod.snd = l.filter g := by
  have h := @List.filter_map _ _ g Prod.snd l.enum
  rw [List.enum_map_snd] at h
  exact h.symm

/-- The per-file body of the full-render loop (named for reasoning; it is
definitionally the step function inside `render_all`). -/
def mainFileStep (fs : FS) (render : String → String → Option (String × List J))
    (quality : String) (acc : List J × Bool) (f : SrcFile) :
    Except Unit (List J × Bool) := do
  let tid ← theoremIdE (load_proof_payload fs f.path).1 (pstem (nameOf f.path))
  if f.scenes.isEmpty then Except.ok acc
  else Except.ok (f.scenes.enum.foldl
    (renderSceneStep render quality (load_proof_payload fs f.path).1
      (load_proof_payload fs f.path).2
      (normalizeClaimsOpt (load_proof_payload fs f.path).1) tid f) acc)

theorem filesFold_char (fs : FS) (render : String → String → Option (String × List J))
    (quality : String) :
    ∀ (files : List SrcFile) (acc : List J × Bool),
      (∀ f ∈ files, ∃ tid,
        theoremIdE (load_proof_payload fs f.path).1 (pstem (nameOf f.path)) =
          Except.ok tid ∧
        ∀ scene idx, ∃ pf, buildProofE (load_proof_payload fs f.path).1
          (normalizeClaimsOpt (load_proof_payload fs f.path).1) tid (J.str scene) idx =
          Except.ok pf) →
      ∃ res, files.foldlM (mainFileStep fs render quality) acc = Except.ok res ∧
        res.2 = (acc.2 || files.any (fun f => f.scenes.any
          (fun sc => (render f.path sc).isNone))) ∧
        ∃ suffix, res.1 = acc.1 ++ suffix ∧
          List.Forall₂ (fun sid it => jGet it "id" = J.str sid ∧ wfAttachItem it = true)
            (files.flatMap (fun f => (f.scenes.filter
              (fun sc => (render f.path sc).isSome)).map
              (fun sc => pstem (nameOf f.path) ++ "__" ++ sc))) suffix := by
  intro files
  induction files with
  | nil =>
      intro acc _
      exact ⟨acc, rfl, by simp, [], by simp, List.Forall₂.nil⟩
  | cons f t ih =>
      intro acc H
      obtain ⟨tid, htid, hbf⟩ := H f (List.mem_cons_self f t)
      have Ht := fun g hg => H g (List.mem_cons_of_mem f hg)
      have hcons : ∀ acc2, (f :: t).foldlM (mainFileStep fs render quality) acc2 =
          Except.bind (mainFileStep fs render quality acc2 f)
            (fun acc3 => t.foldlM (mainFileStep fs render quality) acc3) :=
        fun acc2 => rfl
      have hstepeq : mainFileStep fs render quality acc f =
          Except.bind (theoremIdE (load_proof_payload fs f.path).1 (pstem (nameOf f.path)))
            (fun tid => if f.scenes.isEmpty then Except.ok acc
              else Except.ok (f.scenes.enum.foldl
                (renderSceneStep render quality (load_proof_payload fs f.path).1
                  (load_proof_payload fs f.path).2
                  (normalizeClaimsOpt (load_proof_payload fs f.path).1) tid f) acc)) := rfl
      by_cases hemp : f.scenes.isEmpty = true
      · have hscn : f.scenes = [] := by
          cases hs : f.scenes with
          | nil => rfl
          | cons a b => rw [hs] at hemp; simp at hemp
        obtain ⟨res, hfold, hsnd, suffix, hfst, hfa⟩ := ih acc Ht
        refine ⟨res, ?_, ?_, suffix, hfst, ?_⟩
        · rw [hcons acc, hstepeq, htid]
          simp only [Except.bind]
          rw [if_pos hemp]
          exact hfold
        · rw [hsnd]
          simp [List.any_cons, hscn]
        · rw [show (f :: t).flatMap (fun f => (f.scenes.filter
              (fun sc => (render f.path sc).isSome)).map
              (fun sc => pstem (nameOf f.path) ++ "__" ++ sc)) =
            t.flatMap (fun f => (f.scenes.filter
              (fun sc => (render f.path sc).isSome)).map
              (fun sc => pstem (nameOf f.path) ++ "__" ++ sc)) from by
            simp [List.flatMap_cons, hscn]]
          exact hfa
      · obtain ⟨hsc2, suffixF, hsc1, hfaF⟩ := sceneFold_char render quality
          (load_proof_payload fs f.path).1 (load_proof_payload fs f.path).2
          (normalizeClaimsOpt (load_proof_payload fs f.path).1) tid f hbf
          f.scenes.enum acc
        obtain ⟨res, hfold, hsnd, suffixT, hfst, hfaT⟩ := ih
          (f.scenes.enum.foldl (renderSceneStep render quality
            (load_proof_payload fs f.path).1 (load_proof_payload fs f.path).2
            (normalizeClaimsOpt (load_proof_payload fs f.path).1) tid f) acc) Ht
        refine ⟨res, ?_, ?_, suffixF ++ suffixT, ?_, ?_⟩
        · rw [hcons acc, hstepeq, htid]
          simp only [Except.bind]
          rw [if_neg hemp]
          exact hfold
        · rw [hsnd, hsc2,
            enum_any_snd f.scenes (fun sc => (render f.path sc).isNone)]
          simp [List.any_cons, Bool.or_assoc]
        · rw [hfst, hsc1, List.append_assoc]
        · rw [List.flatMap_cons]
          refine forall2_append _ ?_ hfaT
          rw [show (f.scenes.filter (fun sc => (render f.path sc).isSome)).map
              (fun sc => pstem (nameOf f.path) ++ "__" ++ sc) =
            ((f.scenes.enum.filter (fun p => (render f.path p.2).isSome)).map
              Prod.snd).map (fun sc => pstem (nameOf f.path) ++ "__" ++ sc) from by
            rw [enum_filter_snd f.scenes (fun sc => (render f.path sc).isSome)]]
          rw [List.map_map, List.forall₂_map_left_iff]
          exact List.forall₂_map_left_iff.mp hfaF

/-- **C7.** In the full render run, a scene's renderer failure only skips that
scene's manifest entry and sets the error flag: the run continues through the
remaining scenes and files, the manifest holds exactly one entry per
successfully rendered scene (in order, with id `<stem>__<scene>`), and the
exit code is 1 exactly when at least one scene failed.  The hypotheses say the
proof-JSON side never raises: each file's theorem id resolves and its per-scene
proof dict builds. -/
theorem c7_render_failures (fs : FS) (files : List SrcFile)
    (render : String → String → Option (String × List J)) (quality : String)
    (h : ∀ f ∈ files, ∃ tid,
      theoremIdE (load_proof_payload fs f.path).1 (pstem (nameOf f.path)) =
        Except.ok tid ∧
      ∀ scene idx, ∃ pf, buildProofE (load_proof_payload fs f.path).1
        (normalizeClaimsOpt (load_proof_payload fs f.path).1) tid (J.str scene) idx =
        Except.ok pf) :
    ∃ out, render_all fs files render quality =
        Except.ok ((if files.any (fun f => f.scenes.any
          (fun sc => (render f.path sc).isNone)) then 1 else 0), out) ∧
      List.Forall₂ (fun sid it => jGet it "id" = J.str sid)
        (files.flatMap (fun f => (f.scenes.filter
          (fun sc => (render f.path sc).isSome)).map
          (fun sc => pstem (nameOf f.path) ++ "__" ++ sc))) out := by
  by_cases hemp : files.isEmpty = true
  · have hfn : files = [] := by
      cases hf : files with
      | nil => rfl
      | cons a b => rw [hf] at hemp; simp at hemp
    subst hfn
    refine ⟨[], ?_, List.Forall₂.nil⟩
    rfl
  · obtain ⟨res, hfold, hsnd, suffix, hfst, hfa⟩ :=
      filesFold_char fs render quality files ([], false) h
    rw [List.nil_append] at hfst
    have hwfs : ∀ it ∈ suffix, wfAttachItem it = true := by
      intro it hit
      obtain ⟨sid, _, _, hwf⟩ := forall2_mem_right _ hfa it hit
      exact hwf
    have hattach : attach_claim_animation_links suffix = Except.ok (attachPure suffix) :=
      attachE_eq suffix hwfs
    refine ⟨attachPure suffix, ?_, ?_⟩
    · rw [show render_all fs files render quality =
        (if files.isEmpty then Except.ok ((0 : Nat), ([] : List J))
         else Except.bind (files.foldlM (mainFileStep fs render quality) ([], false))
          (fun itemsErrors => Except.bind (attach_claim_animation_links itemsErrors.1)
            (fun out => Except.ok ((if itemsErrors.2 then 1 else 0), out)))) from rfl]
      rw [if_neg (by simpa using hemp), hfold]
      simp only [Except.bind]
      rw [hfst, hattach]
      simp only [Except.bind]
      rw [hsnd]
      rw [Bool.false_or]
    · have hatt2 := attachE_ok_forall2 suffix (attachPure suffix) hattach
      refine forall2_trans
        (fun sid it => jGet it "id" = J.str sid ∧ wfAttachItem it = true)
        (fun u o => ∀ k, ¬ (k = "proof") → jGet o k = jGet u k)
        (fun sid it => jGet it "id" = J.str sid) ?_ hfa hatt2
      intro sid it o hr ho
      rw [ho "id" (by decide), hr.1]

theorem buildProofE_empty (tid : String) (sceneJ : J) (idx : Nat) :
    buildProofE none [] tid sceneJ idx = Except.ok (J.obj
      [("title", J.null), ("description", J.null), ("statement", J.str ""),
       ("steps", J.arr []),
       ("claims", J.arr [J.obj [("id", J.str "main"), ("label", J.str "main")]]),
       ("activeClaimId", J.str "main"), ("theoremId", J.str tid)]) := by
  have hpick : pick_claim_for_scene [] sceneJ idx = Except.ok none := by
    rw [show pick_claim_for_scene [] sceneJ idx =
      (if h : idx < ([] : List J).length then
        Except.ok (some (([] : List J).get ⟨idx, h⟩))
       else Except.ok (([] : List J).head?)) from rfl]
    rw [dif_neg (by simp)]
    rfl
  rw [show buildProofE none [] tid sceneJ idx =
    Except.bind (pick_claim_for_scene [] sceneJ idx) (fun selected? =>
      Except.bind (stepsOfE selected? none) (fun steps =>
      Except.bind (fieldOrE none none "title") (fun title =>
      Except.bind (fieldOrE none none "description") (fun description =>
      Except.bind (fieldOrE none none "statement") (fun statement =>
      Except.bind (([] : List J).mapM claimRefJ) (fun claimsJ =>
      Except.bind (activeOfSelectedE selected?) (fun act =>
      Except.ok (J.obj
        [("title", title), ("description", description),
         ("statement", pyOr statement (J.str "")), ("steps", steps),
         ("claims", J.arr (if claimsJ.isEmpty then
            [J.obj [("id", J.str "main"), ("label", J.str "main")]] else claimsJ)),
         ("activeClaimId", act), ("theoremId", J.str tid)])))))))) from rfl, hpick]
  rfl

/-- A renderer that fails on every scene except `"B"`. -/
def c7Render : String → String → Option (String × List J) :=
  fun _ sc => if sc == "B" then some ("proofs/B.mp4", []) else none

/-- Witness for `c7_render_failures`: one file with scenes `A` (fails) and `B`
(succeeds) — the run returns exit code 1 with exactly the entry `a__B`. -/
theorem c7_render_failures_witness :
    ∃ out, render_all ⟨[]⟩ [SrcFile.mk "a.py" ["A", "B"]] c7Render "m" =
        Except.ok (1, out) ∧
      List.Forall₂ (fun sid it => jGet it "id" = J.str sid) ["a__B"] out :=
  c7_render_failures ⟨[]⟩ [SrcFile.mk "a.py" ["A", "B"]] c7Render "m" (by
    intro f hf
    rcases List.mem_singleton.mp hf with rfl
    exact ⟨"a", rfl, fun scene idx => ⟨_, buildProofE_empty "a" (J.str scene) idx⟩⟩)
